import Mathlib

/-!
# Principled VDB volume rendering: render-thread proxy, registry and frame pass

A shallow embedding of `VdbPrincipledSceneProxy.{h,cpp}` and
`VdbPrincipledRendering.cpp`.

Conventions of the embedding

* Pointers are natural numbers (addresses); a nullable pointer to a resource is an
  `Option` of the pointee.
* `float` / `double` scalars are idealised as exact integers (`Scalar`): no rounding,
  no NaN.  Where the outcome depends on how doubles compare, in the depth sort of
  `Render_RenderThread`, the computed double is an `FDouble`, which has NaN.
  `uint32` values are naturals taken modulo `2 ^ 32` where the source can wrap,
  `int32` values are integers.
* `TArray<T>` is a `List T`; `Add` / `Emplace` append at the end.
* Render-graph passes are recorded, in issue order, in a list of `FRDGPass`.
-/

namespace Vdb

/-! ## Engine value types -/

/-- Idealised floating-point scalar. -/
abbrev Scalar := Int

/-- Address of an `FSceneView`. -/
abbrev FSceneViewPtr := Nat

/-- Address of an `FVdbPrincipledSceneProxy`. -/
abbrev ProxyPtr := Nat

structure FVector where
  X : Scalar
  Y : Scalar
  Z : Scalar
  deriving DecidableEq, Repr

structure FVector4 where
  X : Scalar
  Y : Scalar
  Z : Scalar
  W : Scalar
  deriving DecidableEq, Repr

structure FLinearColor where
  R : Scalar
  G : Scalar
  B : Scalar
  A : Scalar
  deriving DecidableEq, Repr

structure FIntPoint where
  X : Int
  Y : Int
  deriving DecidableEq, Repr

/-- Row-major 4x4 matrix: `M[i][j]` is component `j` of `Row i`. -/
structure FMatrix where
  Row0 : FVector4
  Row1 : FVector4
  Row2 : FVector4
  Row3 : FVector4
  deriving DecidableEq, Repr

/-- Engine `FMatrix::TransformPosition`: the row vector `(X, Y, Z, 1)` times the matrix. -/
def FMatrix.TransformPosition (M : FMatrix) (P : FVector) : FVector4 :=
  { X := P.X * M.Row0.X + P.Y * M.Row1.X + P.Z * M.Row2.X + M.Row3.X
    Y := P.X * M.Row0.Y + P.Y * M.Row1.Y + P.Z * M.Row2.Y + M.Row3.Y
    Z := P.X * M.Row0.Z + P.Y * M.Row1.Z + P.Z * M.Row2.Z + M.Row3.Z
    W := P.X * M.Row0.W + P.Y * M.Row1.W + P.Z * M.Row2.W + M.Row3.W }

/-- Engine `FBoxSphereBounds`; `GetSphere().Center` is `Origin`. -/
structure FBoxSphereBounds where
  Origin : FVector
  BoxExtent : FVector
  SphereRadius : Scalar
  deriving DecidableEq, Repr

/-! ## `TArray` operations used by the sources -/

/-- The engine constant `INDEX_NONE`. -/
def INDEX_NONE : Int := -1

/-- Engine `TArray::Find`: index of the first element equal to `Item`, else `INDEX_NONE`. -/
def TArray.Find {α : Type} [DecidableEq α] : List α → α → Int
  | [], _ => INDEX_NONE
  | x :: xs, Item =>
    if x = Item then 0
    else
      let r := TArray.Find xs Item
      if r = INDEX_NONE then INDEX_NONE else r + 1

/-- Engine `TArray::Add` / `TArray::Emplace`: append at the end. -/
def TArray.Add {α : Type} (A : List α) (Item : α) : List α := A ++ [Item]

/-- Engine `TArray::Remove`: removes every element equal to `Item`, keeping the order of the rest. -/
def TArray.Remove {α : Type} [DecidableEq α] (A : List α) (Item : α) : List α :=
  A.filter (fun x => decide (x ≠ Item))

/-- Engine `TArray::FilterByPredicate`: the matching elements, in array order. -/
def TArray.FilterByPredicate {α : Type} (A : List α) (Pred : α → Bool) : List α :=
  A.filter Pred

/-! ## Proxy data (`VdbPrincipledSceneProxy.h`) -/

/-- An `FVdbRenderBuffer`; only its shader resource view is observed. -/
structure FVdbRenderBuffer where
  BufferSRV : Nat
  deriving DecidableEq, Repr

structure FVdbPrincipledParams where
  VdbDensity : Option FVdbRenderBuffer
  VdbTemperature : Option FVdbRenderBuffer
  IndexMin : FVector
  IndexSize : FVector
  IndexToLocal : FMatrix
  MaxRayDepth : Nat
  SamplesPerPixel : Nat
  StepSize : Scalar
  VoxelSize : Scalar
  Color : FLinearColor
  DensityMult : Scalar
  Albedo : Scalar
  Anisotropy : Scalar
  EmissionStrength : Scalar
  EmissionColor : FLinearColor
  BlackbodyTint : FLinearColor
  BlackbodyIntensity : Scalar
  Temperature : Scalar
  UseDirectionalLight : Scalar
  UseEnvironmentLight : Scalar
  deriving DecidableEq, Repr

/-- A pooled render target: its extent and the identity of the pool element. -/
structure IPooledRenderTarget where
  Extent : FIntPoint
  Id : Nat
  deriving DecidableEq, Repr

/-- Render-thread proxy.  `Bounds` and `LocalToWorld` are the `FPrimitiveSceneProxy`
base-class state read by the renderer; `OffscreenRenderTarget0/1` are the two entries of
`OffscreenRenderTarget[2]` (`none` is an invalid `TRefCountPtr`). -/
structure FVdbPrincipledSceneProxy where
  Params : FVdbPrincipledParams
  DisplayBounds : Bool
  LevelSet : Bool
  OffscreenRenderTarget0 : Option IPooledRenderTarget
  OffscreenRenderTarget1 : Option IPooledRenderTarget
  VisibleViews : List FSceneViewPtr
  Bounds : FBoxSphereBounds
  LocalToWorld : FMatrix
  deriving DecidableEq, Repr

namespace FVdbPrincipledSceneProxy

def GetParams (P : FVdbPrincipledSceneProxy) : FVdbPrincipledParams := P.Params

def GetDisplayBounds (P : FVdbPrincipledSceneProxy) : Bool := P.DisplayBounds

def IsLevelSet (P : FVdbPrincipledSceneProxy) : Bool := P.LevelSet

def GetBounds (P : FVdbPrincipledSceneProxy) : FBoxSphereBounds := P.Bounds

def GetLocalToWorld (P : FVdbPrincipledSceneProxy) : FMatrix := P.LocalToWorld

/-- Read of `OffscreenRenderTarget[idx]` for a boolean index (`false` is 0, `true` is 1). -/
def Slot (P : FVdbPrincipledSceneProxy) (idx : Bool) : Option IPooledRenderTarget :=
  if idx then P.OffscreenRenderTarget1 else P.OffscreenRenderTarget0

/-- Assignment to `OffscreenRenderTarget[idx]`. -/
def SetSlot (P : FVdbPrincipledSceneProxy) (idx : Bool) (rt : Option IPooledRenderTarget) :
    FVdbPrincipledSceneProxy :=
  if idx then { P with OffscreenRenderTarget1 := rt } else { P with OffscreenRenderTarget0 := rt }

/-- Source: `void ResetVisibility() { VisibleViews.Empty(4); }` -/
def ResetVisibility (P : FVdbPrincipledSceneProxy) : FVdbPrincipledSceneProxy :=
  { P with VisibleViews := [] }

/-- Source: `bool IsVisible(const FSceneView* View) const
{ return VisibleViews.Find(View) != INDEX_NONE; }` -/
def IsVisible (P : FVdbPrincipledSceneProxy) (View : FSceneViewPtr) : Bool :=
  decide (TArray.Find P.VisibleViews View ≠ INDEX_NONE)

/-- The statement `VisibleViews.Add(View);` of `GetDynamicMeshElements`. -/
def RecordVisible (P : FVdbPrincipledSceneProxy) (View : FSceneViewPtr) :
    FVdbPrincipledSceneProxy :=
  { P with VisibleViews := TArray.Add P.VisibleViews View }

/-- The `for (ViewIndex ...)` loop of `GetDynamicMeshElements`, from `ViewIndex` on, over the
remaining views.  `IsShown` is the base-class test `FPrimitiveSceneProxy::IsShown`;
`VisibilityMap & (1 << ViewIndex)` is bit `ViewIndex` of the map. -/
def GetDynamicMeshElementsLoop (IsShown : FSceneViewPtr → Bool) (VisibilityMap : Nat) :
    Nat → List FSceneViewPtr → FVdbPrincipledSceneProxy → FVdbPrincipledSceneProxy
  | _, [], P => P
  | ViewIndex, View :: Rest, P =>
    if IsShown View && VisibilityMap.testBit ViewIndex then
      GetDynamicMeshElementsLoop IsShown VisibilityMap (ViewIndex + 1) Rest (RecordVisible P View)
    else
      GetDynamicMeshElementsLoop IsShown VisibilityMap (ViewIndex + 1) Rest P

/-- Source `GetDynamicMeshElements`, restricted to its effect on the proxy (the bound drawing goes to
the collector). -/
def GetDynamicMeshElements (IsShown : FSceneViewPtr → Bool) (Views : List FSceneViewPtr)
    (VisibilityMap : Nat) (P : FVdbPrincipledSceneProxy) : FVdbPrincipledSceneProxy :=
  if P.Params.VdbDensity.isNone then P
  else GetDynamicMeshElementsLoop IsShown VisibilityMap 0 Views P

/-- The views that one call of `GetDynamicMeshElements` records, in order. -/
def RecordedViews (IsShown : FSceneViewPtr → Bool) (VisibilityMap : Nat) :
    Nat → List FSceneViewPtr → List FSceneViewPtr
  | _, [] => []
  | ViewIndex, View :: Rest =>
    if IsShown View && VisibilityMap.testBit ViewIndex then
      View :: RecordedViews IsShown VisibilityMap (ViewIndex + 1) Rest
    else
      RecordedViews IsShown VisibilityMap (ViewIndex + 1) Rest

/-- Source `Update`: five assignments to `Params`, in source order. -/
def Update (P : FVdbPrincipledSceneProxy) (InIndexToLocal : FMatrix) (InIndexMin : FVector)
    (InIndexSize : FVector) (DensityBuffer : Option FVdbRenderBuffer)
    (TemperatureBuffer : Option FVdbRenderBuffer) : FVdbPrincipledSceneProxy :=
  let P1 := { P with Params := { P.Params with VdbDensity := DensityBuffer } }
  let P2 := { P1 with Params := { P1.Params with IndexMin := InIndexMin } }
  let P3 := { P2 with Params := { P2.Params with IndexSize := InIndexSize } }
  let P4 := { P3 with Params := { P3.Params with IndexToLocal := InIndexToLocal } }
  { P4 with Params := { P4.Params with VdbTemperature := TemperatureBuffer } }

end FVdbPrincipledSceneProxy

/-! ## Engine sort (`TArray::Sort`)

`TArray::Sort(Predicate)` forwards to `Algo::IntroSort`, an engine routine that is not part
of the plugin sources.  It is embedded here after the engine's `Algo/IntroSort.h` and
`Algo/BinaryHeap.h`: ranges of at most eight elements are ordered by repeated selection of
the last element ("simple bubble-sort" in the engine's words), longer ranges are split
around a pivot, and a range that exhausts its depth budget is heap-sorted.  The array is a
list; indices are offsets from its start.  The loops of the engine are recursions on the
number of remaining iterations. -/

namespace Algo

/-- Element `A[i]` for an index inside the array. -/
def At {α : Type} [Inhabited α] (A : List α) (i : Nat) : α := A.getD i default

/-- Engine `Swap(A[i], A[j])`. -/
def Swap {α : Type} [Inhabited α] (A : List α) (i j : Nat) : List α :=
  (A.set i (At A j)).set j (At A i)

/-- Inner loop of the short-range pass:
`for (Max = Current.Min, Item = Current.Min + 1; Item <= Current.Max; Item++)
   if (Predicate(*Max, *Item)) Max = Item;`
The last argument counts the iterations that remain. -/
def ScanMax {α : Type} [Inhabited α] (Predicate : α → α → Bool) (A : List α) :
    Nat → Nat → Nat → Nat
  | Max, _, 0 => Max
  | Max, Item, n + 1 =>
    ScanMax Predicate A (if Predicate (At A Max) (At A Item) then Item else Max) (Item + 1) n

/-- Short-range pass (`Count <= 8`):
`while (Current.Max > Current.Min) { ...; Swap(*Max, *Current.Max--); }`
with `Current.Max = Min + d`. -/
def BubbleSort {α : Type} [Inhabited α] (Predicate : α → α → Bool) (Min : Nat) :
    Nat → List α → List α
  | 0, A => A
  | d + 1, A =>
    BubbleSort Predicate Min d (Swap A (ScanMax Predicate A Min (Min + 1) (d + 1)) (Min + d + 1))

/-- Pivot scan upwards:
`while (++Inner.Min <= Current.Max && !Predicate(*Current.Min, *Inner.Min));`
`i` is `Inner.Min` after the increment; the first argument bounds the remaining steps. -/
def ScanUp {α : Type} [Inhabited α] (Predicate : α → α → Bool) (A : List α) (CMin CMax : Nat) :
    Nat → Nat → Nat
  | 0, i => i
  | n + 1, i =>
    if decide (i ≤ CMax) && !Predicate (At A CMin) (At A i) then
      ScanUp Predicate A CMin CMax n (i + 1)
    else i

/-- Pivot scan downwards:
`while (--Inner.Max > Current.Min && !Predicate(*Inner.Max, *Current.Min));`
the argument is `Inner.Max` after the decrement. -/
def ScanDown {α : Type} [Inhabited α] (Predicate : α → α → Bool) (A : List α) (CMin : Nat) :
    Nat → Nat
  | 0 => 0
  | j + 1 =>
    if decide (j + 1 > CMin) && !Predicate (At A (j + 1)) (At A CMin) then
      ScanDown Predicate A CMin j
    else j + 1

/-- Partition loop `for (;;) { scan up; scan down; if (Inner.Min > Inner.Max) break;
Swap(*Inner.Min, *Inner.Max); }`; returns the array and the final `Inner.Max`.  The first
argument bounds the number of rounds (the range length is enough). -/
def PartitionLoop {α : Type} [Inhabited α] (Predicate : α → α → Bool) (CMin CMax : Nat) :
    Nat → List α → Nat → Nat → List α × Nat
  | 0, A, _, InnerMax => (A, InnerMax)
  | n + 1, A, InnerMin, InnerMax =>
    let i := ScanUp Predicate A CMin CMax (CMax - InnerMin) (InnerMin + 1)
    let j := ScanDown Predicate A CMin (InnerMax - 1)
    if i > j then (A, j)
    else PartitionLoop Predicate CMin CMax n (Swap A i j) i j

/-- Engine `AlgoImpl::HeapSiftDown` on the heap stored at `First .. First + Count - 1`; the
first argument bounds the number of rounds. -/
def HeapSiftDown {α : Type} [Inhabited α] (Predicate : α → α → Bool) (First Count : Nat) :
    Nat → List α → Nat → List α
  | 0, A, _ => A
  | n + 1, A, Index =>
    if 2 * Index + 1 ≥ Count then A
    else
      let LeftChildIndex := 2 * Index + 1
      let RightChildIndex := LeftChildIndex + 1
      let MinChildIndex :=
        if RightChildIndex < Count then
          (if Predicate (At A (First + LeftChildIndex)) (At A (First + RightChildIndex))
            then LeftChildIndex else RightChildIndex)
        else LeftChildIndex
      if !Predicate (At A (First + MinChildIndex)) (At A (First + Index)) then A
      else
        HeapSiftDown Predicate First Count n (Swap A (First + Index) (First + MinChildIndex))
          MinChildIndex

/-- Engine `AlgoImpl::HeapifyInternal`:
`for (Index = HeapGetParentIndex(Num - 1); Index >= 0; Index--) HeapSiftDown(...)`;
the argument is `Index + 1`. -/
def HeapifyInternal {α : Type} [Inhabited α] (Predicate : α → α → Bool) (First Num : Nat) :
    Nat → List α → List α
  | 0, A => A
  | Index + 1, A =>
    HeapifyInternal Predicate First Num Index (HeapSiftDown Predicate First Num Num A Index)

/-- Extraction loop of `HeapSortInternal`:
`for (Index = Num - 1; Index > 0; Index--) { Swap(First[0], First[Index]);
HeapSiftDown(First, 0, Index, ...); }` -/
def HeapSortLoop {α : Type} [Inhabited α] (Predicate : α → α → Bool) (First : Nat) :
    Nat → List α → List α
  | 0, A => A
  | Index + 1, A =>
    HeapSortLoop Predicate First Index
      (HeapSiftDown Predicate First (Index + 1) (Index + 1) (Swap A First (First + (Index + 1))) 0)

/-- Engine `AlgoImpl::HeapSortInternal`: heapify with the reversed predicate, then extract. -/
def HeapSortInternal {α : Type} [Inhabited α] (Predicate : α → α → Bool) (First Num : Nat)
    (A : List α) : List α :=
  let Reverse : α → α → Bool := fun x y => Predicate y x
  HeapSortLoop Reverse First (Num - 1)
    (HeapifyInternal Reverse First Num ((Num - 2) / 2 + 1) A)

/-- Body of `AlgoImpl::IntroSortInternal` for the range `CMin .. CMax` with depth budget
`MaxDepth`.  The engine keeps the larger half on an explicit stack and continues with the
smaller one; the recursion below sorts the halves in that order.  The first argument bounds
the nesting (the range length is enough). -/
def IntroSortLoop {α : Type} [Inhabited α] (Predicate : α → α → Bool) :
    Nat → List α → Nat → Nat → Nat → List α
  | 0, A, _, _, _ => A
  | n + 1, A, CMin, CMax, MaxDepth =>
    let Count := CMax - CMin + 1
    if MaxDepth = 0 then HeapSortInternal Predicate CMin Count A
    else if Count ≤ 8 then BubbleSort Predicate CMin (CMax - CMin) A
    else
      let A1 := Swap A (CMin + Count / 2) CMin
      let r := PartitionLoop Predicate CMin CMax Count A1 CMin (CMax + 1)
      let InnerMax := r.2
      let A2 := Swap r.1 CMin InnerMax
      if InnerMax + InnerMax ≥ CMax + CMin + 1 then
        let A3 := if CMax > InnerMax then
          IntroSortLoop Predicate n A2 (InnerMax + 1) CMax (MaxDepth - 1) else A2
        if CMin + 1 < InnerMax then
          IntroSortLoop Predicate n A3 CMin (InnerMax - 1) (MaxDepth - 1) else A3
      else
        let A3 := if CMin + 1 < InnerMax then
          IntroSortLoop Predicate n A2 CMin (InnerMax - 1) (MaxDepth - 1) else A2
        if CMax > InnerMax then
          IntroSortLoop Predicate n A3 (InnerMax + 1) CMax (MaxDepth - 1) else A3

/-- Initial depth budget `(uint32)(FMath::Loge((float)Num) * 2.f)`, evaluated in single
precision: the conversion of `Num`, the logarithm and the product are each rounded to the
nearest `float`, and the result is truncated.  The budget does not decrease with `Num`, so it
is the number of thresholds that do not exceed `Num`, the `k`-th threshold being the least
`Num` whose budget is `k` or more (`Num` is an `int32`, so the budget is at most 42).  Up to
`k = 27` the thresholds are `ceil(exp(k / 2))`; from `k = 28` on the rounding of the logarithm
moves them down (`Num = 1202604` has budget 28).  The budget only selects between the
partition pass and the heap sort; the results about the sort are proved for every budget. -/
def LogeTimes2 (Num : Nat) : Nat :=
  ([2, 3, 5, 8, 13, 21, 34, 55, 91, 149, 245, 404, 666, 1097, 1809, 2981, 4915, 8104, 13360,
    22027, 36316, 59875, 98716, 162755, 268338, 442414, 729417, 1202604, 1982759, 3269016,
    5389696, 8886107, 14650706, 24154930, 39824747, 65659907, 108254885, 178482136,
    294267281, 485164720, 799901408, 1318814529].filter
      (fun t => decide (t ≤ Num))).length

/-- Engine `Algo::IntroSort(Range, Predicate)`. -/
def IntroSort {α : Type} [Inhabited α] (Predicate : α → α → Bool) (A : List α) : List α :=
  if A.length < 2 then A
  else IntroSortLoop Predicate A.length A 0 (A.length - 1) (LogeTimes2 A.length)

/-- Array `B` is array `A` with the entries at the indices `lo .. hi` rearranged. -/
def RangePerm {α : Type} [Inhabited α] (lo hi : Nat) (A B : List α) : Prop :=
  B.length = A.length ∧
    ∃ σ : Equiv.Perm Nat, (∀ i, ¬(lo ≤ i ∧ i ≤ hi) → σ i = i) ∧ ∀ i, At B i = At A (σ i)

/-- The entries at the indices `lo .. hi` are in non-decreasing order of `key`. -/
def SortedOn {α : Type} [Inhabited α] (key : α → Int) (A : List α) (lo hi : Nat) : Prop :=
  ∀ i j, lo ≤ i → i < j → j ≤ hi → key (At A i) ≤ key (At A j)

/-- Max-heap order (by `key`) on the entries `First + i`, `i < Count`, at every node
`i ≥ s`. -/
def HeapFrom {α : Type} [Inhabited α] (key : α → Int) (A : List α) (First Count s : Nat) :
    Prop :=
  ∀ i c, s ≤ i → (c = 2 * i + 1 ∨ c = 2 * i + 2) → c < Count →
    key (At A (First + c)) ≤ key (At A (First + i))

/-- Predicates `P` and `Q` give the same answer on every two entries of `A`. -/
def Agree {α : Type} [Inhabited α] (P Q : α → α → Bool) (A : List α) : Prop :=
  ∀ i j, i < A.length → j < A.length → P (At A i) (At A j) = Q (At A i) (At A j)

end Algo

/-- Engine `TArray::Sort(Predicate)`: unstable sort through `Algo::IntroSort`.  For an array of
pointers the predicate is applied to the pointees; the caller passes it in that form. -/
def TArray.Sort {α : Type} [Inhabited α] (A : List α) (Predicate : α → α → Bool) : List α :=
  Algo.IntroSort Predicate A

/-! ## Views and render-graph values -/

/-- The part of `FSceneViewState` read by the renderer. -/
structure FSceneViewState where
  PathTracingSampleIndex : Nat
  deriving DecidableEq, Repr

/-- The part of an `FSceneView` (`FViewInfo`) read by the renderer.
`PathTracing` is `Family->EngineShowFlags.PathTracing`, `ViewMatrix` is
`ViewMatrices.GetViewMatrix()`, `PathTracingSamplesPerPixel` is the `int32` of
`FinalPostProcessSettings`. -/
structure FSceneView where
  ViewMatrix : FMatrix
  PathTracing : Bool
  ViewState : Option FSceneViewState
  PathTracingSamplesPerPixel : Int
  deriving DecidableEq, Repr

/-- A render-graph texture: an external pooled render target registered with the graph, the
scene colour target, or the texture returned by the denoiser. -/
inductive FRDGTexture where
  | External (RenderTarget : Option IPooledRenderTarget)
  | ColorTexture
  | Denoised (Input : FRDGTexture) (Method : Nat)
  deriving DecidableEq, Repr

/-- Fields of `FPostOpaqueRenderParameters` used by the pass: `Uid` is the address of the view,
`View` its contents, `Extent` is `ColorTexture->Desc.Extent`. -/
structure FPostOpaqueRenderParameters where
  Uid : FSceneViewPtr
  View : FSceneView
  Extent : FIntPoint
  deriving DecidableEq, Repr

/-- Uniform parameter block `FVdbPrincipledShaderParams`. -/
structure FVdbPrincipledShaderParams where
  VdbDensity : Nat
  VdbTemperature : Nat
  VolumeScale : FVector
  VolumeTranslation : FVector
  VolumeToLocal : FMatrix
  LocalToWorld : FMatrix
  WorldToLocal : FMatrix
  SamplesPerPixel : Nat
  StepSize : Scalar
  VoxelSize : Scalar
  MaxRayDepth : Nat
  Color : FVector
  DensityMult : Scalar
  Albedo : Scalar
  Anisotropy : Scalar
  EmissionColor : FVector
  EmissionStrength : Scalar
  BlackbodyTint : FVector
  BlackbodyIntensity : Scalar
  Temperature : Scalar
  UseDirectionalLight : Scalar
  UseEnvironmentLight : Scalar
  deriving DecidableEq, Repr

/-- Pixel-shader parameters `FVdbPrincipledPS::FParameters` (`RenderTarget0` is
`RenderTargets[0]`, bound with load action `EClear`). -/
structure FVdbPrincipledPSParameters where
  View : FSceneViewPtr
  PrevAccumTex : FRDGTexture
  NumAccumulations : Nat
  VdbGlobalParams : FVdbPrincipledShaderParams
  DisplayBounds : Bool
  RenderTarget0 : FRDGTexture
  deriving DecidableEq, Repr

/-- Pixel-shader permutation `FVdbPrincipledPS::FPermutationDomain`. -/
structure FPermutationDomain where
  FPathTracing : Bool
  FUseTemperature : Bool
  deriving DecidableEq, Repr

/-- A pass or post-step issued by `Render_RenderThread`, tagged with the proxy of the loop
iteration that issued it. -/
inductive FRDGPass where
  | VdbPrincipledRendering (Proxy : ProxyPtr) (ParametersPS : FVdbPrincipledPSParameters)
      (PermutationVector : FPermutationDomain)
  | ApplyDenoising (Proxy : ProxyPtr) (InputTexture : FRDGTexture) (Method : Nat)
  | CompositeFullscreen (Proxy : ProxyPtr) (InputTexture : FRDGTexture) (View : FSceneViewPtr)
  deriving DecidableEq, Repr

namespace FRDGPass

/-- The proxy whose loop iteration issued the pass. -/
def Proxy : FRDGPass → ProxyPtr
  | VdbPrincipledRendering p _ _ => p
  | ApplyDenoising p _ _ => p
  | CompositeFullscreen p _ _ => p

/-- The pass is the ray-march draw. -/
def IsDraw : FRDGPass → Bool
  | VdbPrincipledRendering _ _ _ => true
  | _ => false

/-- The pass is the denoise step. -/
def IsDenoise : FRDGPass → Bool
  | ApplyDenoising _ _ _ => true
  | _ => false

/-- The pass is the composite step. -/
def IsComposite : FRDGPass → Bool
  | CompositeFullscreen _ _ _ => true
  | _ => false

/-- The texture a pass writes: the bound render target of the draw, the denoiser's result,
the scene colour for the composite. -/
def Writes : FRDGPass → FRDGTexture
  | VdbPrincipledRendering _ ps _ => ps.RenderTarget0
  | ApplyDenoising _ t m => FRDGTexture.Denoised t m
  | CompositeFullscreen _ _ _ => FRDGTexture.ColorTexture

end FRDGPass

/-! ## Render-target pool and `GetOrCreateRenderTarget` -/

/-- The engine's `GRenderTargetPool`, reduced to an allocation oracle: request number `n`
succeeds when `CanAllocate n` holds and then yields the pool element `n`. -/
structure FRenderTargetPool where
  NextId : Nat
  CanAllocate : Nat → Bool

/-- Engine `FRenderTargetPool::FindFreeElement(RHICmdList, Desc, Out, Name)`: a valid `Out`
whose description matches is kept; otherwise `Out` is released and a pool element is
requested, leaving `Out` invalid when the request fails. -/
def FRenderTargetPool.FindFreeElement (Pool : FRenderTargetPool) (Extent : FIntPoint)
    (Out : Option IPooledRenderTarget) : FRenderTargetPool × Option IPooledRenderTarget :=
  let Request : FRenderTargetPool × Option IPooledRenderTarget :=
    ({ Pool with NextId := Pool.NextId + 1 },
      if Pool.CanAllocate Pool.NextId then some { Extent := Extent, Id := Pool.NextId } else none)
  match Out with
  | some rt => if rt.Extent = Extent then (Pool, Out) else Request
  | none => Request

/-- Result of `GetOrCreateRenderTarget`: the proxy, the pool and the registered texture. -/
structure FRenderTargetResult where
  Proxy : FVdbPrincipledSceneProxy
  Pool : FRenderTargetPool
  Texture : FRDGTexture

/-- Source `FVdbPrincipledSceneProxy::GetOrCreateRenderTarget(GraphBuilder, RtSize, EvenFrame)`. -/
def FVdbPrincipledSceneProxy.GetOrCreateRenderTarget (P : FVdbPrincipledSceneProxy)
    (Pool : FRenderTargetPool) (RtSize : FIntPoint) (EvenFrame : Bool) : FRenderTargetResult :=
  let Stale : Bool :=
    match P.Slot EvenFrame with
    | none => true
    | some rt => decide (rt.Extent ≠ RtSize)
  if Stale then
    let r0 := Pool.FindFreeElement RtSize (P.Slot false)
    let P0 := P.SetSlot false r0.2
    let r1 := r0.1.FindFreeElement RtSize (P0.Slot true)
    let P1 := P0.SetSlot true r1.2
    { Proxy := P1, Pool := r1.1, Texture := FRDGTexture.External (P1.Slot EvenFrame) }
  else
    { Proxy := P, Pool := Pool, Texture := FRDGTexture.External (P.Slot EvenFrame) }

/-! ## Frame renderer (`VdbPrincipledRendering.cpp`) -/

/-- The lambda `LinearColorToVector` of `CreateVdbUniformBuffer`. -/
def LinearColorToVector (Col : FLinearColor) : FVector := { X := Col.R, Y := Col.G, Z := Col.B }

/-- Source `CreateVdbUniformBuffer(GraphBuilder, Proxy, UsePathTracing)`.  `Inverse` is the
engine's `FMatrix::Inverse`.  The function dereferences `Params.VdbDensity`; the result is
`none` when that pointer is null. -/
def CreateVdbUniformBuffer (Inverse : FMatrix → FMatrix) (Proxy : FVdbPrincipledSceneProxy)
    (UsePathTracing : Bool) : Option FVdbPrincipledShaderParams :=
  let Params := Proxy.GetParams
  match Params.VdbDensity with
  | none => none
  | some Density =>
    let VdbDensity := Density.BufferSRV
    some
      { VdbDensity := VdbDensity
        VdbTemperature :=
          match Params.VdbTemperature with
          | some Temperature => Temperature.BufferSRV
          | none => VdbDensity
        VolumeScale := Params.IndexSize
        VolumeTranslation := Params.IndexMin
        VolumeToLocal := Params.IndexToLocal
        LocalToWorld := Proxy.GetLocalToWorld
        WorldToLocal := Inverse Proxy.GetLocalToWorld
        SamplesPerPixel := if UsePathTracing then 1 else Params.SamplesPerPixel
        StepSize := Params.StepSize
        VoxelSize := Params.VoxelSize
        MaxRayDepth := Params.MaxRayDepth
        Color := LinearColorToVector Params.Color
        DensityMult := Params.DensityMult
        Albedo := Params.Albedo
        Anisotropy := Params.Anisotropy
        EmissionColor := LinearColorToVector Params.EmissionColor
        EmissionStrength := Params.EmissionStrength
        BlackbodyTint := LinearColorToVector Params.BlackbodyTint
        BlackbodyIntensity := Params.BlackbodyIntensity
        Temperature := Params.Temperature
        UseDirectionalLight := Params.UseDirectionalLight
        UseEnvironmentLight := Params.UseEnvironmentLight }

/-- The permutation vector set up for the pixel shader in `Render_RenderThread`. -/
def PermutationVector (Proxy : FVdbPrincipledSceneProxy) (UsePathTracing : Bool) :
    FPermutationDomain :=
  { FPathTracing := UsePathTracing
    FUseTemperature := Proxy.GetParams.VdbTemperature.isSome }

/-- Modelled from the spec: `VdbDenoiser::ApplyDenoising` is not among the sources; the spec
gives it as "denoise(texture) -> texture".  The returned texture is kept symbolic. -/
def VdbDenoiser.ApplyDenoising (InputTexture : FRDGTexture) (DenoiserMethod : Nat) :
    FRDGTexture :=
  FRDGTexture.Denoised InputTexture DenoiserMethod

/-- Render-thread state of the manager `FVdbPrincipledRendering`. -/
structure FVdbPrincipledRendering where
  VdbProxies : List ProxyPtr
  DenoiserMethod : Nat
  deriving DecidableEq, Repr

/-- Render-thread memory: the proxies by address, and the render-target pool. -/
structure FRenderThreadState where
  Proxies : ProxyPtr → FVdbPrincipledSceneProxy
  Pool : FRenderTargetPool

/-- Conversion of an `int32` to `uint32`. -/
def ToUInt32 (x : Int) : Nat := (x % 4294967296).toNat

/-- View-space depth used as sort key: `ViewMat.TransformPosition(Center).Z`, with `Center`
the centre of the proxy's bounding sphere, in exact arithmetic on numbers.  The program
computes this value in `double`, where it is rounded and can be NaN; the sort on the computed
doubles is `SortByComputedDepth`. -/
def ViewDepth (ViewMat : FMatrix) (Proxy : FVdbPrincipledSceneProxy) : Scalar :=
  (ViewMat.TransformPosition Proxy.GetBounds.Origin).Z

/-- The comparator passed to `SortedVdbProxies.Sort`. -/
def SortPredicate (ViewMat : FMatrix) (Lhs Rhs : FVdbPrincipledSceneProxy) : Bool :=
  decide (ViewDepth ViewMat Lhs > ViewDepth ViewMat Rhs)

/-- The candidate list `VdbProxies.FilterByPredicate(...)` of `Render_RenderThread`. -/
def FilteredVdbProxies (VdbProxies : List ProxyPtr) (Mem : ProxyPtr → FVdbPrincipledSceneProxy)
    (View : FSceneViewPtr) : List ProxyPtr :=
  TArray.FilterByPredicate VdbProxies (fun Proxy => (Mem Proxy).IsVisible View && !(Mem Proxy).IsLevelSet)

/-- The sort `SortedVdbProxies.Sort(...)` of `Render_RenderThread`, applied to a candidate list. -/
def SortBackToFront (Mem : ProxyPtr → FVdbPrincipledSceneProxy) (ViewMat : FMatrix)
    (Candidates : List ProxyPtr) : List ProxyPtr :=
  TArray.Sort Candidates (fun Lhs Rhs => SortPredicate ViewMat (Mem Lhs) (Mem Rhs))

/-- `SortedVdbProxies` of `Render_RenderThread`: the filtered registry, sorted. -/
def SortedVdbProxies (VdbProxies : List ProxyPtr) (Mem : ProxyPtr → FVdbPrincipledSceneProxy)
    (Parameters : FPostOpaqueRenderParameters) : List ProxyPtr :=
  SortBackToFront Mem Parameters.View.ViewMatrix (FilteredVdbProxies VdbProxies Mem Parameters.Uid)

/-- A `double` as the comparisons see it: a number, given by its place in the order of the
numbers (the infinities included, the two zeros at one place), or NaN. -/
inductive FDouble where
  | Number (Place : Int)
  | NaN
  deriving DecidableEq, Repr

namespace FDouble

/-- Comparison `Lhs > Rhs` of two doubles: false as soon as one side is NaN. -/
def Gt : FDouble → FDouble → Bool
  | Number a, Number b => decide (a > b)
  | _, _ => false

/-- Comparison `Lhs >= Rhs` of two doubles: false as soon as one side is NaN. -/
def Ge : FDouble → FDouble → Bool
  | Number a, Number b => decide (a ≥ b)
  | _, _ => false

/-- An integer key that grows as a number gets smaller; the key of NaN is not used. -/
def SortKey : FDouble → Int
  | Number a => -a
  | NaN => 0

end FDouble

/-- The sort `SortedVdbProxies.Sort(...)` of `Render_RenderThread` on the doubles its
comparator computes: `Depth Proxy` is the value of `ViewMat.TransformPosition(Center).Z`
for that proxy as the program obtains it, rounded, possibly infinite or NaN; the comparator
is `Depth Lhs > Depth Rhs`. -/
def SortByComputedDepth (Depth : ProxyPtr → FDouble) (Candidates : List ProxyPtr) :
    List ProxyPtr :=
  TArray.Sort Candidates (fun Lhs Rhs => FDouble.Gt (Depth Lhs) (Depth Rhs))

/-- The accumulation count `NumAccumulations` of `Render_RenderThread`.  `RHI_RAYTRACING` is
the compile-time switch; the `uint32` subtraction is taken modulo `2 ^ 32`. -/
def NumAccumulations (RHI_RAYTRACING : Bool) (View : FSceneView) : Nat :=
  if RHI_RAYTRACING && View.PathTracing then
    match View.ViewState with
    | some ViewState =>
      if ViewState.PathTracingSampleIndex ≠ 0 then
        (ViewState.PathTracingSampleIndex + 4294967296 - 1) % 4294967296
      else 0
    | none => 0
  else 0

/-- Source: `bool IsEven = NumAccumulations % 2;` (true for an odd count). -/
def IsEven (NumAccumulations : Nat) : Bool := decide (NumAccumulations % 2 ≠ 0)

/-- The sample cap `MaxSPP` of `Render_RenderThread`: the conditional is an `int32`,
converted to `uint32`, then `FMath::Max(MaxSPP, 1u)`. -/
def MaxSPP (SamplesPerPixelCVar : Int) (PathTracingSamplesPerPixel : Int) : Nat :=
  max (ToUInt32 (if SamplesPerPixelCVar > -1 then SamplesPerPixelCVar
    else PathTracingSamplesPerPixel)) 1

/-- Frame constants of one `Render_RenderThread` call, as seen by the loop body. -/
structure FFrame where
  Uid : FSceneViewPtr
  RtSize : FIntPoint
  UsePathTracing : Bool
  NumAccumulations : Nat
  MaxSPP : Nat
  DenoiserMethod : Nat

/-- Body of the loop `for (FVdbPrincipledSceneProxy* Proxy : SortedVdbProxies)`. -/
def RenderProxy (Inverse : FMatrix → FMatrix) (F : FFrame) (St : FRenderThreadState)
    (Proxy : ProxyPtr) : FRenderThreadState × List FRDGPass :=
  let Curr := (St.Proxies Proxy).GetOrCreateRenderTarget St.Pool F.RtSize (IsEven F.NumAccumulations)
  let Prev := Curr.Proxy.GetOrCreateRenderTarget Curr.Pool F.RtSize (!IsEven F.NumAccumulations)
  let P := Prev.Proxy
  let St1 : FRenderThreadState :=
    { Proxies := Function.update St.Proxies Proxy P, Pool := Prev.Pool }
  let Composite (Tex : FRDGTexture) : FRDGPass := FRDGPass.CompositeFullscreen Proxy Tex F.Uid
  if decide (F.NumAccumulations < F.MaxSPP) && P.GetParams.VdbDensity.isSome then
    match CreateVdbUniformBuffer Inverse P F.UsePathTracing with
    | none => (St1, [Composite Curr.Texture])
    | some VdbUniformBuffer =>
      let ParametersPS : FVdbPrincipledPSParameters :=
        { View := F.Uid
          PrevAccumTex := Prev.Texture
          NumAccumulations := F.NumAccumulations
          VdbGlobalParams := VdbUniformBuffer
          DisplayBounds := P.GetDisplayBounds
          RenderTarget0 := Curr.Texture }
      let Draw := FRDGPass.VdbPrincipledRendering Proxy ParametersPS
        (PermutationVector P F.UsePathTracing)
      if !F.UsePathTracing then
        (St1, [Draw, FRDGPass.ApplyDenoising Proxy Curr.Texture F.DenoiserMethod,
          Composite (VdbDenoiser.ApplyDenoising Curr.Texture F.DenoiserMethod)])
      else
        (St1, [Draw, Composite Curr.Texture])
  else
    (St1, [Composite Curr.Texture])

/-- The loop over `SortedVdbProxies`, passes in issue order. -/
def RenderLoop (Inverse : FMatrix → FMatrix) (F : FFrame) :
    List ProxyPtr → FRenderThreadState → FRenderThreadState × List FRDGPass
  | [], St => (St, [])
  | Proxy :: Rest, St =>
    let r := RenderProxy Inverse F St Proxy
    let r2 := RenderLoop Inverse F Rest r.1
    (r2.1, r.2 ++ r2.2)

/-- The frame constants computed by `Render_RenderThread` before its loop. -/
def FrameOf (RHI_RAYTRACING : Bool) (SamplesPerPixelCVar : Int) (R : FVdbPrincipledRendering)
    (Parameters : FPostOpaqueRenderParameters) : FFrame :=
  { Uid := Parameters.Uid
    RtSize := Parameters.Extent
    UsePathTracing := Parameters.View.PathTracing
    NumAccumulations := NumAccumulations RHI_RAYTRACING Parameters.View
    MaxSPP := MaxSPP SamplesPerPixelCVar Parameters.View.PathTracingSamplesPerPixel
    DenoiserMethod := R.DenoiserMethod }

namespace FVdbPrincipledRendering

/-- Source `FVdbPrincipledRendering::Render_RenderThread(Parameters)`.  `SamplesPerPixelCVar` is
the value of `r.VdbPrincipled.MaxSamplesPerPixel` on the render thread. -/
def Render_RenderThread (Inverse : FMatrix → FMatrix) (RHI_RAYTRACING : Bool)
    (SamplesPerPixelCVar : Int) (R : FVdbPrincipledRendering)
    (Parameters : FPostOpaqueRenderParameters) (St : FRenderThreadState) :
    FRenderThreadState × List FRDGPass :=
  if R.VdbProxies.isEmpty then (St, [])
  else
    RenderLoop Inverse (FrameOf RHI_RAYTRACING SamplesPerPixelCVar R Parameters)
      (SortedVdbProxies R.VdbProxies St.Proxies Parameters) St

/-- The render command of `AddVdbProxy`: `check(VdbProxies.Find(Proxy) == INDEX_NONE);
VdbProxies.Emplace(Proxy);`.  A failed `check` gives `none`. -/
def AddVdbProxy (R : FVdbPrincipledRendering) (Proxy : ProxyPtr) :
    Option FVdbPrincipledRendering :=
  if TArray.Find R.VdbProxies Proxy = INDEX_NONE then
    some { R with VdbProxies := TArray.Add R.VdbProxies Proxy }
  else none

/-- The render command of `RemoveVdbProxy`. -/
def RemoveVdbProxy (R : FVdbPrincipledRendering) (Proxy : ProxyPtr) : FVdbPrincipledRendering :=
  let Idx := TArray.Find R.VdbProxies Proxy
  if Idx ≠ INDEX_NONE then { R with VdbProxies := TArray.Remove R.VdbProxies Proxy } else R

/-- The loop of `PreRenderViewFamily_RenderThread`: `ResetVisibility` on every registered proxy. -/
def PreRenderViewFamily_RenderThread (R : FVdbPrincipledRendering)
    (Mem : ProxyPtr → FVdbPrincipledSceneProxy) : ProxyPtr → FVdbPrincipledSceneProxy :=
  R.VdbProxies.foldl (fun M Proxy => Function.update M Proxy (M Proxy).ResetVisibility) Mem

end FVdbPrincipledRendering

/-- The history texture (`PrevAccumTex`) read by a draw pass. -/
def FRDGPass.History : FRDGPass → Option FRDGTexture
  | FRDGPass.VdbPrincipledRendering _ ps _ => some ps.PrevAccumTex
  | _ => none

/-- The texture handed to a composite step. -/
def FRDGPass.Composited : FRDGPass → Option FRDGTexture
  | FRDGPass.CompositeFullscreen _ t _ => some t
  | _ => none

/-! ## Concrete scenes

Small inputs on which the definitions above are evaluated. -/

/-- The identity matrix: with it as view matrix, view-space depth is the `Z` of the centre. -/
def IdentityMatrix : FMatrix :=
  { Row0 := { X := 1, Y := 0, Z := 0, W := 0 }
    Row1 := { X := 0, Y := 1, Z := 0, W := 0 }
    Row2 := { X := 0, Y := 0, Z := 1, W := 0 }
    Row3 := { X := 0, Y := 0, Z := 0, W := 1 } }

/-- A fog-volume proxy with the given buffers, visible in view `1`, whose bounding-sphere
centre is at `(0, 0, Depth)`; no render target allocated yet. -/
def SceneProxy (Density Temperature : Option FVdbRenderBuffer) (Depth : Scalar) :
    FVdbPrincipledSceneProxy :=
  { Params :=
      { VdbDensity := Density
        VdbTemperature := Temperature
        IndexMin := { X := 0, Y := 0, Z := 0 }
        IndexSize := { X := 1, Y := 1, Z := 1 }
        IndexToLocal := IdentityMatrix
        MaxRayDepth := 4
        SamplesPerPixel := 3
        StepSize := 1
        VoxelSize := 1
        Color := { R := 1, G := 1, B := 1, A := 1 }
        DensityMult := 1
        Albedo := 1
        Anisotropy := 0
        EmissionStrength := 0
        EmissionColor := { R := 0, G := 0, B := 0, A := 1 }
        BlackbodyTint := { R := 1, G := 1, B := 1, A := 1 }
        BlackbodyIntensity := 0
        Temperature := 0
        UseDirectionalLight := 1
        UseEnvironmentLight := 1 }
    DisplayBounds := false
    LevelSet := false
    OffscreenRenderTarget0 := none
    OffscreenRenderTarget1 := none
    VisibleViews := [1]
    Bounds :=
      { Origin := { X := 0, Y := 0, Z := Depth }
        BoxExtent := { X := 1, Y := 1, Z := 1 }
        SphereRadius := 2 }
    LocalToWorld := IdentityMatrix }

/-- Memory holding, at address `i`, a proxy with primary buffer `i` at depth `Depths[i]`. -/
def SceneMemory (Depths : List Scalar) : ProxyPtr → FVdbPrincipledSceneProxy :=
  fun p => SceneProxy (some { BufferSRV := p }) none (Depths.getD p 0)

/-- Computed depths: the proxy at address `i` has depth `Depths[i]`. -/
def SceneDepths (Depths : List FDouble) : ProxyPtr → FDouble :=
  fun p => Depths.getD p (FDouble.Number 0)

/-- A render-thread state over `SceneMemory` with a pool that never fails. -/
def SceneState (Depths : List Scalar) : FRenderThreadState :=
  { Proxies := SceneMemory Depths
    Pool := { NextId := 0, CanAllocate := fun _ => true } }

/-- View `1` with the identity view matrix. -/
def SceneView (PathTracing : Bool) (ViewState : Option FSceneViewState) : FSceneView :=
  { ViewMatrix := IdentityMatrix
    PathTracing := PathTracing
    ViewState := ViewState
    PathTracingSamplesPerPixel := 8 }

/-- Overlay-render parameters for view `1` on a 64 x 64 colour target. -/
def SceneParameters (PathTracing : Bool) (ViewState : Option FSceneViewState) :
    FPostOpaqueRenderParameters :=
  { Uid := 1
    View := SceneView PathTracing ViewState
    Extent := { X := 64, Y := 64 } }

/-! ## Registry commands -/

/-- The two render commands that change the registry, `FAddVdbProxyCommand` and
`FRemoveVdbProxyCommand`, as enqueued by `AddVdbProxy` and `RemoveVdbProxy`. -/
inductive FRenderCommand where
  | FAddVdbProxyCommand (Proxy : ProxyPtr)
  | FRemoveVdbProxyCommand (Proxy : ProxyPtr)
  deriving DecidableEq, Repr

namespace FVdbPrincipledRendering

/-- One processed registry command.  An add whose `check` fails is caught and not applied: the
registry stays as it was. -/
def ProcessCommand (R : FVdbPrincipledRendering) : FRenderCommand → FVdbPrincipledRendering
  | FRenderCommand.FAddVdbProxyCommand Proxy =>
    match R.AddVdbProxy Proxy with
    | some R1 => R1
    | none => R
  | FRenderCommand.FRemoveVdbProxyCommand Proxy => R.RemoveVdbProxy Proxy

/-- A sequence of processed registry commands, in submission order. -/
def ProcessCommands (R : FVdbPrincipledRendering) (Commands : List FRenderCommand) :
    FVdbPrincipledRendering :=
  Commands.foldl ProcessCommand R

end FVdbPrincipledRendering

/-! ## Sequences of render-target acquisitions -/

namespace FVdbPrincipledSceneProxy

end FVdbPrincipledSceneProxy

structure FVector2f where
  X : Scalar
  Y : Scalar
  deriving DecidableEq, Repr

/-- An `FFilterVertex`; `none` is a field left uninitialised by `SetNumUninitialized`. -/
structure FFilterVertex where
  Position : Option FVector4
  UV : Option FVector2f
  deriving DecidableEq, Repr

/-- The assignment `Vertices[i].Position = Position;`. -/
def SetPosition : List FFilterVertex → Nat → FVector4 → List FFilterVertex
  | [], _, _ => []
  | v :: vs, 0, Position => { v with Position := some Position } :: vs
  | v :: vs, i + 1, Position => v :: SetPosition vs i Position

/-- The assignment `Vertices[i].UV = UV;`. -/
def SetUV : List FFilterVertex → Nat → FVector2f → List FFilterVertex
  | [], _, _ => []
  | v :: vs, 0, UV => { v with UV := some UV } :: vs
  | v :: vs, i + 1, UV => v :: SetUV vs i UV

/-- The vertex array filled by `InitBuffers`, statement by statement, with `BboxMin = (0,0,0)`
and `BboxMax = (1,1,1)`.  The second group of `UV` assignments writes entries 0 to 3 again, as
in the source. -/
def VolumeMeshVertices : List FFilterVertex :=
  let V0 : List FFilterVertex := List.replicate 8 { Position := none, UV := none }
  let V1 := SetUV (SetPosition V0 0 { X := 0, Y := 0, Z := 0, W := 1 }) 0 { X := 0, Y := 0 }
  let V2 := SetUV (SetPosition V1 1 { X := 1, Y := 0, Z := 0, W := 1 }) 1 { X := 1, Y := 0 }
  let V3 := SetUV (SetPosition V2 2 { X := 0, Y := 1, Z := 0, W := 1 }) 2 { X := 0, Y := 1 }
  let V4 := SetUV (SetPosition V3 3 { X := 1, Y := 1, Z := 0, W := 1 }) 3 { X := 1, Y := 1 }
  let V5 := SetUV (SetPosition V4 4 { X := 0, Y := 0, Z := 1, W := 1 }) 0 { X := 1, Y := 1 }
  let V6 := SetUV (SetPosition V5 5 { X := 1, Y := 0, Z := 1, W := 1 }) 1 { X := 1, Y := 0 }
  let V7 := SetUV (SetPosition V6 6 { X := 0, Y := 1, Z := 1, W := 1 }) 2 { X := 0, Y := 1 }
  SetUV (SetPosition V7 7 { X := 1, Y := 1, Z := 1, W := 1 }) 3 { X := 0, Y := 0 }

/-- The array `Indices[]` of `InitBuffers`. -/
def VolumeMeshIndices : List Nat :=
  [ 0, 1, 2,
    1, 3, 2,
    1, 5, 3,
    3, 5, 7,
    3, 7, 6,
    2, 3, 6,
    2, 4, 0,
    2, 6, 4,
    0, 4, 5,
    1, 0, 5,
    5, 4, 6,
    5, 6, 7 ]

/-- The members `VertexBufferRHI` and `IndexBufferRHI` of `FVdbPrincipledRendering`, with the
data they were created from; `none` is a null or invalid buffer. -/
structure FVolumeMeshBuffers where
  VertexBufferRHI : Option (List FFilterVertex)
  IndexBufferRHI : Option (List Nat)
  deriving DecidableEq, Repr

/-- Source `FVdbPrincipledRendering::InitBuffers`: each buffer is created only when it is null
or invalid. -/
def InitBuffers (B : FVolumeMeshBuffers) : FVolumeMeshBuffers :=
  { VertexBufferRHI :=
      match B.VertexBufferRHI with
      | none => some VolumeMeshVertices
      | some VB => some VB
    IndexBufferRHI :=
      match B.IndexBufferRHI with
      | none => some VolumeMeshIndices
      | some IB => some IB }

/-- Arguments of a `DrawIndexedPrimitive` call. -/
structure FDrawIndexedPrimitive where
  BaseVertexIndex : Nat
  FirstInstance : Nat
  NumVertices : Nat
  StartIndex : Nat
  NumPrimitives : Nat
  NumInstances : Nat
  deriving DecidableEq, Repr

/-- The call `RHICmdList.DrawIndexedPrimitive(IndexBufferRHI, 0, 0, 8, 0, 12, 1)` of the
ray-march pass. -/
def VolumeDrawCall : FDrawIndexedPrimitive :=
  { BaseVertexIndex := 0
    FirstInstance := 0
    NumVertices := 8
    StartIndex := 0
    NumPrimitives := 12
    NumInstances := 1 }

/-- The triangles of a triangle list: consecutive index triples. -/
def TriangleList : List Nat → List (Nat × Nat × Nat)
  | a :: b :: c :: Rest => (a, b, c) :: TriangleList Rest
  | _ => []

/-- The position of vertex `i` as a point (`X`, `Y`, `Z` of `Position`). -/
def VertexPoint (Vertices : List FFilterVertex) (i : Nat) : Option FVector :=
  match Vertices.get? i with
  | some v => v.Position.map (fun p => { X := p.X, Y := p.Y, Z := p.Z })
  | none => none

/-- The corners of the cube `[0,1]^3` as homogeneous positions. -/
def UnitCubeCorners : List FVector4 :=
  [ { X := 0, Y := 0, Z := 0, W := 1 }, { X := 1, Y := 0, Z := 0, W := 1 },
    { X := 0, Y := 1, Z := 0, W := 1 }, { X := 1, Y := 1, Z := 0, W := 1 },
    { X := 0, Y := 0, Z := 1, W := 1 }, { X := 1, Y := 0, Z := 1, W := 1 },
    { X := 0, Y := 1, Z := 1, W := 1 }, { X := 1, Y := 1, Z := 1, W := 1 } ]

/-- Difference of two points. -/
def FVector.Sub (A B : FVector) : FVector := { X := A.X - B.X, Y := A.Y - B.Y, Z := A.Z - B.Z }

/-- Cross product. -/
def FVector.Cross (A B : FVector) : FVector :=
  { X := A.Y * B.Z - A.Z * B.Y, Y := A.Z * B.X - A.X * B.Z, Z := A.X * B.Y - A.Y * B.X }

/-- Dot product. -/
def FVector.Dot (A B : FVector) : Scalar := A.X * B.X + A.Y * B.Y + A.Z * B.Z

/-- The cross-product normal `(P1 - P0) x (P2 - P0)` of a triangle, `none` if a vertex is
missing. -/
def TriangleNormal (Vertices : List FFilterVertex) (T : Nat × Nat × Nat) : Option FVector :=
  match VertexPoint Vertices T.1, VertexPoint Vertices T.2.1, VertexPoint Vertices T.2.2 with
  | some P0, some P1, some P2 => some ((P1.Sub P0).Cross (P2.Sub P0))
  | _, _, _ => none

/-- Twice the signed offset of a triangle's normal along the direction from the cube centre
`(1/2, 1/2, 1/2)` to the triangle's first vertex: positive for an outward normal, negative
for an inward one. -/
def TriangleFacing (Vertices : List FFilterVertex) (T : Nat × Nat × Nat) : Option Scalar :=
  match TriangleNormal Vertices T, VertexPoint Vertices T.1 with
  | some N, some P0 => some (N.Dot { X := 2 * P0.X - 1, Y := 2 * P0.Y - 1, Z := 2 * P0.Z - 1 })
  | _, _ => none

/-- A face of the cube: coordinate `Axis` (0, 1, 2 for `X`, `Y`, `Z`) fixed at `Value`. -/
structure FCubeFace where
  Axis : Nat
  Value : Scalar
  deriving DecidableEq, Repr

/-- The six faces of the cube `[0,1]^3`. -/
def CubeFaces : List FCubeFace :=
  [ { Axis := 0, Value := 0 }, { Axis := 0, Value := 1 }, { Axis := 1, Value := 0 },
    { Axis := 1, Value := 1 }, { Axis := 2, Value := 0 }, { Axis := 2, Value := 1 } ]

/-- Vertex `i` lies on the face. -/
def OnFace (Vertices : List FFilterVertex) (Face : FCubeFace) (i : Nat) : Bool :=
  match VertexPoint Vertices i with
  | some P =>
    if Face.Axis = 0 then decide (P.X = Face.Value)
    else if Face.Axis = 1 then decide (P.Y = Face.Value)
    else decide (P.Z = Face.Value)
  | none => false

/-- The triangles all three of whose vertices lie on the face. -/
def FaceTriangles (Vertices : List FFilterVertex) (Indices : List Nat) (Face : FCubeFace) :
    List (Nat × Nat × Nat) :=
  (TriangleList Indices).filter
    (fun T => OnFace Vertices Face T.1 && OnFace Vertices Face T.2.1 && OnFace Vertices Face T.2.2)

/-- The vertices of a triangle. -/
def TriangleVertices (T : Nat × Nat × Nat) : List Nat := [T.1, T.2.1, T.2.2]

/-- Two triangles of a face share a diagonal and cover the face: they have exactly two
vertices in common, these two are opposite corners of the unit square (squared distance 2),
and the two triangles together use four distinct vertices. -/
def ShareDiagonal (Vertices : List FFilterVertex) (T1 T2 : Nat × Nat × Nat) : Bool :=
  let Common := (TriangleVertices T1).filter (fun i => (TriangleVertices T2).contains i)
  let All := (TriangleVertices T1 ++ TriangleVertices T2).eraseDups
  match Common with
  | [a, b] =>
    (match VertexPoint Vertices a, VertexPoint Vertices b with
      | some A, some B => decide ((A.Sub B).Dot (A.Sub B) = 2)
      | _, _ => false) && decide (All.length = 4)
  | _ => false

/-! ## Correctness of the engine sort

For a predicate that compares an integer key (`Predicate x y` iff `key x < key y`) the sort
returns a permutation of its input in non-decreasing key order. -/

namespace Algo

section
variable {α : Type} [Inhabited α]

theorem length_Swap (A : List α) (i j : Nat) : (Swap A i j).length = A.length := by
  simp [Swap]

theorem At_Swap (A : List α) (i j k : Nat) (hi : i < A.length) (hj : j < A.length) :
    At (Swap A i j) k = if k = j then At A i else if k = i then At A j else At A k := by
  unfold Swap At
  simp only [List.getD_eq_getElem?_getD, List.getElem?_set, List.length_set]
  by_cases h1 : k = j
  · subst h1; simp [hj]
  · by_cases h2 : k = i
    · subst h2
      have : ¬ j = k := fun h => h1 h.symm
      simp [this, hi, h1]
    · have a1 : ¬ j = k := fun h => h1 h.symm
      have a2 : ¬ i = k := fun h => h2 h.symm
      simp [a1, a2, h1, h2]

theorem RangePerm.refl (lo hi : Nat) (A : List α) : RangePerm lo hi A A :=
  ⟨rfl, Equiv.refl Nat, fun _ _ => rfl, fun _ => rfl⟩

theorem RangePerm.trans {lo hi : Nat} {A B C : List α} (h1 : RangePerm lo hi A B)
    (h2 : RangePerm lo hi B C) : RangePerm lo hi A C := by
  obtain ⟨l1, σ1, f1, e1⟩ := h1
  obtain ⟨l2, σ2, f2, e2⟩ := h2
  refine ⟨l2.trans l1, σ2.trans σ1, ?_, ?_⟩
  · intro i hi
    simp [Equiv.trans_apply, f2 i hi, f1 i hi]
  · intro i
    simp [Equiv.trans_apply, e2 i, e1]

theorem RangePerm.mono {lo hi lo2 hi2 : Nat} {A B : List α} (h : RangePerm lo hi A B)
    (hlo : lo2 ≤ lo) (hhi : hi ≤ hi2) : RangePerm lo2 hi2 A B := by
  obtain ⟨l1, σ1, f1, e1⟩ := h
  exact ⟨l1, σ1, fun i hi => f1 i (fun h => hi ⟨by omega, by omega⟩), e1⟩

theorem RangePerm.swap (lo hi : Nat) (A : List α) (i j : Nat) (hi1 : lo ≤ i) (hi2 : i ≤ hi)
    (hj1 : lo ≤ j) (hj2 : j ≤ hi) (hlen : hi < A.length) : RangePerm lo hi A (Swap A i j) := by
  refine ⟨length_Swap A i j, Equiv.swap i j, ?_, ?_⟩
  · intro k hk
    apply Equiv.swap_apply_of_ne_of_ne
    · rintro rfl; exact hk ⟨hi1, hi2⟩
    · rintro rfl; exact hk ⟨hj1, hj2⟩
  · intro k
    rw [At_Swap A i j k (by omega) (by omega), Equiv.swap_apply_def]
    by_cases h1 : k = j
    · subst h1
      by_cases h2 : k = i
      · subst h2; simp
      · simp [h2]
    · by_cases h2 : k = i
      · subst h2; simp [h1]
      · simp [h1, h2]

theorem RangePerm.length_eq {lo hi : Nat} {A B : List α} (h : RangePerm lo hi A B) :
    B.length = A.length := h.1

theorem RangePerm.at_outside {lo hi : Nat} {A B : List α} (h : RangePerm lo hi A B) (k : Nat)
    (hk : ¬(lo ≤ k ∧ k ≤ hi)) : At B k = At A k := by
  obtain ⟨_, σ, f, e⟩ := h
  rw [e k, f k hk]

theorem RangePerm.at_inside {lo hi : Nat} {A B : List α} (h : RangePerm lo hi A B) (k : Nat)
    (hk1 : lo ≤ k) (hk2 : k ≤ hi) : ∃ k2, lo ≤ k2 ∧ k2 ≤ hi ∧ At B k = At A k2 := by
  obtain ⟨_, σ, f, e⟩ := h
  refine ⟨σ k, ?_, ?_, e k⟩
  · by_contra hc
    have h1 : σ (σ k) = σ k := f (σ k) (fun h => hc h.1)
    have h2 : σ k = k := σ.injective h1
    omega
  · by_contra hc
    have h1 : σ (σ k) = σ k := f (σ k) (fun h => hc h.2)
    have h2 : σ k = k := σ.injective h1
    omega

theorem RangePerm.at_inside_rev {lo hi : Nat} {A B : List α} (h : RangePerm lo hi A B) (k : Nat)
    (hk1 : lo ≤ k) (hk2 : k ≤ hi) : ∃ k2, lo ≤ k2 ∧ k2 ≤ hi ∧ At A k = At B k2 := by
  obtain ⟨_, σ, f, e⟩ := h
  have hfix : ∀ i, ¬(lo ≤ i ∧ i ≤ hi) → σ.symm i = i := by
    intro i hi
    have := f i hi
    exact (Equiv.symm_apply_eq σ).2 this.symm
  refine ⟨σ.symm k, ?_, ?_, by rw [e, Equiv.apply_symm_apply]⟩
  · by_contra hc
    have h1 : σ.symm (σ.symm k) = σ.symm k := hfix _ (fun h => hc h.1)
    have h2 : σ.symm k = k := σ.symm.injective h1
    omega
  · by_contra hc
    have h1 : σ.symm (σ.symm k) = σ.symm k := hfix _ (fun h => hc h.2)
    have h2 : σ.symm k = k := σ.symm.injective h1
    omega

theorem eq_map_At (A : List α) : A = (List.range A.length).map (At A) := by
  apply List.ext_getElem
  · simp
  · intro i h1 h2
    simp [At, List.getD_eq_getElem?_getD, List.getElem?_eq_getElem h1]

theorem RangePerm.perm {lo hi : Nat} {A B : List α} (h : RangePerm lo hi A B)
    (hlen : hi < A.length) : List.Perm B A := by
  have hin : ∀ k, k < A.length → ∃ k2, k2 < A.length ∧ At B k = At A k2 := by
    intro k hk
    by_cases hr : lo ≤ k ∧ k ≤ hi
    · obtain ⟨k2, _, h2, h3⟩ := h.at_inside k hr.1 hr.2
      exact ⟨k2, by omega, h3⟩
    · exact ⟨k, hk, h.at_outside k hr⟩
  obtain ⟨hl, σ, f, e⟩ := h
  have hσ : ∀ k, k < A.length → σ k < A.length := by
    intro k hk
    by_contra hc
    have h1 : σ (σ k) = σ k := f (σ k) (fun h => by omega)
    have h2 : σ k = k := σ.injective h1
    omega
  have hσ2 : ∀ k, k < A.length → σ.symm k < A.length := by
    intro k hk
    by_contra hc
    have h0 : σ (σ.symm k) = σ.symm k := f (σ.symm k) (fun h => by omega)
    rw [Equiv.apply_symm_apply] at h0
    omega
  have e1 : B = ((List.range A.length).map σ).map (At A) := by
    conv_lhs => rw [eq_map_At B, hl]
    rw [List.map_map]
    apply List.map_congr_left
    intro k _
    simp [e k]
  have e2 : List.Perm ((List.range A.length).map σ) (List.range A.length) := by
    apply (List.perm_ext_iff_of_nodup ?_ (List.nodup_range _)).2
    · intro x
      simp only [List.mem_map, List.mem_range]
      constructor
      · rintro ⟨k, hk, rfl⟩; exact hσ k hk
      · intro hx; exact ⟨σ.symm x, hσ2 x hx, by simp⟩
    · exact (List.nodup_range _).map σ.injective
  rw [e1]
  conv_rhs => rw [eq_map_At A]
  exact e2.map _

theorem ScanMax_spec (P : α → α → Bool) (key : α → Int)
    (hkey : ∀ x y, P x y = true ↔ key x < key y) (A : List α) (Min : Nat) :
    ∀ n M Item, Min ≤ M → M < Item →
      (∀ i, Min ≤ i → i < Item → key (At A i) ≤ key (At A M)) →
      Min ≤ ScanMax P A M Item n ∧ ScanMax P A M Item n < Item + n ∧
        ∀ i, Min ≤ i → i < Item + n → key (At A i) ≤ key (At A (ScanMax P A M Item n)) := by
  intro n
  induction n with
  | zero =>
    intro M Item h1 h2 h3
    exact ⟨h1, by simpa [ScanMax] using h2, fun i hi1 hi2 => by simpa [ScanMax] using h3 i hi1 hi2⟩
  | succ n ih =>
    intro M Item h1 h2 h3
    simp only [ScanMax]
    by_cases hp : P (At A M) (At A Item) = true
    · have hlt := (hkey _ _).1 hp
      simp only [hp, if_true]
      obtain ⟨a, b, c⟩ := ih Item (Item + 1) (by omega) (by omega) (by
        intro i hi1 hi2
        by_cases hi : i = Item
        · subst hi; exact le_refl _
        · have := h3 i hi1 (by omega)
          omega)
      exact ⟨a, by omega, fun i hi1 hi2 => c i hi1 (by omega)⟩
    · have hnlt : ¬ key (At A M) < key (At A Item) := fun h => hp ((hkey _ _).2 h)
      simp only [hp, if_false]
      simp only [Bool.false_eq_true, if_false]
      obtain ⟨a, b, c⟩ := ih M (Item + 1) h1 (by omega) (by
        intro i hi1 hi2
        by_cases hi : i = Item
        · subst hi; omega
        · exact h3 i hi1 (by omega))
      exact ⟨a, by omega, fun i hi1 hi2 => c i hi1 (by omega)⟩

theorem BubbleSort_spec (P : α → α → Bool) (key : α → Int)
    (hkey : ∀ x y, P x y = true ↔ key x < key y) (Min hi : Nat) :
    ∀ d (A : List α), Min + d ≤ hi → hi < A.length →
      (∀ i j, Min ≤ i → i < j → Min + d < j → j ≤ hi → key (At A i) ≤ key (At A j)) →
      RangePerm Min (Min + d) A (BubbleSort P Min d A) ∧
        SortedOn key (BubbleSort P Min d A) Min hi := by
  intro d
  induction d with
  | zero =>
    intro A _ _ h
    refine ⟨RangePerm.refl _ _ _, ?_⟩
    intro i j h1 h2 h3
    exact h i j h1 h2 (by omega) h3
  | succ d ih =>
    intro A hd hlen h
    simp only [BubbleSort]
    obtain ⟨m1, m2, m3⟩ := ScanMax_spec P key hkey A Min (d + 1) Min (Min + 1) (le_refl _)
      (by omega) (by
        intro i hi1 hi2
        have : i = Min := by omega
        subst this; exact le_refl _)
    generalize ScanMax P A Min (Min + 1) (d + 1) = M at m1 m2 m3
    have hM : M < A.length := by omega
    have hE : Min + d + 1 < A.length := by omega
    have hsw := RangePerm.swap (Min) (Min + (d + 1)) A M (Min + d + 1) m1 (by omega)
      (by omega) (by omega) (by omega)
    obtain ⟨r1, r2⟩ := ih (Swap A M (Min + d + 1)) (by omega) (by rw [length_Swap]; exact hlen) (by
      intro i j h1 h2 h3 h4
      rw [At_Swap A M (Min + d + 1) i hM hE, At_Swap A M (Min + d + 1) j hM hE]
      by_cases hj : j = Min + d + 1
      · have hi : ¬ i = Min + d + 1 := by omega
        simp only [hj, hi, if_true, if_false]
        by_cases hiM : i = M
        · simp only [hiM, if_true]
          exact m3 _ (by omega) (by omega)
        · simp only [hiM, if_false]
          exact m3 _ h1 (by omega)
      · have hjM : ¬ j = M := by omega
        simp only [hj, hjM, if_false]
        by_cases hi : i = Min + d + 1
        · simp only [hi, if_true]
          exact h M j m1 (by omega) (by omega) h4
        · simp only [hi, if_false]
          by_cases hiM : i = M
          · simp only [hiM, if_true]
            exact h (Min + d + 1) j (by omega) (by omega) (by omega) h4
          · simp only [hiM, if_false]
            exact h i j h1 h2 (by omega) h4)
    exact ⟨hsw.trans (r1.mono (le_refl _) (by omega)), r2⟩

theorem ScanUp_spec (P : α → α → Bool) (key : α → Int)
    (hkey : ∀ x y, P x y = true ↔ key x < key y) (A : List α) (CMin CMax : Nat) :
    ∀ n i, CMax + 1 ≤ i + n →
      i ≤ ScanUp P A CMin CMax n i ∧
      (i ≤ CMax + 1 → ScanUp P A CMin CMax n i ≤ CMax + 1) ∧
      (∀ k, i ≤ k → k < ScanUp P A CMin CMax n i → key (At A k) ≤ key (At A CMin)) ∧
      (ScanUp P A CMin CMax n i ≤ CMax →
        key (At A CMin) < key (At A (ScanUp P A CMin CMax n i))) := by
  intro n
  induction n with
  | zero =>
    intro i h
    simp only [ScanUp]
    exact ⟨le_refl _, fun h => h, fun k h1 h2 => by omega, fun h2 => by omega⟩
  | succ n ih =>
    intro i h
    simp only [ScanUp]
    by_cases hi : i ≤ CMax
    · cases hp : P (At A CMin) (At A i)
      · have hnlt : ¬ key (At A CMin) < key (At A i) := fun h => by
          rw [(hkey _ _).2 h] at hp; exact Bool.noConfusion hp
        simp only [hi, decide_True, Bool.not_false, Bool.and_self, if_true]
        obtain ⟨a, b, c, d⟩ := ih (i + 1) (by omega)
        refine ⟨by omega, fun _ => b (by omega), ?_, d⟩
        intro k hk1 hk2
        by_cases hk : k = i
        · subst hk; omega
        · exact c k (by omega) hk2
      · have hlt := (hkey _ _).1 hp
        simp only [hi, decide_True, Bool.not_true, Bool.and_false, Bool.false_eq_true, if_false]
        exact ⟨le_refl _, fun h => h, fun k h1 h2 => by omega, fun _ => hlt⟩
    · have hd : decide (i ≤ CMax) = false := by simpa using hi
      simp only [hd, Bool.false_and, Bool.false_eq_true, if_false]
      exact ⟨le_refl _, fun h => h, fun k h1 h2 => by omega, fun h2 => by omega⟩

theorem ScanDown_spec (P : α → α → Bool) (key : α → Int)
    (hkey : ∀ x y, P x y = true ↔ key x < key y) (A : List α) (CMin : Nat) :
    ∀ j, ScanDown P A CMin j ≤ j ∧
      (CMin ≤ j → CMin ≤ ScanDown P A CMin j) ∧
      (∀ k, ScanDown P A CMin j < k → k ≤ j → key (At A CMin) ≤ key (At A k)) ∧
      (CMin < ScanDown P A CMin j → key (At A (ScanDown P A CMin j)) < key (At A CMin)) := by
  intro j
  induction j with
  | zero =>
    simp only [ScanDown]
    exact ⟨le_refl _, fun h => h, fun k h1 h2 => by omega, fun h => by omega⟩
  | succ j ih =>
    simp only [ScanDown]
    by_cases hj : j + 1 > CMin
    · cases hp : P (At A (j + 1)) (At A CMin)
      · have hnlt : ¬ key (At A (j + 1)) < key (At A CMin) := fun h => by
          rw [(hkey _ _).2 h] at hp; exact Bool.noConfusion hp
        simp only [hj, decide_True, Bool.not_false, Bool.and_self, if_true]
        obtain ⟨a, b, c, d⟩ := ih
        refine ⟨by omega, fun _ => b (by omega), ?_, d⟩
        intro k hk1 hk2
        by_cases hk : k = j + 1
        · subst hk; omega
        · exact c k hk1 (by omega)
      · have hlt := (hkey _ _).1 hp
        simp only [hj, decide_True, Bool.not_true, Bool.and_false, Bool.false_eq_true, if_false]
        exact ⟨le_refl _, fun h => h, fun k h1 h2 => by omega, fun _ => hlt⟩
    · have hd : decide (j + 1 > CMin) = false := by simpa using hj
      simp only [hd, Bool.false_and, Bool.false_eq_true, if_false]
      exact ⟨le_refl _, fun h => h, fun k h1 h2 => by omega, fun h2 => by omega⟩

theorem PartitionLoop_spec (P : α → α → Bool) (key : α → Int)
    (hkey : ∀ x y, P x y = true ↔ key x < key y) (CMin CMax : Nat) :
    ∀ n (A : List α) (iMin iMax : Nat), CMin ≤ iMin → iMin < iMax → iMax ≤ CMax + 1 →
      CMax < A.length → iMax ≤ iMin + n →
      (∀ k, CMin < k → k ≤ iMin → key (At A k) ≤ key (At A CMin)) →
      (∀ k, iMax ≤ k → k ≤ CMax → key (At A CMin) ≤ key (At A k)) →
      RangePerm (CMin + 1) CMax A (PartitionLoop P CMin CMax n A iMin iMax).1 ∧
      CMin ≤ (PartitionLoop P CMin CMax n A iMin iMax).2 ∧
      (PartitionLoop P CMin CMax n A iMin iMax).2 ≤ CMax ∧
      (∀ k, CMin < k → k ≤ (PartitionLoop P CMin CMax n A iMin iMax).2 →
        key (At (PartitionLoop P CMin CMax n A iMin iMax).1 k) ≤ key (At A CMin)) ∧
      (∀ k, (PartitionLoop P CMin CMax n A iMin iMax).2 < k → k ≤ CMax →
        key (At A CMin) ≤ key (At (PartitionLoop P CMin CMax n A iMin iMax).1 k)) := by
  intro n
  induction n with
  | zero =>
    intro A iMin iMax h1 h2 h3 h4 h5 hL hR
    omega
  | succ n ih =>
    intro A iMin iMax h1 h2 h3 h4 h5 hL hR
    simp only [PartitionLoop]
    obtain ⟨u1, u2, u3, u4⟩ := ScanUp_spec P key hkey A CMin CMax (CMax - iMin) (iMin + 1)
      (by omega)
    obtain ⟨d1, d2, d3, d4⟩ := ScanDown_spec P key hkey A CMin (iMax - 1)
    generalize ScanUp P A CMin CMax (CMax - iMin) (iMin + 1) = i at u1 u2 u3 u4
    generalize ScanDown P A CMin (iMax - 1) = j at d1 d2 d3 d4
    have u2 := u2 (by omega)
    have d2 := d2 (by omega)
    by_cases hij : i > j
    · simp only [hij, if_true]
      refine ⟨RangePerm.refl _ _ _, d2, by omega, ?_, ?_⟩
      · intro k hk1 hk2
        by_cases hk : k ≤ iMin
        · exact hL k hk1 hk
        · exact u3 k (by omega) (by omega)
      · intro k hk1 hk2
        by_cases hk : iMax ≤ k
        · exact hR k hk hk2
        · exact d3 k hk1 (by omega)
    · simp only [hij, if_false]
      have hi := u4 (by omega)
      have hj := d4 (by omega)
      have hne : i < j := by
        rcases Nat.lt_or_ge i j with h | h
        · exact h
        · have : i = j := by omega
          subst this; omega
      have hiL : i < A.length := by omega
      have hjL : j < A.length := by omega
      have hpiv : At (Swap A i j) CMin = At A CMin := by
        rw [At_Swap A i j CMin hiL hjL]
        have a1 : ¬ CMin = j := by omega
        have a2 : ¬ CMin = i := by omega
        simp only [a1, a2, if_false]
      obtain ⟨r1, r2, r3, r4, r5⟩ := ih (Swap A i j) i j (by omega) hne (by omega)
        (by rw [length_Swap]; exact h4) (by omega)
        (by
          intro k hk1 hk2
          rw [hpiv, At_Swap A i j k hiL hjL]
          have a1 : ¬ k = j := by omega
          simp only [a1, if_false]
          by_cases hk : k = i
          · simp only [hk, if_true]; omega
          · simp only [hk, if_false]
            by_cases hk3 : k ≤ iMin
            · exact hL k hk1 hk3
            · exact u3 k (by omega) (by omega))
        (by
          intro k hk1 hk2
          rw [hpiv, At_Swap A i j k hiL hjL]
          by_cases hk : k = j
          · simp only [hk, if_true]; omega
          · have a1 : ¬ k = i := by omega
            simp only [hk, a1, if_false]
            by_cases hk3 : iMax ≤ k
            · exact hR k hk3 hk2
            · exact d3 k (by omega) (by omega))
      rw [hpiv] at r4 r5
      exact ⟨(RangePerm.swap _ _ A i j (by omega) (by omega) (by omega) (by omega) h4).trans r1,
        r2, r3, r4, r5⟩

theorem HeapSiftDown_spec (R : α → α → Bool) (key : α → Int)
    (hR : ∀ x y, R x y = true ↔ key y < key x) (First Count s : Nat) :
    ∀ n (A : List α) (Index : Nat), First + Count ≤ A.length → s ≤ Index → Index < Count →
      Count ≤ Index + n →
      (∀ i c, s ≤ i → i ≠ Index → (c = 2 * i + 1 ∨ c = 2 * i + 2) → c < Count →
        key (At A (First + c)) ≤ key (At A (First + i))) →
      (∀ i c, s ≤ i → (Index = 2 * i + 1 ∨ Index = 2 * i + 2) →
        (c = 2 * Index + 1 ∨ c = 2 * Index + 2) → c < Count →
        key (At A (First + c)) ≤ key (At A (First + i))) →
      RangePerm (First + Index) (First + Count - 1) A (HeapSiftDown R First Count n A Index) ∧
        HeapFrom key (HeapSiftDown R First Count n A Index) First Count s := by
  intro n
  induction n with
  | zero =>
    intro A Index h1 h2 h3 h4 h5 h6
    omega
  | succ n ih =>
    intro A Index h1 h2 h3 h4 h5 h6
    simp only [HeapSiftDown]
    by_cases hleaf : 2 * Index + 1 ≥ Count
    · simp only [hleaf, if_true]
      refine ⟨RangePerm.refl _ _ _, ?_⟩
      intro i c hi hc hcC
      by_cases hiI : i = Index
      · subst hiI; omega
      · exact h5 i c hi hiI hc hcC
    · simp only [hleaf, if_false]
      -- the selected child
      obtain ⟨m, hm, hm1, hm2, hm3⟩ : ∃ m, m = (if 2 * Index + 1 + 1 < Count then
            (if R (At A (First + (2 * Index + 1))) (At A (First + (2 * Index + 1 + 1))) = true
              then 2 * Index + 1 else 2 * Index + 1 + 1)
            else 2 * Index + 1) ∧ (m = 2 * Index + 1 ∨ m = 2 * Index + 2) ∧ m < Count ∧
            ∀ c, (c = 2 * Index + 1 ∨ c = 2 * Index + 2) → c < Count →
              key (At A (First + c)) ≤ key (At A (First + m)) := by
        refine ⟨_, rfl, ?_, ?_, ?_⟩
        · split_ifs <;> omega
        · split_ifs <;> omega
        · intro c hc hcC
          by_cases hr : 2 * Index + 1 + 1 < Count
          · simp only [hr, if_true]
            cases hp : R (At A (First + (2 * Index + 1))) (At A (First + (2 * Index + 1 + 1)))
            · have hn : ¬ key (At A (First + (2 * Index + 1 + 1))) <
                  key (At A (First + (2 * Index + 1))) := fun h => by
                rw [(hR _ _).2 h] at hp; exact Bool.noConfusion hp
              simp only [Bool.false_eq_true, if_false]
              rcases hc with hc | hc
              · subst hc; omega
              · subst hc; exact le_refl _
            · have hl := (hR _ _).1 hp
              simp only [if_true]
              rcases hc with hc | hc
              · subst hc; exact le_refl _
              · subst hc
                have : 2 * Index + 2 = 2 * Index + 1 + 1 := by omega
                rw [this]; omega
          · simp only [hr, if_false]
            rcases hc with hc | hc
            · subst hc; exact le_refl _
            · omega
      rw [← hm]
      cases hp : R (At A (First + m)) (At A (First + Index))
      · have hn : ¬ key (At A (First + Index)) < key (At A (First + m)) := fun h => by
          rw [(hR _ _).2 h] at hp; exact Bool.noConfusion hp
        simp only [Bool.not_false, if_true]
        refine ⟨RangePerm.refl _ _ _, ?_⟩
        intro i c hi hc hcC
        by_cases hiI : i = Index
        · subst hiI
          have := hm3 c hc hcC
          omega
        · exact h5 i c hi hiI hc hcC
      · have hl := (hR _ _).1 hp
        simp only [Bool.not_true, Bool.false_eq_true, if_false]
        have hIL : First + Index < A.length := by omega
        have hmL : First + m < A.length := by omega
        have hsw : ∀ k, At (Swap A (First + Index) (First + m)) k =
            if k = First + m then At A (First + Index)
            else if k = First + Index then At A (First + m) else At A k :=
          fun k => At_Swap A (First + Index) (First + m) k hIL hmL
        obtain ⟨r1, r2⟩ := ih (Swap A (First + Index) (First + m)) m
          (by rw [length_Swap]; exact h1) (by omega) hm2 (by omega)
          (by
            intro i c hi hne hc hcC
            rw [hsw, hsw]
            have c2 : ¬ First + i = First + m := by omega
            simp only [c2, if_false]
            by_cases hiI : i = Index
            · subst hiI
              simp only [if_true]
              by_cases hcm : c = m
              · subst hcm
                simp only [if_true]
                omega
              · have c1 : ¬ First + c = First + m := by omega
                have c3 : ¬ First + c = First + i := by omega
                simp only [c1, c3, if_false]
                exact hm3 c hc hcC
            · have c1 : ¬ First + c = First + m := by omega
              have c3 : ¬ First + i = First + Index := by omega
              simp only [c1, c3, if_false]
              by_cases hcI : c = Index
              · subst hcI
                simp only [if_true]
                exact h6 i m hi hc hm1 hm2
              · have c4 : ¬ First + c = First + Index := by omega
                simp only [c4, if_false]
                exact h5 i c hi hiI hc hcC)
          (by
            intro i c hi hpar hc hcC
            have hiI : i = Index := by omega
            subst hiI
            rw [hsw, hsw]
            have c1 : ¬ First + c = First + m := by omega
            have c2 : ¬ First + c = First + i := by omega
            have c3 : ¬ First + i = First + m := by omega
            simp only [c1, c2, c3, if_false, if_true]
            exact h5 m c (by omega) (by omega) hc hcC)
        refine ⟨?_, r2⟩
        exact (RangePerm.swap _ _ A (First + Index) (First + m) (le_refl _) (by omega) (by omega)
          (by omega) (by omega)).trans (r1.mono (by omega) (le_refl _))

theorem HeapifyInternal_spec (R : α → α → Bool) (key : α → Int)
    (hR : ∀ x y, R x y = true ↔ key y < key x) (First Num : Nat) :
    ∀ m (A : List α), First + Num ≤ A.length → m ≤ Num → HeapFrom key A First Num m →
      RangePerm First (First + Num - 1) A (HeapifyInternal R First Num m A) ∧
        HeapFrom key (HeapifyInternal R First Num m A) First Num 0 := by
  intro m
  induction m with
  | zero =>
    intro A _ _ h
    exact ⟨RangePerm.refl _ _ _, h⟩
  | succ m ih =>
    intro A h1 h2 h3
    simp only [HeapifyInternal]
    obtain ⟨s1, s2⟩ := HeapSiftDown_spec R key hR First Num m Num A m h1 (le_refl _) (by omega)
      (by omega)
      (by
        intro i c hi hne hc hcC
        exact h3 i c (by omega) hc hcC)
      (by
        intro i c hi hpar hc hcC
        omega)
    obtain ⟨r1, r2⟩ := ih (HeapSiftDown R First Num Num A m)
      (by rw [s1.length_eq]; exact h1) (by omega) s2
    exact ⟨(s1.mono (by omega) (le_refl _)).trans r1, r2⟩

theorem HeapFrom_root_max (key : α → Int) (A : List α) (First Count : Nat)
    (h : HeapFrom key A First Count 0) :
    ∀ i, i < Count → key (At A (First + i)) ≤ key (At A First) := by
  intro i
  induction i using Nat.strong_induction_on with
  | _ i ih =>
    intro hi
    rcases Nat.eq_zero_or_pos i with h0 | hpos
    · subst h0; simp
    · have hp := ih ((i - 1) / 2) (by omega) (by omega)
      have hc := h ((i - 1) / 2) i (Nat.zero_le _) (by omega) hi
      omega

theorem HeapSortLoop_spec (R : α → α → Bool) (key : α → Int)
    (hR : ∀ x y, R x y = true ↔ key y < key x) (First hi : Nat) :
    ∀ Index (A : List α), First + hi < A.length → Index ≤ hi →
      HeapFrom key A First (Index + 1) 0 →
      (∀ i j, i < j → Index < j → j ≤ hi → key (At A (First + i)) ≤ key (At A (First + j))) →
      RangePerm First (First + Index) A (HeapSortLoop R First Index A) ∧
        ∀ i j, i < j → j ≤ hi →
          key (At (HeapSortLoop R First Index A) (First + i)) ≤
            key (At (HeapSortLoop R First Index A) (First + j)) := by
  intro Index
  induction Index with
  | zero =>
    intro A _ _ _ h
    exact ⟨RangePerm.refl _ _ _, fun i j h1 h2 => h i j h1 (by omega) h2⟩
  | succ Index ih =>
    intro A h1 h2 h3 h4
    simp only [HeapSortLoop]
    have hmax := HeapFrom_root_max key A First (Index + 1 + 1) h3
    have hFL : First < A.length := by omega
    have hEL : First + (Index + 1) < A.length := by omega
    have hsw : ∀ k, At (Swap A First (First + (Index + 1))) k =
        if k = First + (Index + 1) then At A First
        else if k = First then At A (First + (Index + 1)) else At A k :=
      fun k => At_Swap A First (First + (Index + 1)) k hFL hEL
    have hswP := RangePerm.swap (First) (First + (Index + 1)) A First
      (First + (Index + 1)) (le_refl _) (by omega) (by omega) (le_refl _) (by omega)
    obtain ⟨s1, s2⟩ := HeapSiftDown_spec R key hR First (Index + 1) 0 (Index + 1)
      (Swap A First (First + (Index + 1))) 0 (by rw [length_Swap]; omega) (le_refl _) (by omega)
      (by omega)
      (by
        intro i c hi hne hc hcC
        rw [hsw, hsw]
        have c1 : ¬ First + c = First + (Index + 1) := by omega
        have c2 : ¬ First + c = First := by omega
        have c3 : ¬ First + i = First + (Index + 1) := by omega
        have c4 : ¬ First + i = First := by omega
        simp only [c1, c2, c3, c4, if_false]
        exact h3 i c hi hc (by omega))
      (by
        intro i c hi hpar hc hcC
        omega)
    simp only [Nat.add_zero] at s1
    generalize HeapSiftDown R First (Index + 1) (Index + 1)
      (Swap A First (First + (Index + 1))) 0 = B at s1 s2
    have hBL : B.length = A.length := by rw [s1.length_eq, length_Swap]
    have hs1 : RangePerm First (First + Index) (Swap A First (First + (Index + 1))) B := by
      have : First + (Index + 1) - 1 = First + Index := by omega
      rw [this] at s1; exact s1
    -- every entry of the new heap part comes from the old heap part
    have hsrc : ∀ i, i ≤ Index → ∃ i2, i2 ≤ Index + 1 ∧ At B (First + i) = At A (First + i2) := by
      intro i hi
      obtain ⟨k2, hk1, hk2, hk3⟩ := hs1.at_inside (First + i) (by omega) (by omega)
      rw [hk3, hsw]
      have c1 : ¬ k2 = First + (Index + 1) := by omega
      simp only [c1, if_false]
      by_cases hk : k2 = First
      · simp only [hk, if_true]; exact ⟨Index + 1, le_refl _, rfl⟩
      · simp only [hk, if_false]
        exact ⟨k2 - First, by omega, by congr 1; omega⟩
    have hout : ∀ j, Index < j → At B (First + j) =
        if j = Index + 1 then At A First else At A (First + j) := by
      intro j hj
      rw [hs1.at_outside (First + j) (by omega), hsw]
      by_cases hj2 : j = Index + 1
      · subst hj2; simp
      · have c1 : ¬ First + j = First + (Index + 1) := by omega
        have c2 : ¬ First + j = First := by omega
        simp only [c1, c2, hj2, if_false]
    obtain ⟨r1, r2⟩ := ih B (by omega) (by omega) s2 (by
      intro i j hij hj1 hj2
      rw [hout j hj1]
      by_cases hj3 : j = Index + 1
      · simp only [hj3, if_true]
        obtain ⟨i2, hi2, hi3⟩ := hsrc i (by omega)
        rw [hi3]
        exact hmax i2 (by omega)
      · simp only [hj3, if_false]
        by_cases hi : i ≤ Index
        · obtain ⟨i2, hi2, hi3⟩ := hsrc i hi
          rw [hi3]
          exact h4 i2 j (by omega) (by omega) hj2
        · rw [hout i (by omega)]
          by_cases hi3 : i = Index + 1
          · simp only [hi3, if_true]
            have := h4 0 j (by omega) (by omega) hj2
            simpa using this
          · simp only [hi3, if_false]
            exact h4 i j hij (by omega) hj2)
    exact ⟨hswP.trans ((hs1.mono (le_refl _) (by omega)).trans (r1.mono (le_refl _) (by omega))),
      r2⟩

theorem HeapSortInternal_spec (P : α → α → Bool) (key : α → Int)
    (hkey : ∀ x y, P x y = true ↔ key x < key y) (First Num : Nat) (A : List α)
    (hNum : 1 ≤ Num) (hlen : First + Num ≤ A.length) :
    RangePerm First (First + Num - 1) A (HeapSortInternal P First Num A) ∧
      SortedOn key (HeapSortInternal P First Num A) First (First + Num - 1) := by
  have hR : ∀ x y, (fun x y => P y x) x y = true ↔ key y < key x := fun x y => hkey y x
  simp only [HeapSortInternal]
  obtain ⟨a1, a2⟩ := HeapifyInternal_spec (fun x y => P y x) key hR First Num
    ((Num - 2) / 2 + 1) A hlen (by omega) (by
      intro i c hi hc hcC
      omega)
  generalize HeapifyInternal (fun x y => P y x) First Num ((Num - 2) / 2 + 1) A = B at a1 a2
  have hN : Num - 1 + 1 = Num := by omega
  obtain ⟨b1, b2⟩ := HeapSortLoop_spec (fun x y => P y x) key hR First (Num - 1) (Num - 1) B
    (by rw [a1.length_eq]; omega) (le_refl _) (by rw [hN]; exact a2) (by
      intro i j _ h1 h2
      omega)
  refine ⟨a1.trans ?_, ?_⟩
  · have : First + Num - 1 = First + (Num - 1) := by omega
    rw [this]; exact b1
  · intro i j h1 h2 h3
    have := b2 (i - First) (j - First) (by omega) (by omega)
    have e1 : First + (i - First) = i := by omega
    have e2 : First + (j - First) = j := by omega
    rw [e1, e2] at this
    exact this

/-- Entries below `j` sorted, entries above `j` sorted, and `j` separating them. -/
theorem SortedOn_of_parts (key : α → Int) (A2 Z : List α) (CMin CMax j : Nat)
    (hl : ∀ k, CMin ≤ k → k < j → key (At A2 k) ≤ key (At A2 j))
    (hr : ∀ k, j < k → k ≤ CMax → key (At A2 j) ≤ key (At A2 k))
    (zl : ∀ k, CMin ≤ k → k < j → ∃ k2, CMin ≤ k2 ∧ k2 < j ∧ At Z k = At A2 k2)
    (zj : At Z j = At A2 j)
    (zr : ∀ k, j < k → k ≤ CMax → ∃ k2, j < k2 ∧ k2 ≤ CMax ∧ At Z k = At A2 k2)
    (sl : SortedOn key Z CMin (j - 1)) (sr : SortedOn key Z (j + 1) CMax) :
    SortedOn key Z CMin CMax := by
  intro a b ha hab hb
  have keyL : ∀ k, CMin ≤ k → k < j → key (At Z k) ≤ key (At A2 j) := by
    intro k h1 h2
    obtain ⟨k2, h3, h4, h5⟩ := zl k h1 h2
    rw [h5]; exact hl k2 h3 h4
  have keyR : ∀ k, j < k → k ≤ CMax → key (At A2 j) ≤ key (At Z k) := by
    intro k h1 h2
    obtain ⟨k2, h3, h4, h5⟩ := zr k h1 h2
    rw [h5]; exact hr k2 h3 h4
  rcases Nat.lt_trichotomy b j with hbj | hbj | hbj
  · exact sl a b ha hab (by omega)
  · subst hbj
    rw [zj]; exact keyL a ha hab
  · rcases Nat.lt_trichotomy a j with haj | haj | haj
    · have := keyL a ha haj
      have := keyR b hbj hb
      omega
    · subst haj
      rw [zj]; exact keyR b hbj hb
    · exact sr a b (by omega) hab hb

theorem IntroSortLoop_spec (P : α → α → Bool) (key : α → Int)
    (hkey : ∀ x y, P x y = true ↔ key x < key y) :
    ∀ n (A : List α) (CMin CMax D : Nat), CMin ≤ CMax → CMax < A.length →
      CMax - CMin + 1 ≤ n →
      RangePerm CMin CMax A (IntroSortLoop P n A CMin CMax D) ∧
        SortedOn key (IntroSortLoop P n A CMin CMax D) CMin CMax := by
  intro n
  induction n with
  | zero =>
    intro A CMin CMax D h1 h2 h3
    omega
  | succ n ih =>
    intro A CMin CMax D h1 h2 h3
    simp only [IntroSortLoop]
    by_cases hD : D = 0
    · simp only [hD, if_true]
      have := HeapSortInternal_spec P key hkey CMin (CMax - CMin + 1) A (by omega) (by omega)
      have e : CMin + (CMax - CMin + 1) - 1 = CMax := by omega
      rw [e] at this
      exact this
    · simp only [hD, if_false]
      by_cases hC : CMax - CMin + 1 ≤ 8
      · simp only [hC, if_true]
        have := BubbleSort_spec P key hkey CMin CMax (CMax - CMin) A (by omega) h2 (by
          intro i j _ _ _ _; omega)
        have e : CMin + (CMax - CMin) = CMax := by omega
        rw [e] at this
        exact this
      · simp only [hC, if_false]
        have hmL : CMin + (CMax - CMin + 1) / 2 < A.length := by omega
        have hcL : CMin < A.length := by omega
        have hA1 := RangePerm.swap (CMin) (CMax) A (CMin + (CMax - CMin + 1) / 2) CMin
          (by omega) (by omega) (le_refl _) h1 h2
        generalize Swap A (CMin + (CMax - CMin + 1) / 2) CMin = A1 at hA1
        have hA1L : A1.length = A.length := hA1.length_eq
        obtain ⟨p1, p2, p3, p4, p5⟩ := PartitionLoop_spec P key hkey CMin CMax (CMax - CMin + 1)
          A1 CMin (CMax + 1) (le_refl _) (by omega) (le_refl _) (by omega) (by omega)
          (by intro k _ _; omega) (by intro k _ _; omega)
        generalize PartitionLoop P CMin CMax (CMax - CMin + 1) A1 CMin (CMax + 1) = r
          at p1 p2 p3 p4 p5
        obtain ⟨B, j⟩ := r
        simp only at p1 p2 p3 p4 p5 ⊢
        have hBL : B.length = A.length := by rw [p1.length_eq, hA1L]
        have hBpiv : At B CMin = At A1 CMin := p1.at_outside CMin (by omega)
        have hA2 := RangePerm.swap (CMin) (CMax) B CMin j (le_refl _) h1 p2 p3
          (by omega)
        have hsw : ∀ k, At (Swap B CMin j) k =
            if k = j then At B CMin else if k = CMin then At B j else At B k :=
          fun k => At_Swap B CMin j k (by omega) (by omega)
        have hl : ∀ k, CMin ≤ k → k < j →
            key (At (Swap B CMin j) k) ≤ key (At (Swap B CMin j) j) := by
          intro k h1 h2
          rw [hsw, hsw]
          have c1 : ¬ k = j := by omega
          simp only [c1, if_false, if_true]
          rw [hBpiv]
          by_cases hk : k = CMin
          · simp only [hk, if_true]; exact p4 j (by omega) (le_refl _)
          · simp only [hk, if_false]; exact p4 k (by omega) (by omega)
        have hr : ∀ k, j < k → k ≤ CMax →
            key (At (Swap B CMin j) j) ≤ key (At (Swap B CMin j) k) := by
          intro k h1 h2
          rw [hsw, hsw]
          have c1 : ¬ k = j := by omega
          have c2 : ¬ k = CMin := by omega
          simp only [c1, c2, if_false, if_true]
          rw [hBpiv]
          exact p5 k h1 h2
        generalize Swap B CMin j = A2 at hA2 hl hr
        have hA2L : A2.length = A.length := by rw [hA2.length_eq, hBL]
        have hAA2 : RangePerm CMin CMax A A2 :=
          hA1.trans ((p1.mono (by omega) (le_refl _)).trans hA2)
        -- sorting the left part of any array `X`
        have left : ∀ X : List α, X.length = A.length →
            ∃ Y, Y = (if CMin + 1 < j then IntroSortLoop P n X CMin (j - 1) (D - 1) else X) ∧
              RangePerm CMin CMax X Y ∧ SortedOn key Y CMin (j - 1) ∧
              (∀ k, ¬(CMin ≤ k ∧ k < j) → At Y k = At X k) ∧
              (∀ k, CMin ≤ k → k < j → ∃ k2, CMin ≤ k2 ∧ k2 < j ∧ At Y k = At X k2) := by
          intro X hX
          refine ⟨_, rfl, ?_⟩
          by_cases hc : CMin + 1 < j
          · rw [if_pos hc]
            obtain ⟨q1, q2⟩ := ih X CMin (j - 1) (D - 1) (by omega) (by omega) (by omega)
            refine ⟨q1.mono (le_refl _) (by omega), q2, ?_, ?_⟩
            · intro k hk
              exact q1.at_outside k (by omega)
            · intro k hk1 hk2
              obtain ⟨k2, a, b, c⟩ := q1.at_inside k hk1 (by omega)
              exact ⟨k2, a, by omega, c⟩
          · rw [if_neg hc]
            refine ⟨RangePerm.refl _ _ _, ?_, fun _ _ => rfl, fun k a b => ⟨k, a, b, rfl⟩⟩
            intro a b _ _ _; omega
        have right : ∀ X : List α, X.length = A.length →
            ∃ Y, Y = (if CMax > j then IntroSortLoop P n X (j + 1) CMax (D - 1) else X) ∧
              RangePerm CMin CMax X Y ∧ SortedOn key Y (j + 1) CMax ∧
              (∀ k, ¬(j < k ∧ k ≤ CMax) → At Y k = At X k) ∧
              (∀ k, j < k → k ≤ CMax → ∃ k2, j < k2 ∧ k2 ≤ CMax ∧ At Y k = At X k2) := by
          intro X hX
          refine ⟨_, rfl, ?_⟩
          by_cases hc : CMax > j
          · rw [if_pos hc]
            obtain ⟨q1, q2⟩ := ih X (j + 1) CMax (D - 1) (by omega) (by omega) (by omega)
            refine ⟨q1.mono (by omega) (le_refl _), q2, ?_, ?_⟩
            · intro k hk
              exact q1.at_outside k (by omega)
            · intro k hk1 hk2
              obtain ⟨k2, a, b, c⟩ := q1.at_inside k (by omega) hk2
              exact ⟨k2, by omega, b, c⟩
          · rw [if_neg hc]
            refine ⟨RangePerm.refl _ _ _, ?_, fun _ _ => rfl, fun k a b => ⟨k, a, b, rfl⟩⟩
            intro a b _ _ _; omega
        by_cases hbig : j + j ≥ CMax + CMin + 1
        · simp only [hbig, if_true]
          obtain ⟨A3, e3, r1, r2, r3, r4⟩ := right A2 hA2L
          rw [← e3]
          obtain ⟨A4, e4, l1, l2, l3, l4⟩ := left A3 (by rw [r1.length_eq, hA2L])
          rw [← e4]
          refine ⟨hAA2.trans (r1.trans l1), ?_⟩
          apply SortedOn_of_parts key A2 A4 CMin CMax j hl hr
          · intro k hk1 hk2
            obtain ⟨k2, a, b, c⟩ := l4 k hk1 hk2
            exact ⟨k2, a, b, by rw [c, r3 k2 (by omega)]⟩
          · rw [l3 j (by omega), r3 j (by omega)]
          · intro k hk1 hk2
            rw [l3 k (by omega)]
            exact r4 k hk1 hk2
          · exact l2
          · intro a b ha hab hb
            rw [l3 a (by omega), l3 b (by omega)]
            exact r2 a b ha hab hb
        · simp only [hbig, if_false]
          obtain ⟨A3, e3, l1, l2, l3, l4⟩ := left A2 hA2L
          rw [← e3]
          obtain ⟨A4, e4, r1, r2, r3, r4⟩ := right A3 (by rw [l1.length_eq, hA2L])
          rw [← e4]
          refine ⟨hAA2.trans (l1.trans r1), ?_⟩
          apply SortedOn_of_parts key A2 A4 CMin CMax j hl hr
          · intro k hk1 hk2
            rw [r3 k (by omega)]
            exact l4 k hk1 hk2
          · rw [r3 j (by omega), l3 j (by omega)]
          · intro k hk1 hk2
            obtain ⟨k2, a, b, c⟩ := r4 k hk1 hk2
            exact ⟨k2, a, b, by rw [c, l3 k2 (by omega)]⟩
          · intro a b ha hab hb
            rw [r3 a (by omega), r3 b (by omega)]
            exact l2 a b ha hab hb
          · exact r2

/-- `IntroSort` returns a permutation of its input. -/
theorem IntroSort_perm (P : α → α → Bool) (key : α → Int)
    (hkey : ∀ x y, P x y = true ↔ key x < key y) (A : List α) :
    List.Perm (IntroSort P A) A := by
  unfold IntroSort
  by_cases h : A.length < 2
  · simp only [h, if_true]; exact List.Perm.refl _
  · simp only [h, if_false]
    have := (IntroSortLoop_spec P key hkey A.length A 0 (A.length - 1) (LogeTimes2 A.length)
      (Nat.zero_le _) (by omega) (by omega)).1
    exact this.perm (by omega)

/-- `IntroSort` returns its input in non-decreasing order of `key`. -/
theorem IntroSort_sorted (P : α → α → Bool) (key : α → Int)
    (hkey : ∀ x y, P x y = true ↔ key x < key y) (A : List α) :
    ∀ i j, i < j → j < (IntroSort P A).length →
      key (At (IntroSort P A) i) ≤ key (At (IntroSort P A) j) := by
  unfold IntroSort
  by_cases h : A.length < 2
  · simp only [h, if_true]
    intro i j h1 h2; omega
  · simp only [h, if_false]
    obtain ⟨a, b⟩ := IntroSortLoop_spec P key hkey A.length A 0 (A.length - 1)
      (LogeTimes2 A.length) (Nat.zero_le _) (by omega) (by omega)
    intro i j h1 h2
    rw [a.length_eq] at h2
    exact b i j (Nat.zero_le _) h1 (by omega)

end

end Algo
/-! ## The engine sort under an arbitrary predicate

Whatever the predicate answers, the sort only rearranges its input, and two predicates that
agree on the entries of the input give the same result. -/

namespace Algo

section
variable {α : Type} [Inhabited α]

theorem RangePerm_at_lt {lo hi : Nat} {A B : List α} (h : RangePerm lo hi A B)
    (hlen : hi < A.length) (k : Nat) (hk : k < A.length) :
    ∃ k2, k2 < A.length ∧ At B k = At A k2 := by
  by_cases hr : lo ≤ k ∧ k ≤ hi
  · obtain ⟨k2, _, h2, h3⟩ := h.at_inside k hr.1 hr.2
    exact ⟨k2, by omega, h3⟩
  · exact ⟨k, hk, h.at_outside k hr⟩

theorem Agree_refl (P : α → α → Bool) (A : List α) : Agree P P A :=
  fun _ _ _ _ => rfl

theorem Agree_of_RangePerm {P Q : α → α → Bool} {lo hi : Nat} {A B : List α}
    (h : Agree P Q A) (hp : RangePerm lo hi A B) (hlen : hi < A.length) : Agree P Q B := by
  intro i j hi hj
  rw [hp.length_eq] at hi hj
  obtain ⟨i2, a1, a2⟩ := RangePerm_at_lt hp hlen i hi
  obtain ⟨j2, b1, b2⟩ := RangePerm_at_lt hp hlen j hj
  rw [a2, b2]
  exact h i2 j2 a1 b1

theorem Agree_of_mem (P Q : α → α → Bool) (A : List α)
    (h : ∀ x ∈ A, ∀ y ∈ A, P x y = Q x y) : Agree P Q A := by
  intro i j hi hj
  have e1 : At A i = A[i] := by
    simp [At, List.getD_eq_getElem?_getD, List.getElem?_eq_getElem hi]
  have e2 : At A j = A[j] := by
    simp [At, List.getD_eq_getElem?_getD, List.getElem?_eq_getElem hj]
  rw [e1, e2]
  exact h _ (List.getElem_mem _) _ (List.getElem_mem _)

theorem ScanMax_congr (P Q : α → α → Bool) (A : List α) (h : Agree P Q A) (Min : Nat) :
    ∀ n M Item, Min ≤ M → M < Item → Item + n ≤ A.length →
      ScanMax P A M Item n = ScanMax Q A M Item n ∧
        Min ≤ ScanMax P A M Item n ∧ ScanMax P A M Item n < Item + n := by
  intro n
  induction n with
  | zero =>
    intro M Item h1 h2 _
    exact ⟨rfl, h1, h2⟩
  | succ n ih =>
    intro M Item h1 h2 h3
    simp only [ScanMax]
    rw [← h M Item (by omega) (by omega)]
    by_cases hp : P (At A M) (At A Item) = true
    · rw [if_pos hp]
      obtain ⟨a, b, c⟩ := ih Item (Item + 1) (by omega) (by omega) (by omega)
      exact ⟨a, b, by omega⟩
    · rw [if_neg hp]
      obtain ⟨a, b, c⟩ := ih M (Item + 1) h1 (by omega) (by omega)
      exact ⟨a, b, by omega⟩

theorem BubbleSort_congr (P Q : α → α → Bool) (Min : Nat) :
    ∀ d (A : List α), Min + d < A.length → Agree P Q A →
      BubbleSort P Min d A = BubbleSort Q Min d A ∧
        RangePerm Min (Min + d) A (BubbleSort P Min d A) := by
  intro d
  induction d with
  | zero =>
    intro A _ _
    exact ⟨rfl, RangePerm.refl _ _ _⟩
  | succ d ih =>
    intro A hlen h
    simp only [BubbleSort]
    obtain ⟨m0, m1, m2⟩ := ScanMax_congr P Q A h Min (d + 1) Min (Min + 1) (le_refl _)
      (by omega) (by omega)
    rw [← m0]
    generalize ScanMax P A Min (Min + 1) (d + 1) = M at m1 m2
    have hsw := RangePerm.swap (Min) (Min + (d + 1)) A M (Min + d + 1) m1 (by omega)
      (by omega) (by omega) (by omega)
    obtain ⟨r0, r1⟩ := ih (Swap A M (Min + d + 1)) (by rw [length_Swap]; omega)
      (Agree_of_RangePerm h hsw (by omega))
    exact ⟨r0, hsw.trans (r1.mono (le_refl _) (by omega))⟩

theorem ScanUp_congr (P Q : α → α → Bool) (A : List α) (h : Agree P Q A) (CMin CMax : Nat)
    (hmin : CMin < A.length) (hmax : CMax < A.length) :
    ∀ n i, ScanUp P A CMin CMax n i = ScanUp Q A CMin CMax n i ∧
      i ≤ ScanUp P A CMin CMax n i ∧
      (i ≤ CMax + 1 → ScanUp P A CMin CMax n i ≤ CMax + 1) := by
  intro n
  induction n with
  | zero =>
    intro i
    exact ⟨rfl, le_refl _, fun hi => hi⟩
  | succ n ih =>
    intro i
    simp only [ScanUp]
    by_cases hi : i ≤ CMax
    · rw [← h CMin i hmin (by omega)]
      by_cases hc : (decide (i ≤ CMax) && !P (At A CMin) (At A i)) = true
      · rw [if_pos hc, if_pos hc]
        obtain ⟨a, b, c⟩ := ih (i + 1)
        exact ⟨a, by omega, fun _ => c (by omega)⟩
      · rw [if_neg hc, if_neg hc]
        exact ⟨rfl, le_refl _, fun hi => hi⟩
    · have hd : decide (i ≤ CMax) = false := by simpa using hi
      rw [hd]
      simp only [Bool.false_and, Bool.false_eq_true, if_false]
      exact ⟨trivial, le_refl _, fun hi => hi⟩

theorem ScanDown_congr (P Q : α → α → Bool) (A : List α) (h : Agree P Q A) (CMin : Nat)
    (hmin : CMin < A.length) :
    ∀ j, j < A.length → ScanDown P A CMin j = ScanDown Q A CMin j ∧
      ScanDown P A CMin j ≤ j ∧ (CMin ≤ j → CMin ≤ ScanDown P A CMin j) := by
  intro j
  induction j with
  | zero =>
    intro _
    exact ⟨rfl, le_refl _, fun hj => hj⟩
  | succ j ih =>
    intro hlen
    simp only [ScanDown]
    rw [← h (j + 1) CMin hlen hmin]
    by_cases hc : (decide (j + 1 > CMin) && !P (At A (j + 1)) (At A CMin)) = true
    · rw [if_pos hc, if_pos hc]
      obtain ⟨a, b, c⟩ := ih (by omega)
      have hj : j + 1 > CMin := by
        simp only [Bool.and_eq_true, decide_eq_true_eq] at hc
        exact hc.1
      exact ⟨a, by omega, fun _ => c (by omega)⟩
    · rw [if_neg hc, if_neg hc]
      exact ⟨rfl, le_refl _, fun hj => hj⟩

theorem PartitionLoop_congr (P Q : α → α → Bool) (CMin CMax : Nat) :
    ∀ n (A : List α) (iMin iMax : Nat), Agree P Q A → CMin ≤ iMin → iMin ≤ CMax →
      CMin < iMax → iMax ≤ CMax + 1 → CMax < A.length → (1 ≤ n ∨ iMax ≤ CMax) →
      PartitionLoop P CMin CMax n A iMin iMax = PartitionLoop Q CMin CMax n A iMin iMax ∧
      RangePerm (CMin + 1) CMax A (PartitionLoop P CMin CMax n A iMin iMax).1 ∧
      CMin ≤ (PartitionLoop P CMin CMax n A iMin iMax).2 ∧
      (PartitionLoop P CMin CMax n A iMin iMax).2 ≤ CMax := by
  intro n
  induction n with
  | zero =>
    intro A iMin iMax _ h1 h2 h3 h4 h5 h6
    refine ⟨rfl, RangePerm.refl _ _ _, ?_, ?_⟩
    · show CMin ≤ iMax
      omega
    · show iMax ≤ CMax
      omega
  | succ n ih =>
    intro A iMin iMax h h1 h2 h3 h4 h5 h6
    simp only [PartitionLoop]
    obtain ⟨u0, u1, u2⟩ := ScanUp_congr P Q A h CMin CMax (by omega) h5 (CMax - iMin) (iMin + 1)
    obtain ⟨d0, d1, d2⟩ := ScanDown_congr P Q A h CMin (by omega) (iMax - 1) (by omega)
    rw [← u0, ← d0]
    generalize ScanUp P A CMin CMax (CMax - iMin) (iMin + 1) = i at u1 u2
    generalize ScanDown P A CMin (iMax - 1) = j at d1 d2
    have u2 := u2 (by omega)
    have d2 := d2 (by omega)
    by_cases hij : i > j
    · rw [if_pos hij, if_pos hij]
      exact ⟨rfl, RangePerm.refl _ _ _, d2, by omega⟩
    · rw [if_neg hij, if_neg hij]
      have hsw := RangePerm.swap (CMin + 1) CMax A i j (by omega) (by omega) (by omega)
        (by omega) h5
      obtain ⟨r0, r1, r2, r3⟩ := ih (Swap A i j) i j (Agree_of_RangePerm h hsw h5) (by omega)
        (by omega) (by omega) (by omega) (by rw [length_Swap]; exact h5) (Or.inr (by omega))
      exact ⟨r0, hsw.trans r1, r2, r3⟩

theorem HeapSiftDown_congr (P Q : α → α → Bool) (First Count : Nat) :
    ∀ n (A : List α) (Index : Nat), Agree P Q A → First + Count ≤ A.length →
      HeapSiftDown P First Count n A Index = HeapSiftDown Q First Count n A Index ∧
        RangePerm First (First + Count - 1) A (HeapSiftDown P First Count n A Index) := by
  intro n
  induction n with
  | zero =>
    intro A Index _ _
    exact ⟨rfl, RangePerm.refl _ _ _⟩
  | succ n ih =>
    intro A Index h hlen
    simp only [HeapSiftDown]
    by_cases hleaf : 2 * Index + 1 ≥ Count
    · rw [if_pos hleaf, if_pos hleaf]
      exact ⟨rfl, RangePerm.refl _ _ _⟩
    · rw [if_neg hleaf, if_neg hleaf]
      have hchild : (if 2 * Index + 1 + 1 < Count then
            (if Q (At A (First + (2 * Index + 1))) (At A (First + (2 * Index + 1 + 1))) = true
              then 2 * Index + 1 else 2 * Index + 1 + 1)
            else 2 * Index + 1) =
          (if 2 * Index + 1 + 1 < Count then
            (if P (At A (First + (2 * Index + 1))) (At A (First + (2 * Index + 1 + 1))) = true
              then 2 * Index + 1 else 2 * Index + 1 + 1)
            else 2 * Index + 1) := by
        by_cases hr : 2 * Index + 1 + 1 < Count
        · rw [if_pos hr, if_pos hr, h _ _ (by omega) (by omega)]
        · rw [if_neg hr, if_neg hr]
      rw [hchild]
      obtain ⟨m, hm, hm1, hm2⟩ : ∃ m, m = (if 2 * Index + 1 + 1 < Count then
            (if P (At A (First + (2 * Index + 1))) (At A (First + (2 * Index + 1 + 1))) = true
              then 2 * Index + 1 else 2 * Index + 1 + 1)
            else 2 * Index + 1) ∧ Index < m ∧ m < Count := by
        refine ⟨_, rfl, ?_, ?_⟩
        · split_ifs <;> omega
        · split_ifs <;> omega
      rw [← hm]
      rw [← h (First + m) (First + Index) (by omega) (by omega)]
      by_cases hc : (!P (At A (First + m)) (At A (First + Index))) = true
      · rw [if_pos hc, if_pos hc]
        exact ⟨rfl, RangePerm.refl _ _ _⟩
      · rw [if_neg hc, if_neg hc]
        have hsw := RangePerm.swap First (First + Count - 1) A (First + Index) (First + m)
          (by omega) (by omega) (by omega) (by omega) (by omega)
        obtain ⟨r0, r1⟩ := ih (Swap A (First + Index) (First + m)) m
          (Agree_of_RangePerm h hsw (by omega)) (by rw [length_Swap]; exact hlen)
        exact ⟨r0, hsw.trans r1⟩

theorem HeapifyInternal_congr (P Q : α → α → Bool) (First Num : Nat) (hNum : 1 ≤ Num) :
    ∀ m (A : List α), Agree P Q A → First + Num ≤ A.length →
      HeapifyInternal P First Num m A = HeapifyInternal Q First Num m A ∧
        RangePerm First (First + Num - 1) A (HeapifyInternal P First Num m A) := by
  intro m
  induction m with
  | zero =>
    intro A _ _
    exact ⟨rfl, RangePerm.refl _ _ _⟩
  | succ m ih =>
    intro A h hlen
    simp only [HeapifyInternal]
    obtain ⟨s0, s1⟩ := HeapSiftDown_congr P Q First Num Num A m h hlen
    rw [← s0]
    obtain ⟨r0, r1⟩ := ih (HeapSiftDown P First Num Num A m)
      (Agree_of_RangePerm h s1 (by omega)) (by rw [s1.length_eq]; exact hlen)
    exact ⟨r0, s1.trans r1⟩

theorem HeapSortLoop_congr (P Q : α → α → Bool) (First : Nat) :
    ∀ Index (A : List α), Agree P Q A → First + Index < A.length →
      HeapSortLoop P First Index A = HeapSortLoop Q First Index A ∧
        RangePerm First (First + Index) A (HeapSortLoop P First Index A) := by
  intro Index
  induction Index with
  | zero =>
    intro A _ _
    exact ⟨rfl, RangePerm.refl _ _ _⟩
  | succ Index ih =>
    intro A h hlen
    simp only [HeapSortLoop]
    have hsw := RangePerm.swap First (First + (Index + 1)) A First (First + (Index + 1))
      (le_refl _) (by omega) (by omega) (le_refl _) hlen
    have hAg := Agree_of_RangePerm h hsw hlen
    obtain ⟨s0, s1⟩ := HeapSiftDown_congr P Q First (Index + 1) (Index + 1)
      (Swap A First (First + (Index + 1))) 0 hAg (by rw [length_Swap]; omega)
    rw [← s0]
    have hL : (Swap A First (First + (Index + 1))).length = A.length := length_Swap _ _ _
    generalize HeapSiftDown P First (Index + 1) (Index + 1)
      (Swap A First (First + (Index + 1))) 0 = B at s1
    generalize Swap A First (First + (Index + 1)) = A1 at hsw hAg s1 hL
    have hBA : RangePerm First (First + (Index + 1)) A B :=
      hsw.trans (s1.mono (le_refl _) (by omega))
    obtain ⟨r0, r1⟩ := ih B (Agree_of_RangePerm h hBA hlen)
      (by rw [hBA.length_eq]; omega)
    exact ⟨r0, hBA.trans (r1.mono (le_refl _) (by omega))⟩

theorem HeapSortInternal_congr (P Q : α → α → Bool) (First Num : Nat) (A : List α)
    (h : Agree P Q A) (hNum : 1 ≤ Num) (hlen : First + Num ≤ A.length) :
    HeapSortInternal P First Num A = HeapSortInternal Q First Num A ∧
      RangePerm First (First + Num - 1) A (HeapSortInternal P First Num A) := by
  have hR : Agree (fun x y => P y x) (fun x y => Q y x) A := fun i j hi hj => h j i hj hi
  simp only [HeapSortInternal]
  obtain ⟨a0, a1⟩ := HeapifyInternal_congr (fun x y => P y x) (fun x y => Q y x) First Num hNum
    ((Num - 2) / 2 + 1) A hR hlen
  rw [← a0]
  generalize HeapifyInternal (fun x y => P y x) First Num ((Num - 2) / 2 + 1) A = B at a1
  obtain ⟨b0, b1⟩ := HeapSortLoop_congr (fun x y => P y x) (fun x y => Q y x) First (Num - 1) B
    (Agree_of_RangePerm hR a1 (by omega)) (by rw [a1.length_eq]; omega)
  refine ⟨b0, a1.trans ?_⟩
  have e : First + Num - 1 = First + (Num - 1) := by omega
  rw [e]
  exact b1

theorem IntroSortLoop_congr (P Q : α → α → Bool) :
    ∀ n (A : List α) (CMin CMax D : Nat), Agree P Q A → CMin ≤ CMax → CMax < A.length →
      IntroSortLoop P n A CMin CMax D = IntroSortLoop Q n A CMin CMax D ∧
        RangePerm CMin CMax A (IntroSortLoop P n A CMin CMax D) := by
  intro n
  induction n with
  | zero =>
    intro A CMin CMax D _ _ _
    exact ⟨rfl, RangePerm.refl _ _ _⟩
  | succ n ih =>
    intro A CMin CMax D h h1 h2
    simp only [IntroSortLoop]
    by_cases hD : D = 0
    · rw [if_pos hD, if_pos hD]
      have := HeapSortInternal_congr P Q CMin (CMax - CMin + 1) A h (by omega) (by omega)
      have e : CMin + (CMax - CMin + 1) - 1 = CMax := by omega
      rw [e] at this
      exact this
    · rw [if_neg hD, if_neg hD]
      by_cases hC : CMax - CMin + 1 ≤ 8
      · rw [if_pos hC, if_pos hC]
        have := BubbleSort_congr P Q CMin (CMax - CMin) A (by omega) h
        have e : CMin + (CMax - CMin) = CMax := by omega
        rw [e] at this
        exact this
      · rw [if_neg hC, if_neg hC]
        have hA1 := RangePerm.swap (CMin) (CMax) A (CMin + (CMax - CMin + 1) / 2) CMin
          (by omega) (by omega) (le_refl _) h1 h2
        have hAg1 := Agree_of_RangePerm h hA1 h2
        generalize Swap A (CMin + (CMax - CMin + 1) / 2) CMin = A1 at hA1 hAg1
        have hA1L : A1.length = A.length := hA1.length_eq
        obtain ⟨p0, p1, p2, p3⟩ := PartitionLoop_congr P Q CMin CMax (CMax - CMin + 1) A1 CMin
          (CMax + 1) hAg1 (le_refl _) h1 (by omega) (le_refl _) (by omega) (Or.inl (by omega))
        rw [← p0]
        generalize PartitionLoop P CMin CMax (CMax - CMin + 1) A1 CMin (CMax + 1) = r
          at p1 p2 p3
        obtain ⟨B, j⟩ := r
        simp only at p1 p2 p3 ⊢
        have hBL : B.length = A.length := by rw [p1.length_eq, hA1L]
        have hAgB := Agree_of_RangePerm hAg1 p1 (by omega)
        have hA2 := RangePerm.swap (CMin) (CMax) B CMin j (le_refl _) h1 p2 p3 (by omega)
        have hAg2 := Agree_of_RangePerm hAgB hA2 (by omega)
        generalize Swap B CMin j = A2 at hA2 hAg2
        have hA2L : A2.length = A.length := by rw [hA2.length_eq, hBL]
        have hAA2 : RangePerm CMin CMax A A2 :=
          hA1.trans ((p1.mono (by omega) (le_refl _)).trans hA2)
        have left : ∀ X : List α, X.length = A.length → Agree P Q X →
            (if CMin + 1 < j then IntroSortLoop P n X CMin (j - 1) (D - 1) else X) =
              (if CMin + 1 < j then IntroSortLoop Q n X CMin (j - 1) (D - 1) else X) ∧
            RangePerm CMin CMax X
              (if CMin + 1 < j then IntroSortLoop P n X CMin (j - 1) (D - 1) else X) := by
          intro X hX hAg
          by_cases hc : CMin + 1 < j
          · rw [if_pos hc, if_pos hc]
            obtain ⟨q0, q1⟩ := ih X CMin (j - 1) (D - 1) hAg (by omega) (by omega)
            exact ⟨q0, q1.mono (le_refl _) (by omega)⟩
          · rw [if_neg hc, if_neg hc]
            exact ⟨rfl, RangePerm.refl _ _ _⟩
        have right : ∀ X : List α, X.length = A.length → Agree P Q X →
            (if CMax > j then IntroSortLoop P n X (j + 1) CMax (D - 1) else X) =
              (if CMax > j then IntroSortLoop Q n X (j + 1) CMax (D - 1) else X) ∧
            RangePerm CMin CMax X
              (if CMax > j then IntroSortLoop P n X (j + 1) CMax (D - 1) else X) := by
          intro X hX hAg
          by_cases hc : CMax > j
          · rw [if_pos hc, if_pos hc]
            obtain ⟨q0, q1⟩ := ih X (j + 1) CMax (D - 1) hAg (by omega) (by omega)
            exact ⟨q0, q1.mono (by omega) (le_refl _)⟩
          · rw [if_neg hc, if_neg hc]
            exact ⟨rfl, RangePerm.refl _ _ _⟩
        by_cases hbig : j + j ≥ CMax + CMin + 1
        · rw [if_pos hbig, if_pos hbig]
          obtain ⟨r0, r1⟩ := right A2 hA2L hAg2
          rw [← r0]
          generalize (if CMax > j then IntroSortLoop P n A2 (j + 1) CMax (D - 1) else A2) = A3
            at r1
          obtain ⟨l0, l1⟩ := left A3 (by rw [r1.length_eq, hA2L])
            (Agree_of_RangePerm hAg2 r1 (by omega))
          exact ⟨l0, hAA2.trans (r1.trans l1)⟩
        · rw [if_neg hbig, if_neg hbig]
          obtain ⟨l0, l1⟩ := left A2 hA2L hAg2
          rw [← l0]
          generalize (if CMin + 1 < j then IntroSortLoop P n A2 CMin (j - 1) (D - 1) else A2)
            = A3 at l1
          obtain ⟨r0, r1⟩ := right A3 (by rw [l1.length_eq, hA2L])
            (Agree_of_RangePerm hAg2 l1 (by omega))
          exact ⟨r0, hAA2.trans (l1.trans r1)⟩

/-- Two predicates that agree on the entries of the input sort it to the same result. -/
theorem IntroSort_congr (P Q : α → α → Bool) (A : List α)
    (h : ∀ x ∈ A, ∀ y ∈ A, P x y = Q x y) : IntroSort P A = IntroSort Q A := by
  unfold IntroSort
  by_cases hl : A.length < 2
  · rw [if_pos hl, if_pos hl]
  · rw [if_neg hl, if_neg hl]
    exact (IntroSortLoop_congr P Q A.length A 0 (A.length - 1) (LogeTimes2 A.length)
      (Agree_of_mem P Q A h) (Nat.zero_le _) (by omega)).1

/-- Whatever the predicate, `IntroSort` returns a permutation of its input. -/
theorem IntroSort_perm_any (P : α → α → Bool) (A : List α) : List.Perm (IntroSort P A) A := by
  unfold IntroSort
  by_cases hl : A.length < 2
  · rw [if_pos hl]
  · rw [if_neg hl]
    exact (IntroSortLoop_congr P P A.length A 0 (A.length - 1) (LogeTimes2 A.length)
      (Agree_refl P A) (Nat.zero_le _) (by omega)).2.perm (by omega)

end

end Algo
/-! ## Visibility set -/

theorem TArray.Find_ge {α : Type} [DecidableEq α] (A : List α) (Item : α) :
    -1 ≤ TArray.Find A Item := by
  induction A with
  | nil => simp [TArray.Find, INDEX_NONE]
  | cons x xs ih =>
    simp only [TArray.Find, INDEX_NONE] at ih ⊢
    split_ifs <;> omega

theorem TArray.Find_ne_none_iff {α : Type} [DecidableEq α] (A : List α) (Item : α) :
    TArray.Find A Item ≠ INDEX_NONE ↔ Item ∈ A := by
  induction A with
  | nil => simp [TArray.Find]
  | cons x xs ih =>
    have hge := TArray.Find_ge xs Item
    simp only [TArray.Find, INDEX_NONE, List.mem_cons] at ih hge ⊢
    by_cases hx : x = Item
    · simp [hx]
    · have hx2 : ¬ Item = x := fun h => hx h.symm
      simp only [hx, hx2, if_false, false_or]
      rw [← ih]
      split_ifs with h
      · simp [h]
      · constructor
        · intro _; exact h
        · intro _; omega

namespace FVdbPrincipledSceneProxy

theorem IsVisible_iff (P : FVdbPrincipledSceneProxy) (View : FSceneViewPtr) :
    P.IsVisible View = true ↔ View ∈ P.VisibleViews := by
  simp only [IsVisible, decide_eq_true_eq]
  exact TArray.Find_ne_none_iff _ _

theorem VisibleViews_foldl_RecordVisible (Views : List FSceneViewPtr) :
    ∀ P : FVdbPrincipledSceneProxy,
      (Views.foldl RecordVisible P).VisibleViews = P.VisibleViews ++ Views := by
  induction Views with
  | nil => intro P; simp
  | cons v vs ih =>
    intro P
    simp [List.foldl_cons, ih, RecordVisible, TArray.Add]

theorem GetDynamicMeshElementsLoop_eq (IsShown : FSceneViewPtr → Bool) (VisibilityMap : Nat) :
    ∀ (Views : List FSceneViewPtr) (ViewIndex : Nat) (P : FVdbPrincipledSceneProxy),
      GetDynamicMeshElementsLoop IsShown VisibilityMap ViewIndex Views P =
        (RecordedViews IsShown VisibilityMap ViewIndex Views).foldl RecordVisible P := by
  intro Views
  induction Views with
  | nil => intro _ _; rfl
  | cons v vs ih =>
    intro ViewIndex P
    simp only [GetDynamicMeshElementsLoop, RecordedViews]
    split_ifs
    · simp [ih]
    · simp [ih]

theorem RecordedViews_subset (IsShown : FSceneViewPtr → Bool) (VisibilityMap : Nat) :
    ∀ (Views : List FSceneViewPtr) (ViewIndex : Nat),
      ∀ v ∈ RecordedViews IsShown VisibilityMap ViewIndex Views, v ∈ Views := by
  intro Views
  induction Views with
  | nil => intro _ v hv; simp [RecordedViews] at hv
  | cons x xs ih =>
    intro ViewIndex v hv
    simp only [RecordedViews] at hv
    split_ifs at hv
    · rcases List.mem_cons.1 hv with h | h
      · simp [h]
      · exact List.mem_cons_of_mem _ (ih _ v h)
    · exact List.mem_cons_of_mem _ (ih _ v hv)

end FVdbPrincipledSceneProxy

/-- C1: after `ResetVisibility` and any finite sequence of recordings (`VisibleViews.Add`),
`IsVisible(v)` is true exactly for the views recorded since the reset; it is false for every
view right after the reset; recording a view a second time changes no `IsVisible` answer;
and a call of `GetDynamicMeshElements` acts on the proxy as a sequence of such recordings of
views taken from its `Views` argument. -/
theorem C1_visible_iff_recorded_since_reset :
    (∀ (P : FVdbPrincipledSceneProxy) (Recorded : List FSceneViewPtr) (v : FSceneViewPtr),
      (Recorded.foldl FVdbPrincipledSceneProxy.RecordVisible P.ResetVisibility).IsVisible v = true
        ↔ v ∈ Recorded) ∧
    (∀ (P : FVdbPrincipledSceneProxy) (v : FSceneViewPtr),
      P.ResetVisibility.IsVisible v = false) ∧
    (∀ (P : FVdbPrincipledSceneProxy) (v w : FSceneViewPtr),
      ((P.RecordVisible v).RecordVisible v).IsVisible w = (P.RecordVisible v).IsVisible w) ∧
    (∀ (IsShown : FSceneViewPtr → Bool) (Views : List FSceneViewPtr) (VisibilityMap : Nat)
      (P : FVdbPrincipledSceneProxy),
      ∃ Recorded : List FSceneViewPtr,
        P.GetDynamicMeshElements IsShown Views VisibilityMap =
          Recorded.foldl FVdbPrincipledSceneProxy.RecordVisible P ∧
        ∀ v ∈ Recorded, v ∈ Views) := by
  refine ⟨?_, ?_, ?_, ?_⟩
  · intro P Recorded v
    rw [FVdbPrincipledSceneProxy.IsVisible_iff,
      FVdbPrincipledSceneProxy.VisibleViews_foldl_RecordVisible]
    simp [FVdbPrincipledSceneProxy.ResetVisibility]
  · intro P v
    have := (FVdbPrincipledSceneProxy.IsVisible_iff P.ResetVisibility v)
    simp only [FVdbPrincipledSceneProxy.ResetVisibility, List.not_mem_nil, iff_false] at this
    simpa [FVdbPrincipledSceneProxy.ResetVisibility] using this
  · intro P v w
    have h1 := FVdbPrincipledSceneProxy.IsVisible_iff ((P.RecordVisible v).RecordVisible v) w
    have h2 := FVdbPrincipledSceneProxy.IsVisible_iff (P.RecordVisible v) w
    have h3 : w ∈ ((P.RecordVisible v).RecordVisible v).VisibleViews ↔
        w ∈ (P.RecordVisible v).VisibleViews := by
      simp [FVdbPrincipledSceneProxy.RecordVisible, TArray.Add]
    rw [Bool.eq_iff_iff, h1, h2, h3]
  · intro IsShown Views VisibilityMap P
    unfold FVdbPrincipledSceneProxy.GetDynamicMeshElements
    split_ifs
    · exact ⟨[], rfl, fun v hv => by simp at hv⟩
    · exact ⟨_, FVdbPrincipledSceneProxy.GetDynamicMeshElementsLoop_eq _ _ _ _ _,
        FVdbPrincipledSceneProxy.RecordedViews_subset _ _ _ _⟩

/-- C1 on a concrete proxy: after a reset and the recordings of views 3 and 4, view 4 is
visible. -/
theorem C1_visible_witness :
    ([3, 4].foldl FVdbPrincipledSceneProxy.RecordVisible
      (SceneProxy none none 0).ResetVisibility).IsVisible 4 = true :=
  (C1_visible_iff_recorded_since_reset.1 (SceneProxy none none 0) [3, 4] 4).2 (by decide)

/-! ## The per-proxy loop of `Render_RenderThread` -/

theorem SetSlot_Params (P : FVdbPrincipledSceneProxy) (idx : Bool)
    (rt : Option IPooledRenderTarget) : (P.SetSlot idx rt).Params = P.Params := by
  cases idx <;> rfl

theorem GetOrCreateRenderTarget_Params (P : FVdbPrincipledSceneProxy) (Pool : FRenderTargetPool)
    (RtSize : FIntPoint) (EvenFrame : Bool) :
    (P.GetOrCreateRenderTarget Pool RtSize EvenFrame).Proxy.Params = P.Params := by
  unfold FVdbPrincipledSceneProxy.GetOrCreateRenderTarget
  simp only []
  split_ifs
  · simp only [SetSlot_Params]
  · rfl

/-- The draw condition of the loop body, on the state before the iteration. -/
theorem CreateVdbUniformBuffer_isSome (Inverse : FMatrix → FMatrix)
    (P : FVdbPrincipledSceneProxy) (UsePathTracing : Bool)
    (h : P.Params.VdbDensity.isSome = true) :
    ∃ ub, CreateVdbUniformBuffer Inverse P UsePathTracing = some ub := by
  unfold CreateVdbUniformBuffer
  simp only [FVdbPrincipledSceneProxy.GetParams]
  cases hd : P.Params.VdbDensity with
  | none => rw [hd] at h; simp at h
  | some d => exact ⟨_, rfl⟩

theorem RenderProxy_Params (Inverse : FMatrix → FMatrix) (F : FFrame) (St : FRenderThreadState)
    (Proxy q : ProxyPtr) :
    ((RenderProxy Inverse F St Proxy).1.Proxies q).Params = (St.Proxies q).Params := by
  have hP : ∀ X : FRenderThreadState × List FRDGPass,
      X.1.Proxies = Function.update St.Proxies Proxy
        (((St.Proxies Proxy).GetOrCreateRenderTarget St.Pool F.RtSize
          (IsEven F.NumAccumulations)).Proxy.GetOrCreateRenderTarget
          ((St.Proxies Proxy).GetOrCreateRenderTarget St.Pool F.RtSize
            (IsEven F.NumAccumulations)).Pool F.RtSize (!IsEven F.NumAccumulations)).Proxy →
      (X.1.Proxies q).Params = (St.Proxies q).Params := by
    intro X hX
    rw [hX]
    by_cases hq : q = Proxy
    · subst hq
      simp only [Function.update_same, GetOrCreateRenderTarget_Params]
    · simp only [Function.update_noteq hq]
  apply hP
  unfold RenderProxy
  simp only []
  split_ifs <;> (try split) <;> rfl

theorem RenderProxy_other (Inverse : FMatrix → FMatrix) (F : FFrame) (St : FRenderThreadState)
    (Proxy q : ProxyPtr) (hq : q ≠ Proxy) :
    (RenderProxy Inverse F St Proxy).1.Proxies q = St.Proxies q := by
  have hP : ∀ X : FRenderThreadState × List FRDGPass,
      (∃ P, X.1.Proxies = Function.update St.Proxies Proxy P) →
      X.1.Proxies q = St.Proxies q := by
    rintro X ⟨P, hX⟩
    rw [hX, Function.update_noteq hq]
  apply hP
  unfold RenderProxy
  simp only []
  split_ifs <;> (try split) <;> exact ⟨_, rfl⟩

/-- The passes of one loop iteration: a draw exactly under the budget-and-buffer condition,
then (raster mode only) the denoise step, then one composite. -/
theorem RenderProxy_passes (Inverse : FMatrix → FMatrix) (F : FFrame) (St : FRenderThreadState)
    (Proxy : ProxyPtr) :
    ((RenderProxy Inverse F St Proxy).2.filter FRDGPass.IsComposite).map FRDGPass.Proxy = [Proxy] ∧
    ((RenderProxy Inverse F St Proxy).2.filter FRDGPass.IsDraw).map FRDGPass.Proxy =
      (if decide (F.NumAccumulations < F.MaxSPP) && (St.Proxies Proxy).Params.VdbDensity.isSome
        then [Proxy] else []) ∧
    ((RenderProxy Inverse F St Proxy).2.filter FRDGPass.IsDenoise).map FRDGPass.Proxy =
      (if decide (F.NumAccumulations < F.MaxSPP) && (St.Proxies Proxy).Params.VdbDensity.isSome
          && !F.UsePathTracing
        then [Proxy] else []) ∧
    (∀ pass ∈ (RenderProxy Inverse F St Proxy).2, pass.Proxy = Proxy) ∧
    (F.MaxSPP ≤ F.NumAccumulations →
      ∀ pass ∈ (RenderProxy Inverse F St Proxy).2, pass.Writes = FRDGTexture.ColorTexture) := by
  have hPar : ((((St.Proxies Proxy).GetOrCreateRenderTarget St.Pool F.RtSize
          (IsEven F.NumAccumulations)).Proxy.GetOrCreateRenderTarget
          ((St.Proxies Proxy).GetOrCreateRenderTarget St.Pool F.RtSize
            (IsEven F.NumAccumulations)).Pool F.RtSize
              (!IsEven F.NumAccumulations)).Proxy).Params = (St.Proxies Proxy).Params := by
    simp only [GetOrCreateRenderTarget_Params]
  unfold RenderProxy
  simp only [FVdbPrincipledSceneProxy.GetParams, hPar]
  by_cases hc : (decide (F.NumAccumulations < F.MaxSPP) &&
      (St.Proxies Proxy).Params.VdbDensity.isSome) = true
  · simp only [hc, if_true]
    have hlt : F.NumAccumulations < F.MaxSPP := by
      simp only [Bool.and_eq_true, decide_eq_true_eq] at hc; exact hc.1
    have hd : (St.Proxies Proxy).Params.VdbDensity.isSome = true := by
      simp only [Bool.and_eq_true] at hc; exact hc.2
    obtain ⟨ub, hub⟩ := CreateVdbUniformBuffer_isSome Inverse
      ((((St.Proxies Proxy).GetOrCreateRenderTarget St.Pool F.RtSize
          (IsEven F.NumAccumulations)).Proxy.GetOrCreateRenderTarget
          ((St.Proxies Proxy).GetOrCreateRenderTarget St.Pool F.RtSize
            (IsEven F.NumAccumulations)).Pool F.RtSize
              (!IsEven F.NumAccumulations)).Proxy) F.UsePathTracing (by rw [hPar]; exact hd)
    rw [hub]
    cases hpt : F.UsePathTracing
    · simp [FRDGPass.IsComposite, FRDGPass.IsDraw, FRDGPass.IsDenoise, FRDGPass.Proxy]
      omega
    · simp [FRDGPass.IsComposite, FRDGPass.IsDraw, FRDGPass.IsDenoise, FRDGPass.Proxy]
      omega
  · have hc2 : (decide (F.NumAccumulations < F.MaxSPP) &&
      (St.Proxies Proxy).Params.VdbDensity.isSome) = false := by simpa using hc
    simp only [hc2, Bool.false_eq_true, if_false, Bool.false_and]
    simp [FRDGPass.IsComposite, FRDGPass.IsDraw, FRDGPass.IsDenoise, FRDGPass.Proxy,
      FRDGPass.Writes]

theorem RenderLoop_Params (Inverse : FMatrix → FMatrix) (F : FFrame) :
    ∀ (L : List ProxyPtr) (St : FRenderThreadState) (q : ProxyPtr),
      ((RenderLoop Inverse F L St).1.Proxies q).Params = (St.Proxies q).Params := by
  intro L
  induction L with
  | nil => intro St q; rfl
  | cons p ps ih =>
    intro St q
    simp only [RenderLoop]
    rw [ih, RenderProxy_Params]

theorem RenderLoop_other (Inverse : FMatrix → FMatrix) (F : FFrame) :
    ∀ (L : List ProxyPtr) (St : FRenderThreadState) (q : ProxyPtr), q ∉ L →
      (RenderLoop Inverse F L St).1.Proxies q = St.Proxies q := by
  intro L
  induction L with
  | nil => intro St q _; rfl
  | cons p ps ih =>
    intro St q hq
    simp only [RenderLoop]
    rw [ih _ _ (fun h => hq (List.mem_cons_of_mem _ h)),
      RenderProxy_other _ _ _ _ _ (fun h => hq (by rw [h]; exact List.mem_cons_self _ _))]

/-- The passes of the whole loop, by kind, in issue order. -/
theorem RenderLoop_passes (Inverse : FMatrix → FMatrix) (F : FFrame) :
    ∀ (L : List ProxyPtr) (St : FRenderThreadState),
      ((RenderLoop Inverse F L St).2.filter FRDGPass.IsComposite).map FRDGPass.Proxy = L ∧
      ((RenderLoop Inverse F L St).2.filter FRDGPass.IsDraw).map FRDGPass.Proxy =
        L.filter (fun p => decide (F.NumAccumulations < F.MaxSPP) &&
          (St.Proxies p).Params.VdbDensity.isSome) ∧
      ((RenderLoop Inverse F L St).2.filter FRDGPass.IsDenoise).map FRDGPass.Proxy =
        L.filter (fun p => decide (F.NumAccumulations < F.MaxSPP) &&
          (St.Proxies p).Params.VdbDensity.isSome && !F.UsePathTracing) ∧
      (∀ pass ∈ (RenderLoop Inverse F L St).2, pass.Proxy ∈ L) ∧
      (F.MaxSPP ≤ F.NumAccumulations →
        ∀ pass ∈ (RenderLoop Inverse F L St).2, pass.Writes = FRDGTexture.ColorTexture) := by
  intro L
  induction L with
  | nil =>
    intro St
    simp [RenderLoop]
  | cons p ps ih =>
    intro St
    obtain ⟨a1, a2, a3, a4, a5⟩ := RenderProxy_passes Inverse F St p
    obtain ⟨b1, b2, b3, b4, b5⟩ := ih (RenderProxy Inverse F St p).1
    have hpar : ∀ q, ((RenderProxy Inverse F St p).1.Proxies q).Params = (St.Proxies q).Params :=
      fun q => RenderProxy_Params Inverse F St p q
    simp only [hpar] at b2 b3
    simp only [RenderLoop, List.filter_append, List.map_append, a1, a2, a3, b1, b2, b3]
    refine ⟨by simp, ?_, ?_, ?_, ?_⟩
    · simp only [List.filter_cons]
      split_ifs <;> simp
    · simp only [List.filter_cons]
      split_ifs <;> simp
    · intro pass hpass
      rcases List.mem_append.1 hpass with h | h
      · rw [a4 pass h]; exact List.mem_cons_self _ _
      · exact List.mem_cons_of_mem _ (b4 pass h)
    · intro hle pass hpass
      rcases List.mem_append.1 hpass with h | h
      · exact a5 hle pass h
      · exact b5 hle pass h

/-! ## Candidate selection and sort -/

theorem SortPredicate_key (Mem : ProxyPtr → FVdbPrincipledSceneProxy) (ViewMat : FMatrix)
    (x y : ProxyPtr) :
    SortPredicate ViewMat (Mem x) (Mem y) = true ↔
      -ViewDepth ViewMat (Mem x) < -ViewDepth ViewMat (Mem y) := by
  simp only [SortPredicate, decide_eq_true_eq, gt_iff_lt, neg_lt_neg_iff]

theorem SortBackToFront_perm (Mem : ProxyPtr → FVdbPrincipledSceneProxy) (ViewMat : FMatrix)
    (Candidates : List ProxyPtr) :
    List.Perm (SortBackToFront Mem ViewMat Candidates) Candidates :=
  Algo.IntroSort_perm _ (fun p => -ViewDepth ViewMat (Mem p)) (SortPredicate_key Mem ViewMat)
    Candidates

theorem SortBackToFront_pairwise (Mem : ProxyPtr → FVdbPrincipledSceneProxy) (ViewMat : FMatrix)
    (Candidates : List ProxyPtr) :
    (SortBackToFront Mem ViewMat Candidates).Pairwise
      (fun a b => ViewDepth ViewMat (Mem a) ≥ ViewDepth ViewMat (Mem b)) := by
  rw [List.pairwise_iff_getElem]
  intro i j hi hj hij
  have h := Algo.IntroSort_sorted _ (fun p => -ViewDepth ViewMat (Mem p))
    (SortPredicate_key Mem ViewMat) Candidates i j hij hj
  have e1 : Algo.At (SortBackToFront Mem ViewMat Candidates) i =
      (SortBackToFront Mem ViewMat Candidates)[i] := by
    simp [Algo.At, List.getD_eq_getElem?_getD, List.getElem?_eq_getElem hi]
  have e2 : Algo.At (SortBackToFront Mem ViewMat Candidates) j =
      (SortBackToFront Mem ViewMat Candidates)[j] := by
    simp [Algo.At, List.getD_eq_getElem?_getD, List.getElem?_eq_getElem hj]
  have h2 : -ViewDepth ViewMat (Mem (Algo.At (SortBackToFront Mem ViewMat Candidates) i)) ≤
      -ViewDepth ViewMat (Mem (Algo.At (SortBackToFront Mem ViewMat Candidates) j)) := h
  rw [e1, e2] at h2
  exact neg_le_neg_iff.1 h2

/-- C2: in `Render_RenderThread` for view `V`, the proxies processed are the registered proxies
that are visible in `V` and are not level sets: the composited proxies, in issue order, are a
rearrangement of the filtered registry (so each registration is composited exactly once, and a
duplicate-free registry gives a duplicate-free processed list); every pass issued belongs to
such a proxy; every other proxy is left untouched; and an empty registry issues no pass. -/
theorem C2_processed_are_visible_fog_proxies (Inverse : FMatrix → FMatrix)
    (RHI_RAYTRACING : Bool) (SamplesPerPixelCVar : Int) (R : FVdbPrincipledRendering)
    (Parameters : FPostOpaqueRenderParameters) (St : FRenderThreadState) :
    List.Perm
      (((R.Render_RenderThread Inverse RHI_RAYTRACING SamplesPerPixelCVar Parameters St).2.filter
        FRDGPass.IsComposite).map FRDGPass.Proxy)
      (R.VdbProxies.filter
        (fun P => (St.Proxies P).IsVisible Parameters.Uid && !(St.Proxies P).IsLevelSet)) ∧
    (R.VdbProxies.Nodup →
      (((R.Render_RenderThread Inverse RHI_RAYTRACING SamplesPerPixelCVar Parameters St).2.filter
        FRDGPass.IsComposite).map FRDGPass.Proxy).Nodup) ∧
    (∀ pass ∈ (R.Render_RenderThread Inverse RHI_RAYTRACING SamplesPerPixelCVar Parameters St).2,
      pass.Proxy ∈ R.VdbProxies ∧ (St.Proxies pass.Proxy).IsVisible Parameters.Uid = true ∧
        (St.Proxies pass.Proxy).IsLevelSet = false) ∧
    (∀ q : ProxyPtr,
      ¬(q ∈ R.VdbProxies ∧ (St.Proxies q).IsVisible Parameters.Uid = true ∧
        (St.Proxies q).IsLevelSet = false) →
      (R.Render_RenderThread Inverse RHI_RAYTRACING SamplesPerPixelCVar Parameters St).1.Proxies q
        = St.Proxies q) ∧
    (R.VdbProxies = [] →
      (R.Render_RenderThread Inverse RHI_RAYTRACING SamplesPerPixelCVar Parameters St).2 = []) := by
  have hperm : List.Perm (SortedVdbProxies R.VdbProxies St.Proxies Parameters)
      (R.VdbProxies.filter
        (fun P => (St.Proxies P).IsVisible Parameters.Uid && !(St.Proxies P).IsLevelSet)) :=
    SortBackToFront_perm _ _ _
  have hmem : ∀ q, q ∈ SortedVdbProxies R.VdbProxies St.Proxies Parameters ↔
      (q ∈ R.VdbProxies ∧ (St.Proxies q).IsVisible Parameters.Uid = true ∧
        (St.Proxies q).IsLevelSet = false) := by
    intro q
    rw [hperm.mem_iff]
    simp [List.mem_filter]
  unfold FVdbPrincipledRendering.Render_RenderThread
  by_cases hE : R.VdbProxies.isEmpty = true
  · have hnil : R.VdbProxies = [] := List.isEmpty_iff.1 hE
    rw [if_pos hE]
    simp [hnil]
  · have hne : R.VdbProxies ≠ [] := fun h => hE (List.isEmpty_iff.2 h)
    rw [if_neg hE]
    obtain ⟨a1, _, _, a4, _⟩ := RenderLoop_passes Inverse
      (FrameOf RHI_RAYTRACING SamplesPerPixelCVar R Parameters)
      (SortedVdbProxies R.VdbProxies St.Proxies Parameters) St
    rw [a1]
    refine ⟨hperm, ?_, ?_, ?_, fun h => absurd h hne⟩
    · intro hnd
      exact hperm.nodup_iff.2 (hnd.filter _)
    · intro pass hpass
      exact (hmem _).1 (a4 pass hpass)
    · intro q hq
      exact RenderLoop_other _ _ _ _ _ (fun h => hq ((hmem q).1 h))

/-- C2 on a concrete frame: registry `[0, 1, 2, 3]`, all four proxies visible fog volumes. -/
theorem C2_processed_witness :
    [0, 1, 2, 3].Nodup ∧
    ((((({ VdbProxies := [0, 1, 2, 3], DenoiserMethod := 0 } :
      FVdbPrincipledRendering).Render_RenderThread id true (-1) (SceneParameters false none)
        (SceneState [5, 1, 9, 1])).2.filter FRDGPass.IsComposite).map FRDGPass.Proxy).Nodup) :=
  ⟨by decide,
    (C2_processed_are_visible_fog_proxies id true (-1)
      { VdbProxies := [0, 1, 2, 3], DenoiserMethod := 0 } (SceneParameters false none)
      (SceneState [5, 1, 9, 1])).2.1 (by decide)⟩

/-- On depths that are numbers, the sort on computed doubles is the sort on exact depths. -/
theorem SortBackToFront_eq_SortByComputedDepth (Mem : ProxyPtr → FVdbPrincipledSceneProxy)
    (ViewMat : FMatrix) (Candidates : List ProxyPtr) :
    SortBackToFront Mem ViewMat Candidates =
      SortByComputedDepth (fun p => FDouble.Number (ViewDepth ViewMat (Mem p))) Candidates :=
  rfl

/-- Whatever the computed depths, NaN included, the sort returns a rearrangement of the
candidates. -/
theorem SortByComputedDepth_perm (Depth : ProxyPtr → FDouble) (Candidates : List ProxyPtr) :
    List.Perm (SortByComputedDepth Depth Candidates) Candidates :=
  Algo.IntroSort_perm_any _ Candidates

/-- When no candidate has a NaN depth, any entry of the sorted list has a depth `>=` that of
every later entry. -/
theorem SortByComputedDepth_pairwise (Depth : ProxyPtr → FDouble) (Candidates : List ProxyPtr)
    (hnum : ∀ p ∈ Candidates, Depth p ≠ FDouble.NaN) :
    (SortByComputedDepth Depth Candidates).Pairwise
      (fun a b => FDouble.Ge (Depth a) (Depth b) = true) := by
  have hkey : ∀ x y : ProxyPtr,
      decide ((Depth x).SortKey < (Depth y).SortKey) = true ↔
        (Depth x).SortKey < (Depth y).SortKey := fun x y => decide_eq_true_iff
  have hcongr : SortByComputedDepth Depth Candidates =
      Algo.IntroSort (fun x y => decide ((Depth x).SortKey < (Depth y).SortKey)) Candidates := by
    apply Algo.IntroSort_congr
    intro x hx y hy
    have hx2 := hnum x hx
    have hy2 := hnum y hy
    cases hdx : Depth x with
    | NaN => exact absurd hdx hx2
    | Number a =>
      cases hdy : Depth y with
      | NaN => exact absurd hdy hy2
      | Number b =>
        simp only [FDouble.Gt, FDouble.SortKey, gt_iff_lt, neg_lt_neg_iff]
  have hmem : ∀ p, p ∈ SortByComputedDepth Depth Candidates → Depth p ≠ FDouble.NaN :=
    fun p hp => hnum p ((SortByComputedDepth_perm Depth Candidates).mem_iff.1 hp)
  rw [List.pairwise_iff_getElem]
  intro i j hi hj hij
  have ha := hmem _ (List.getElem_mem hi)
  have hb := hmem _ (List.getElem_mem hj)
  have e1 : Algo.At (SortByComputedDepth Depth Candidates) i =
      (SortByComputedDepth Depth Candidates)[i] := by
    simp [Algo.At, List.getD_eq_getElem?_getD, List.getElem?_eq_getElem hi]
  have e2 : Algo.At (SortByComputedDepth Depth Candidates) j =
      (SortByComputedDepth Depth Candidates)[j] := by
    simp [Algo.At, List.getD_eq_getElem?_getD, List.getElem?_eq_getElem hj]
  have h := Algo.IntroSort_sorted _ (fun p => (Depth p).SortKey) hkey Candidates i j hij
    (by rw [← hcongr]; exact hj)
  rw [← hcongr, e1, e2] at h
  generalize (SortByComputedDepth Depth Candidates)[i] = a at ha h
  generalize (SortByComputedDepth Depth Candidates)[j] = b at hb h
  cases hda : Depth a with
  | NaN => exact absurd hda ha
  | Number x =>
    cases hdb : Depth b with
    | NaN => exact absurd hdb hb
    | Number y =>
      simp only [hda, hdb, FDouble.SortKey] at h
      simp only [FDouble.Ge, decide_eq_true_eq, ge_iff_le]
      exact neg_le_neg_iff.1 h

/-- C3, counterexample: a NaN depth.  Two candidates `0` and `1` with depths 1 and NaN are
sorted to `[1, 0]`, and `>=` does not hold from the first entry to the second.  And twelve
candidates, of which candidate `7` has a NaN depth, come out with the depths 26, 23, 22, 21,
20, 15, NaN, 17, 14, 8, 2, 0: the depth 15 stands before the depth 17. -/
theorem C3_nan_depth_counterexample :
    SortByComputedDepth (SceneDepths [FDouble.Number 1, FDouble.NaN]) [0, 1] = [1, 0] ∧
    FDouble.Ge (SceneDepths [FDouble.Number 1, FDouble.NaN] 1)
      (SceneDepths [FDouble.Number 1, FDouble.NaN] 0) = false ∧
    (SortByComputedDepth
      (SceneDepths [FDouble.Number 2, FDouble.Number 15, FDouble.Number 20, FDouble.Number 22,
        FDouble.Number 21, FDouble.Number 26, FDouble.Number 0, FDouble.NaN, FDouble.Number 8,
        FDouble.Number 17, FDouble.Number 23, FDouble.Number 14])
      [0, 1, 2, 3, 4, 5, 6, 7, 8, 9, 10, 11]).map
      (SceneDepths [FDouble.Number 2, FDouble.Number 15, FDouble.Number 20, FDouble.Number 22,
        FDouble.Number 21, FDouble.Number 26, FDouble.Number 0, FDouble.NaN, FDouble.Number 8,
        FDouble.Number 17, FDouble.Number 23, FDouble.Number 14]) =
      [FDouble.Number 26, FDouble.Number 23, FDouble.Number 22, FDouble.Number 21,
        FDouble.Number 20, FDouble.Number 15, FDouble.NaN, FDouble.Number 17, FDouble.Number 14,
        FDouble.Number 8, FDouble.Number 2, FDouble.Number 0] := by
  decide

/-- C3, amended: for every candidate list and whatever the computed depths, the list produced
by the sort of `Render_RenderThread` is a permutation of the candidates; and when no
candidate has a NaN depth, any entry of it has a depth `>=` that of every later entry
(farthest first). -/
theorem C3_sorted_descending_without_nan (Depth : ProxyPtr → FDouble)
    (Candidates : List ProxyPtr) :
    List.Perm (SortByComputedDepth Depth Candidates) Candidates ∧
    ((∀ p ∈ Candidates, Depth p ≠ FDouble.NaN) →
      (SortByComputedDepth Depth Candidates).Pairwise
        (fun a b => FDouble.Ge (Depth a) (Depth b) = true)) :=
  ⟨SortByComputedDepth_perm Depth Candidates, SortByComputedDepth_pairwise Depth Candidates⟩

/-- C3, amended, on four candidates with depths 5, 1, 9, 1, none of them NaN. -/
theorem C3_sorted_descending_witness :
    (∀ p ∈ [0, 1, 2, 3],
      SceneDepths [FDouble.Number 5, FDouble.Number 1, FDouble.Number 9, FDouble.Number 1] p
        ≠ FDouble.NaN) ∧
    (SortByComputedDepth
      (SceneDepths [FDouble.Number 5, FDouble.Number 1, FDouble.Number 9, FDouble.Number 1])
      [0, 1, 2, 3]).Pairwise
      (fun a b => FDouble.Ge
        (SceneDepths [FDouble.Number 5, FDouble.Number 1, FDouble.Number 9, FDouble.Number 1] a)
        (SceneDepths [FDouble.Number 5, FDouble.Number 1, FDouble.Number 9, FDouble.Number 1] b)
          = true) :=
  ⟨by decide,
    (C3_sorted_descending_without_nan
      (SceneDepths [FDouble.Number 5, FDouble.Number 1, FDouble.Number 9, FDouble.Number 1])
      [0, 1, 2, 3]).2 (by decide)⟩

/-- C4, counterexample: two registered candidates `0` and `1` with the same view-space depth `7`
come out of the sort as `[1, 0]`, the reverse of their registration order. -/
theorem C4_stability_counterexample :
    ViewDepth IdentityMatrix (SceneMemory [7, 7] 0) = ViewDepth IdentityMatrix (SceneMemory [7, 7] 1) ∧
    FilteredVdbProxies [0, 1] (SceneMemory [7, 7]) 1 = [0, 1] ∧
    SortedVdbProxies [0, 1] (SceneMemory [7, 7]) (SceneParameters false none) = [1, 0] := by
  decide

/-- C4, amended: the sort keeps, for every depth, exactly the candidates of that depth (the
sorted list restricted to a depth is a rearrangement of the candidate list restricted to that
depth); their relative order is not promised. -/
theorem C4_equal_depth_candidates_kept (Mem : ProxyPtr → FVdbPrincipledSceneProxy)
    (ViewMat : FMatrix) (Candidates : List ProxyPtr) (Depth : Scalar) :
    List.Perm
      ((SortBackToFront Mem ViewMat Candidates).filter
        (fun p => decide (ViewDepth ViewMat (Mem p) = Depth)))
      (Candidates.filter (fun p => decide (ViewDepth ViewMat (Mem p) = Depth))) :=
  (SortBackToFront_perm Mem ViewMat Candidates).filter _

/-- C5, counterexample: for candidates `0, 1, 2, 3` at depths `[5, 1, 9, 1]` the sort does not
give depth 9, then the depth-1 proxies in registration order, then depth 5. -/
theorem C5_order_counterexample :
    SortedVdbProxies [0, 1, 2, 3] (SceneMemory [5, 1, 9, 1]) (SceneParameters false none)
      ≠ [2, 1, 3, 0] := by
  decide

/-- C5, amended: for candidates `0, 1, 2, 3` at depths `[5, 1, 9, 1]` the sort gives the proxy
of depth 9, then the proxy of depth 5, then the two depth-1 proxies, the later registered one
first; the depths read `[9, 5, 1, 1]`. -/
theorem C5_order_of_example :
    SortedVdbProxies [0, 1, 2, 3] (SceneMemory [5, 1, 9, 1]) (SceneParameters false none)
      = [2, 0, 3, 1] ∧
    (SortedVdbProxies [0, 1, 2, 3] (SceneMemory [5, 1, 9, 1]) (SceneParameters false none)).map
      (fun p => ViewDepth IdentityMatrix (SceneMemory [5, 1, 9, 1] p)) = [9, 5, 1, 1] := by
  decide

/-! ## Draw budget, accumulation count, sample cap, ping-pong, parameter block -/

theorem SortedVdbProxies_nil (Mem : ProxyPtr → FVdbPrincipledSceneProxy)
    (Parameters : FPostOpaqueRenderParameters) : SortedVdbProxies [] Mem Parameters = [] := by
  rfl

theorem Render_RenderThread_eq_RenderLoop (Inverse : FMatrix → FMatrix) (RHI_RAYTRACING : Bool)
    (SamplesPerPixelCVar : Int) (R : FVdbPrincipledRendering)
    (Parameters : FPostOpaqueRenderParameters) (St : FRenderThreadState) :
    R.Render_RenderThread Inverse RHI_RAYTRACING SamplesPerPixelCVar Parameters St =
      RenderLoop Inverse (FrameOf RHI_RAYTRACING SamplesPerPixelCVar R Parameters)
        (SortedVdbProxies R.VdbProxies St.Proxies Parameters) St := by
  unfold FVdbPrincipledRendering.Render_RenderThread
  by_cases hE : R.VdbProxies.isEmpty = true
  · have hnil : R.VdbProxies = [] := List.isEmpty_iff.1 hE
    rw [if_pos hE, hnil, SortedVdbProxies_nil]
    rfl
  · rw [if_neg hE]

theorem length_filter_map_eq (L : List FRDGPass) (p : FRDGPass → Bool) :
    L.countP p = ((L.filter p).map FRDGPass.Proxy).length := by
  rw [List.length_map, List.countP_eq_length_filter]

/-- C6: in every loop iteration the ray-march draw is issued exactly when
`NumAccumulations < MaxSPP` and the primary buffer is non-null, and the composite exactly once
either way.  Over a frame the draws are, in order, those of the sorted candidates that meet the
condition, and the composites are those of all sorted candidates.  With
`NumAccumulations >= MaxSPP` the frame issues no draw and every pass writes the scene colour
only, so no accumulation texture is written; with a single candidate that has a primary buffer
and a count below the cap the frame issues one draw and one composite. -/
theorem C6_draw_iff_within_budget (Inverse : FMatrix → FMatrix) (RHI_RAYTRACING : Bool)
    (SamplesPerPixelCVar : Int) (R : FVdbPrincipledRendering)
    (Parameters : FPostOpaqueRenderParameters) (St : FRenderThreadState) :
    (∀ (St1 : FRenderThreadState) (Proxy : ProxyPtr),
      ((RenderProxy Inverse (FrameOf RHI_RAYTRACING SamplesPerPixelCVar R Parameters) St1
          Proxy).2.countP FRDGPass.IsDraw =
        if (FrameOf RHI_RAYTRACING SamplesPerPixelCVar R Parameters).NumAccumulations <
            (FrameOf RHI_RAYTRACING SamplesPerPixelCVar R Parameters).MaxSPP ∧
            (St1.Proxies Proxy).GetParams.VdbDensity ≠ none then 1 else 0) ∧
      (RenderProxy Inverse (FrameOf RHI_RAYTRACING SamplesPerPixelCVar R Parameters) St1
          Proxy).2.countP FRDGPass.IsComposite = 1) ∧
    ((R.Render_RenderThread Inverse RHI_RAYTRACING SamplesPerPixelCVar Parameters St).2.filter
        FRDGPass.IsDraw).map FRDGPass.Proxy =
      (SortedVdbProxies R.VdbProxies St.Proxies Parameters).filter
        (fun p => decide ((FrameOf RHI_RAYTRACING SamplesPerPixelCVar R Parameters).NumAccumulations
            < (FrameOf RHI_RAYTRACING SamplesPerPixelCVar R Parameters).MaxSPP) &&
          (St.Proxies p).GetParams.VdbDensity.isSome) ∧
    ((R.Render_RenderThread Inverse RHI_RAYTRACING SamplesPerPixelCVar Parameters St).2.filter
        FRDGPass.IsComposite).map FRDGPass.Proxy =
      SortedVdbProxies R.VdbProxies St.Proxies Parameters ∧
    ((FrameOf RHI_RAYTRACING SamplesPerPixelCVar R Parameters).MaxSPP ≤
        (FrameOf RHI_RAYTRACING SamplesPerPixelCVar R Parameters).NumAccumulations →
      (R.Render_RenderThread Inverse RHI_RAYTRACING SamplesPerPixelCVar Parameters St).2.countP
          FRDGPass.IsDraw = 0 ∧
      (R.Render_RenderThread Inverse RHI_RAYTRACING SamplesPerPixelCVar Parameters St).2.countP
          FRDGPass.IsComposite = (SortedVdbProxies R.VdbProxies St.Proxies Parameters).length ∧
      ∀ pass ∈ (R.Render_RenderThread Inverse RHI_RAYTRACING SamplesPerPixelCVar Parameters St).2,
        pass.Writes = FRDGTexture.ColorTexture) ∧
    (∀ p : ProxyPtr, SortedVdbProxies R.VdbProxies St.Proxies Parameters = [p] →
      (St.Proxies p).GetParams.VdbDensity ≠ none →
      (FrameOf RHI_RAYTRACING SamplesPerPixelCVar R Parameters).NumAccumulations <
        (FrameOf RHI_RAYTRACING SamplesPerPixelCVar R Parameters).MaxSPP →
      (R.Render_RenderThread Inverse RHI_RAYTRACING SamplesPerPixelCVar Parameters St).2.countP
          FRDGPass.IsDraw = 1 ∧
      (R.Render_RenderThread Inverse RHI_RAYTRACING SamplesPerPixelCVar Parameters St).2.countP
          FRDGPass.IsComposite = 1) := by
  rw [Render_RenderThread_eq_RenderLoop]
  obtain ⟨b1, b2, _, _, b5⟩ := RenderLoop_passes Inverse
    (FrameOf RHI_RAYTRACING SamplesPerPixelCVar R Parameters)
    (SortedVdbProxies R.VdbProxies St.Proxies Parameters) St
  refine ⟨?_, b2, b1, ?_, ?_⟩
  · intro St1 Proxy
    obtain ⟨a1, a2, _, _, _⟩ := RenderProxy_passes Inverse
      (FrameOf RHI_RAYTRACING SamplesPerPixelCVar R Parameters) St1 Proxy
    rw [length_filter_map_eq, length_filter_map_eq, a1, a2]
    refine ⟨?_, rfl⟩
    simp only [FVdbPrincipledSceneProxy.GetParams]
    by_cases hd : (St1.Proxies Proxy).Params.VdbDensity = none
    · simp [hd]
    · have hsome : (St1.Proxies Proxy).Params.VdbDensity.isSome = true :=
        Option.isSome_iff_ne_none.2 hd
      by_cases hlt : (FrameOf RHI_RAYTRACING SamplesPerPixelCVar R Parameters).NumAccumulations <
        (FrameOf RHI_RAYTRACING SamplesPerPixelCVar R Parameters).MaxSPP <;>
        simp [hlt, hsome, hd]
  · intro hle
    have hnot : ¬ (FrameOf RHI_RAYTRACING SamplesPerPixelCVar R Parameters).NumAccumulations <
        (FrameOf RHI_RAYTRACING SamplesPerPixelCVar R Parameters).MaxSPP := by omega
    refine ⟨?_, ?_, b5 hle⟩
    · rw [length_filter_map_eq, b2]
      simp [hnot]
    · rw [length_filter_map_eq, b1]
  · intro p hp hd hlt
    rw [length_filter_map_eq, length_filter_map_eq, b1, b2, hp]
    refine ⟨?_, rfl⟩
    simp only [FVdbPrincipledSceneProxy.GetParams] at hd
    have hsome : (St.Proxies p).Params.VdbDensity.isSome = true :=
      Option.isSome_iff_ne_none.2 hd
    simp [hlt, hsome]

/-- C6 on the end-to-end scenario, one registered visible proxy with a primary buffer.  Frozen
frame: path-tracing sample index 9 gives count 8, the override gives cap 8; no draw, one
composite.  First frame: raster mode gives count 0, cap 8; one draw, one composite. -/
theorem C6_end_to_end_witness :
    (FrameOf true 8 { VdbProxies := [0], DenoiserMethod := 0 }
        (SceneParameters true (some { PathTracingSampleIndex := 9 }))).NumAccumulations = 8 ∧
    (FrameOf true 8 { VdbProxies := [0], DenoiserMethod := 0 }
        (SceneParameters true (some { PathTracingSampleIndex := 9 }))).MaxSPP = 8 ∧
    (({ VdbProxies := [0], DenoiserMethod := 0 } : FVdbPrincipledRendering).Render_RenderThread
        id true 8 (SceneParameters true (some { PathTracingSampleIndex := 9 }))
        (SceneState [5])).2.countP FRDGPass.IsDraw = 0 ∧
    (({ VdbProxies := [0], DenoiserMethod := 0 } : FVdbPrincipledRendering).Render_RenderThread
        id true 8 (SceneParameters true (some { PathTracingSampleIndex := 9 }))
        (SceneState [5])).2.countP FRDGPass.IsComposite = 1 ∧
    (FrameOf true 8 { VdbProxies := [0], DenoiserMethod := 0 }
        (SceneParameters false none)).NumAccumulations = 0 ∧
    (({ VdbProxies := [0], DenoiserMethod := 0 } : FVdbPrincipledRendering).Render_RenderThread
        id true 8 (SceneParameters false none) (SceneState [5])).2.countP FRDGPass.IsDraw = 1 ∧
    (({ VdbProxies := [0], DenoiserMethod := 0 } : FVdbPrincipledRendering).Render_RenderThread
        id true 8 (SceneParameters false none) (SceneState [5])).2.countP FRDGPass.IsComposite
      = 1 :=
  ⟨by decide, by decide,
    ((C6_draw_iff_within_budget id true 8 { VdbProxies := [0], DenoiserMethod := 0 }
      (SceneParameters true (some { PathTracingSampleIndex := 9 }))
      (SceneState [5])).2.2.2.1 (by decide)).1,
    ((C6_draw_iff_within_budget id true 8 { VdbProxies := [0], DenoiserMethod := 0 }
      (SceneParameters true (some { PathTracingSampleIndex := 9 }))
      (SceneState [5])).2.2.2.1 (by decide)).2.1,
    by decide,
    ((C6_draw_iff_within_budget id true 8 { VdbProxies := [0], DenoiserMethod := 0 }
      (SceneParameters false none) (SceneState [5])).2.2.2.2 0 (by decide) (by decide)
      (by decide)).1,
    ((C6_draw_iff_within_budget id true 8 { VdbProxies := [0], DenoiserMethod := 0 }
      (SceneParameters false none) (SceneState [5])).2.2.2.2 0 (by decide) (by decide)
      (by decide)).2⟩

/-- C7: the accumulation count is 0 when the path-tracing flag is off; with the flag on, ray
tracing compiled in and a view state whose sample index is `s` (a `uint32`), it is `s - 1` for
`s >= 1` and 0 for `s = 0`; it is never `2 ^ 32 - 1`. -/
theorem C7_accumulation_count (RHI_RAYTRACING : Bool) (View : FSceneView)
    (hs : ∀ vs, View.ViewState = some vs → vs.PathTracingSampleIndex < 4294967296) :
    (View.PathTracing = false → NumAccumulations RHI_RAYTRACING View = 0) ∧
    (∀ vs, RHI_RAYTRACING = true → View.PathTracing = true → View.ViewState = some vs →
      (1 ≤ vs.PathTracingSampleIndex →
        NumAccumulations RHI_RAYTRACING View = vs.PathTracingSampleIndex - 1) ∧
      (vs.PathTracingSampleIndex = 0 → NumAccumulations RHI_RAYTRACING View = 0)) ∧
    NumAccumulations RHI_RAYTRACING View < 4294967295 := by
  refine ⟨?_, ?_, ?_⟩
  · intro h
    simp [NumAccumulations, h]
  · intro vs h1 h2 h3
    have := hs vs h3
    simp only [NumAccumulations, h1, h2, h3, Bool.and_self, if_true]
    constructor
    · intro h
      have hne : vs.PathTracingSampleIndex ≠ 0 := by omega
      simp only [hne, ne_eq, not_false_eq_true, if_true]
      omega
    · intro h
      simp [h]
  · unfold NumAccumulations
    split_ifs
    · cases hv : View.ViewState with
      | none => simp
      | some vs =>
        have := hs vs hv
        simp only
        split_ifs <;> omega
    · omega

/-- C7 at sample index 5. -/
theorem C7_accumulation_count_witness :
    NumAccumulations true (SceneView true (some { PathTracingSampleIndex := 5 })) < 4294967295 :=
  (C7_accumulation_count true (SceneView true (some { PathTracingSampleIndex := 5 }))
    (by intro vs h; cases h; decide)).2.2

/-- C8: for an `int32` override `c >= 0` the cap is `max(c, 1)` whatever the view target; for
`c < 0` and a view target `t >= 0` it is `max(t, 1)`; and the cap is at least 1 for all
inputs. -/
theorem C8_sample_cap (c t : Int) (hc : c < 2147483648) (ht : t < 2147483648) :
    (0 ≤ c → (MaxSPP c t : Int) = max c 1) ∧
    (c < 0 → 0 ≤ t → (MaxSPP c t : Int) = max t 1) ∧
    1 ≤ MaxSPP c t := by
  unfold MaxSPP ToUInt32
  refine ⟨?_, ?_, ?_⟩
  · intro h0
    have h1 : c > -1 := by omega
    rw [if_pos h1]
    omega
  · intro h0 h1
    have h2 : ¬ c > -1 := by omega
    rw [if_neg h2]
    omega
  · omega

/-- C8 at override 0 and view target 16. -/
theorem C8_sample_cap_witness : (MaxSPP 0 16 : Int) = max 0 1 :=
  (C8_sample_cap 0 16 (by decide) (by decide)).1 (by decide)

/-- C9, counterexample: two consecutive raster frames of view 1 over one registered proxy.  The
count is 0 in both, so the current slot of frame N is slot 0 while the previous slot of frame
N+1 is slot 1: the draw of frame N writes pool element 0 and the draw of frame N+1 reads pool
element 1 as history. -/
theorem C9_raster_frames_counterexample :
    IsEven (NumAccumulations true (SceneView false none)) = false ∧
    (!IsEven (NumAccumulations true (SceneView false none))) = true ∧
    ((({ VdbProxies := [0], DenoiserMethod := 0 } : FVdbPrincipledRendering).Render_RenderThread
        id true (-1) (SceneParameters false none) (SceneState [5])).2.filter
          FRDGPass.IsDraw).map FRDGPass.Writes =
      [FRDGTexture.External (some { Extent := { X := 64, Y := 64 }, Id := 0 })] ∧
    ((({ VdbProxies := [0], DenoiserMethod := 0 } : FVdbPrincipledRendering).Render_RenderThread
        id true (-1) (SceneParameters false none)
        (({ VdbProxies := [0], DenoiserMethod := 0 } : FVdbPrincipledRendering).Render_RenderThread
          id true (-1) (SceneParameters false none) (SceneState [5])).1).2.filter
          FRDGPass.IsDraw).map FRDGPass.History =
      [some (FRDGTexture.External (some { Extent := { X := 64, Y := 64 }, Id := 1 }))] := by
  decide

/-- C9, amended: the draw of a loop iteration writes the texture acquired for slot
`IsEven(count)` and reads as history the texture acquired for the other slot; and for two
frames whose accumulation counts differ by exactly one, the current slot of the first frame is
the previous slot of the second. -/
theorem C9_ping_pong_when_count_advances (RHI_RAYTRACING : Bool) (ViewN ViewN1 : FSceneView)
    (h : NumAccumulations RHI_RAYTRACING ViewN1 = NumAccumulations RHI_RAYTRACING ViewN + 1) :
    IsEven (NumAccumulations RHI_RAYTRACING ViewN) =
      (!IsEven (NumAccumulations RHI_RAYTRACING ViewN1)) ∧
    (∀ (Inverse : FMatrix → FMatrix) (F : FFrame) (St : FRenderThreadState) (Proxy : ProxyPtr),
      ∀ pass ∈ (RenderProxy Inverse F St Proxy).2, pass.IsDraw = true →
        pass.Writes =
          ((St.Proxies Proxy).GetOrCreateRenderTarget St.Pool F.RtSize
            (IsEven F.NumAccumulations)).Texture ∧
        pass.History = some
          (((St.Proxies Proxy).GetOrCreateRenderTarget St.Pool F.RtSize
            (IsEven F.NumAccumulations)).Proxy.GetOrCreateRenderTarget
              ((St.Proxies Proxy).GetOrCreateRenderTarget St.Pool F.RtSize
                (IsEven F.NumAccumulations)).Pool F.RtSize
              (!IsEven F.NumAccumulations)).Texture) := by
  constructor
  · rw [h]
    simp only [IsEven]
    rcases Nat.mod_two_eq_zero_or_one (NumAccumulations RHI_RAYTRACING ViewN) with h0 | h0
    · have h1 : (NumAccumulations RHI_RAYTRACING ViewN + 1) % 2 = 1 := by omega
      simp [h0, h1]
    · have h1 : (NumAccumulations RHI_RAYTRACING ViewN + 1) % 2 = 0 := by omega
      simp [h0, h1]
  · intro Inverse F St Proxy pass hpass hdraw
    unfold RenderProxy at hpass
    simp only [] at hpass
    split_ifs at hpass
    · split at hpass
      · simp only [List.mem_singleton] at hpass
        subst hpass
        simp [FRDGPass.IsDraw] at hdraw
      · simp only [List.mem_cons, List.mem_singleton, List.not_mem_nil, or_false] at hpass
        rcases hpass with h1 | h1 | h1
        · subst h1; exact ⟨rfl, rfl⟩
        · subst h1; simp [FRDGPass.IsDraw] at hdraw
        · subst h1; simp [FRDGPass.IsDraw] at hdraw
    · split at hpass
      · simp only [List.mem_singleton] at hpass
        subst hpass
        simp [FRDGPass.IsDraw] at hdraw
      · simp only [List.mem_cons, List.mem_singleton, List.not_mem_nil, or_false] at hpass
        rcases hpass with h1 | h1
        · subst h1; exact ⟨rfl, rfl⟩
        · subst h1; simp [FRDGPass.IsDraw] at hdraw
    · simp only [List.mem_singleton] at hpass
      subst hpass
      simp [FRDGPass.IsDraw] at hdraw

/-- C9, amended, at path-tracing sample indices 3 and 4 (counts 2 and 3). -/
theorem C9_ping_pong_witness :
    IsEven (NumAccumulations true (SceneView true (some { PathTracingSampleIndex := 3 }))) =
      (!IsEven (NumAccumulations true (SceneView true (some { PathTracingSampleIndex := 4 })))) :=
  (C9_ping_pong_when_count_advances true
    (SceneView true (some { PathTracingSampleIndex := 3 }))
    (SceneView true (some { PathTracingSampleIndex := 4 })) (by decide)).1

/-- C10: for a proxy with a primary buffer, `CreateVdbUniformBuffer` builds a block whose
`VdbDensity` is the primary buffer's SRV; when the secondary buffer is null the block's
`VdbTemperature` equals its `VdbDensity` and the permutation flag `FUseTemperature` is false;
when the secondary buffer is non-null the block's `VdbTemperature` is that buffer's own SRV
and the flag is true. -/
theorem C10_secondary_buffer_binding (Inverse : FMatrix → FMatrix)
    (Proxy : FVdbPrincipledSceneProxy) (UsePathTracing : Bool) (Density : FVdbRenderBuffer)
    (h : Proxy.GetParams.VdbDensity = some Density) :
    ∃ Block : FVdbPrincipledShaderParams,
      CreateVdbUniformBuffer Inverse Proxy UsePathTracing = some Block ∧
      Block.VdbDensity = Density.BufferSRV ∧
      (Proxy.GetParams.VdbTemperature = none →
        Block.VdbTemperature = Block.VdbDensity ∧
        (PermutationVector Proxy UsePathTracing).FUseTemperature = false) ∧
      (∀ Temperature : FVdbRenderBuffer, Proxy.GetParams.VdbTemperature = some Temperature →
        Block.VdbTemperature = Temperature.BufferSRV ∧
        (PermutationVector Proxy UsePathTracing).FUseTemperature = true) := by
  simp only [FVdbPrincipledSceneProxy.GetParams] at h
  unfold CreateVdbUniformBuffer PermutationVector
  simp only [FVdbPrincipledSceneProxy.GetParams, h]
  refine ⟨_, rfl, rfl, ?_, ?_⟩
  · intro ht
    simp [ht]
  · intro T ht
    simp [ht]

/-- C10 on a proxy with primary buffer 7 and no secondary buffer. -/
theorem C10_secondary_buffer_witness :
    ∃ Block : FVdbPrincipledShaderParams,
      CreateVdbUniformBuffer id (SceneProxy (some { BufferSRV := 7 }) none 0) false = some Block ∧
      Block.VdbDensity = 7 ∧ Block.VdbTemperature = 7 ∧
      (PermutationVector (SceneProxy (some { BufferSRV := 7 }) none 0) false).FUseTemperature
        = false := by
  obtain ⟨B, h1, h2, h3, _⟩ := C10_secondary_buffer_binding id
    (SceneProxy (some { BufferSRV := 7 }) none 0) false { BufferSRV := 7 } rfl
  obtain ⟨h4, h5⟩ := h3 rfl
  exact ⟨B, h1, h2, by rw [h4, h2], h5⟩

/-! ## Registry -/

theorem TArray.Find_none_iff {α : Type} [DecidableEq α] (A : List α) (Item : α) :
    TArray.Find A Item = INDEX_NONE ↔ Item ∉ A := by
  rw [← TArray.Find_ne_none_iff]
  exact not_not.symm

theorem TArray.mem_Remove_iff {α : Type} [DecidableEq α] (A : List α) (Item x : α) :
    x ∈ TArray.Remove A Item ↔ x ∈ A ∧ x ≠ Item := by
  simp [TArray.Remove, List.mem_filter]

theorem TArray.Remove_absent {α : Type} [DecidableEq α] (A : List α) (Item : α)
    (h : Item ∉ A) : TArray.Remove A Item = A := by
  unfold TArray.Remove
  rw [List.filter_eq_self]
  intro x hx
  have : x ≠ Item := fun e => h (e ▸ hx)
  simpa using this

namespace FVdbPrincipledRendering

theorem RemoveVdbProxy_VdbProxies (R : FVdbPrincipledRendering) (Proxy : ProxyPtr) :
    (R.RemoveVdbProxy Proxy).VdbProxies = TArray.Remove R.VdbProxies Proxy := by
  unfold RemoveVdbProxy
  simp only []
  split_ifs with h
  · rfl
  · have h2 : Proxy ∉ R.VdbProxies := (TArray.Find_none_iff _ _).1 (not_not.1 h)
    exact (TArray.Remove_absent _ _ h2).symm

theorem RemoveVdbProxy_absent (R : FVdbPrincipledRendering) (Proxy : ProxyPtr)
    (h : Proxy ∉ R.VdbProxies) : R.RemoveVdbProxy Proxy = R := by
  unfold RemoveVdbProxy
  simp only []
  rw [if_neg]
  rw [not_not]
  exact (TArray.Find_none_iff _ _).2 h

theorem not_mem_RemoveVdbProxy (R : FVdbPrincipledRendering) (Proxy : ProxyPtr) :
    Proxy ∉ (R.RemoveVdbProxy Proxy).VdbProxies := by
  rw [RemoveVdbProxy_VdbProxies, TArray.mem_Remove_iff]
  exact fun h => h.2 rfl

theorem AddVdbProxy_some (R R1 : FVdbPrincipledRendering) (Proxy : ProxyPtr)
    (h : R.AddVdbProxy Proxy = some R1) :
    Proxy ∉ R.VdbProxies ∧ R1.VdbProxies = R.VdbProxies ++ [Proxy] := by
  unfold AddVdbProxy at h
  split_ifs at h with hf
  · have := Option.some.inj h
    subst this
    exact ⟨(TArray.Find_none_iff _ _).1 hf, rfl⟩

theorem AddVdbProxy_none (R : FVdbPrincipledRendering) (Proxy : ProxyPtr)
    (h : R.AddVdbProxy Proxy = none) : Proxy ∈ R.VdbProxies := by
  unfold AddVdbProxy at h
  split_ifs at h with hf
  exact (TArray.Find_ne_none_iff _ _).1 hf

theorem ProcessCommand_Nodup (R : FVdbPrincipledRendering) (Command : FRenderCommand)
    (h : R.VdbProxies.Nodup) : (R.ProcessCommand Command).VdbProxies.Nodup := by
  cases Command with
  | FAddVdbProxyCommand Proxy =>
    simp only [ProcessCommand]
    cases hadd : R.AddVdbProxy Proxy with
    | none => exact h
    | some R1 =>
      obtain ⟨h1, h2⟩ := AddVdbProxy_some R R1 Proxy hadd
      simp only [h2]
      rw [List.nodup_append]
      refine ⟨h, List.nodup_singleton _, ?_⟩
      intro a ha hb
      rw [List.mem_singleton] at hb
      exact h1 (hb ▸ ha)
  | FRemoveVdbProxyCommand Proxy =>
    simp only [ProcessCommand, RemoveVdbProxy_VdbProxies, TArray.Remove]
    exact h.filter _

theorem ProcessCommands_Nodup (Commands : List FRenderCommand) :
    ∀ R : FVdbPrincipledRendering, R.VdbProxies.Nodup →
      (R.ProcessCommands Commands).VdbProxies.Nodup := by
  induction Commands with
  | nil => intro R h; exact h
  | cons c cs ih =>
    intro R h
    simp only [ProcessCommands, List.foldl_cons]
    exact ih _ (ProcessCommand_Nodup R c h)

end FVdbPrincipledRendering

/-- C11: `RemoveVdbProxy` is idempotent and a no-op on absent identities: removing `P` twice
gives the registry of removing it once; if `P` is not registered the manager is unchanged;
and in every case the registry after the removal is the registry before it without `P`, the
other proxies kept in their order, the denoiser setting untouched. -/
theorem C11_remove_idempotent :
    (∀ (R : FVdbPrincipledRendering) (P : ProxyPtr),
      (R.RemoveVdbProxy P).RemoveVdbProxy P = R.RemoveVdbProxy P) ∧
    (∀ (R : FVdbPrincipledRendering) (P : ProxyPtr),
      P ∉ R.VdbProxies → R.RemoveVdbProxy P = R) ∧
    (∀ (R : FVdbPrincipledRendering) (P : ProxyPtr),
      (R.RemoveVdbProxy P).VdbProxies = R.VdbProxies.filter (fun Q => decide (Q ≠ P)) ∧
      (R.RemoveVdbProxy P).DenoiserMethod = R.DenoiserMethod) := by
  refine ⟨?_, ?_, ?_⟩
  · intro R P
    exact FVdbPrincipledRendering.RemoveVdbProxy_absent _ _
      (FVdbPrincipledRendering.not_mem_RemoveVdbProxy R P)
  · intro R P h
    exact FVdbPrincipledRendering.RemoveVdbProxy_absent R P h
  · intro R P
    refine ⟨FVdbPrincipledRendering.RemoveVdbProxy_VdbProxies R P, ?_⟩
    unfold FVdbPrincipledRendering.RemoveVdbProxy
    simp only []
    split_ifs <;> rfl

/-- C11 on the registry `[4, 7, 9]`: removing the unregistered proxy 5 changes nothing. -/
theorem C11_remove_witness :
    ({ VdbProxies := [4, 7, 9], DenoiserMethod := 0 } : FVdbPrincipledRendering).RemoveVdbProxy 5
      = { VdbProxies := [4, 7, 9], DenoiserMethod := 0 } :=
  C11_remove_idempotent.2.1 { VdbProxies := [4, 7, 9], DenoiserMethod := 0 } 5 (by decide)

/-- C12: in every registry reached from the empty one by processed add and remove commands (an
add of a registered proxy is caught by its `check` and not applied) each proxy occurs at most
once; after a processed add of `P` the proxy `P` is registered, appended at the end when the
add is applied; after a remove of `P` it is not registered. -/
theorem C12_registry_has_no_duplicates :
    (∀ (DenoiserMethod : Nat) (Commands : List FRenderCommand),
      (({ VdbProxies := [], DenoiserMethod := DenoiserMethod } :
        FVdbPrincipledRendering).ProcessCommands Commands).VdbProxies.Nodup) ∧
    (∀ (R : FVdbPrincipledRendering) (P : ProxyPtr),
      P ∈ (R.ProcessCommand (FRenderCommand.FAddVdbProxyCommand P)).VdbProxies) ∧
    (∀ (R R1 : FVdbPrincipledRendering) (P : ProxyPtr), R.AddVdbProxy P = some R1 →
      R1.VdbProxies = R.VdbProxies ++ [P]) ∧
    (∀ (R : FVdbPrincipledRendering) (P : ProxyPtr),
      P ∉ (R.ProcessCommand (FRenderCommand.FRemoveVdbProxyCommand P)).VdbProxies) := by
  refine ⟨?_, ?_, ?_, ?_⟩
  · intro m Commands
    exact FVdbPrincipledRendering.ProcessCommands_Nodup Commands _ List.nodup_nil
  · intro R P
    simp only [FVdbPrincipledRendering.ProcessCommand]
    cases hadd : R.AddVdbProxy P with
    | none => exact FVdbPrincipledRendering.AddVdbProxy_none R P hadd
    | some R1 =>
      have := (FVdbPrincipledRendering.AddVdbProxy_some R R1 P hadd).2
      simp [this]
  · intro R R1 P h
    exact (FVdbPrincipledRendering.AddVdbProxy_some R R1 P h).2
  · intro R P
    exact FVdbPrincipledRendering.not_mem_RemoveVdbProxy R P

/-- C12 on a concrete command sequence: add 4, add 7, add 4 again (caught), remove 7, add 9. -/
theorem C12_registry_witness :
    (({ VdbProxies := [], DenoiserMethod := 0 } : FVdbPrincipledRendering).ProcessCommands
      [FRenderCommand.FAddVdbProxyCommand 4, FRenderCommand.FAddVdbProxyCommand 7,
        FRenderCommand.FAddVdbProxyCommand 4, FRenderCommand.FRemoveVdbProxyCommand 7,
        FRenderCommand.FAddVdbProxyCommand 9]).VdbProxies.Nodup :=
  C12_registry_has_no_duplicates.1 0 _

/-- C15: `Update` sets `Params.IndexToLocal`, `Params.IndexMin`, `Params.IndexSize`,
`Params.VdbDensity` and `Params.VdbTemperature` to its arguments and leaves every other field
of `Params` and of the proxy as it was: the material parameters, the `LevelSet` and
`DisplayBounds` flags, the visibility set, both render-target slots, the bounds and the
transform. -/
theorem C15_update_changes_five_fields (P : FVdbPrincipledSceneProxy) (InIndexToLocal : FMatrix)
    (InIndexMin InIndexSize : FVector) (DensityBuffer TemperatureBuffer : Option FVdbRenderBuffer) :
    P.Update InIndexToLocal InIndexMin InIndexSize DensityBuffer TemperatureBuffer =
      { P with
        Params :=
          { P.Params with
            IndexToLocal := InIndexToLocal
            IndexMin := InIndexMin
            IndexSize := InIndexSize
            VdbDensity := DensityBuffer
            VdbTemperature := TemperatureBuffer } } ∧
    (P.Update InIndexToLocal InIndexMin InIndexSize DensityBuffer
        TemperatureBuffer).OffscreenRenderTarget0 = P.OffscreenRenderTarget0 ∧
    (P.Update InIndexToLocal InIndexMin InIndexSize DensityBuffer
        TemperatureBuffer).OffscreenRenderTarget1 = P.OffscreenRenderTarget1 ∧
    (P.Update InIndexToLocal InIndexMin InIndexSize DensityBuffer
        TemperatureBuffer).VisibleViews = P.VisibleViews ∧
    (P.Update InIndexToLocal InIndexMin InIndexSize DensityBuffer
        TemperatureBuffer).LevelSet = P.LevelSet ∧
    (P.Update InIndexToLocal InIndexMin InIndexSize DensityBuffer
        TemperatureBuffer).DisplayBounds = P.DisplayBounds ∧
    (P.Update InIndexToLocal InIndexMin InIndexSize DensityBuffer
        TemperatureBuffer).Params.MaxRayDepth = P.Params.MaxRayDepth ∧
    (P.Update InIndexToLocal InIndexMin InIndexSize DensityBuffer
        TemperatureBuffer).Params.SamplesPerPixel = P.Params.SamplesPerPixel ∧
    (P.Update InIndexToLocal InIndexMin InIndexSize DensityBuffer
        TemperatureBuffer).Params.StepSize = P.Params.StepSize := by
  refine ⟨rfl, rfl, rfl, rfl, rfl, rfl, rfl, rfl, rfl⟩

/-- C17: for a proxy with a primary buffer, the block built by `CreateVdbUniformBuffer` has
`SamplesPerPixel = 1` when path tracing is active, whatever the proxy's configured value, and
the proxy's configured `SamplesPerPixel` when it is off. -/
theorem C17_samples_per_pixel (Inverse : FMatrix → FMatrix) (Proxy : FVdbPrincipledSceneProxy)
    (Density : FVdbRenderBuffer) (h : Proxy.GetParams.VdbDensity = some Density) :
    (∃ Block, CreateVdbUniformBuffer Inverse Proxy true = some Block ∧
      Block.SamplesPerPixel = 1) ∧
    (∃ Block, CreateVdbUniformBuffer Inverse Proxy false = some Block ∧
      Block.SamplesPerPixel = Proxy.GetParams.SamplesPerPixel) := by
  simp only [FVdbPrincipledSceneProxy.GetParams] at h
  unfold CreateVdbUniformBuffer
  simp only [FVdbPrincipledSceneProxy.GetParams, h]
  exact ⟨⟨_, rfl, rfl⟩, ⟨_, rfl, rfl⟩⟩

/-- C17 on a proxy configured with 3 samples per pixel: 1 with path tracing, 3 without. -/
theorem C17_samples_per_pixel_witness :
    (∃ Block, CreateVdbUniformBuffer id (SceneProxy (some { BufferSRV := 7 }) none 0) true
        = some Block ∧ Block.SamplesPerPixel = 1) ∧
    (∃ Block, CreateVdbUniformBuffer id (SceneProxy (some { BufferSRV := 7 }) none 0) false
        = some Block ∧ Block.SamplesPerPixel = 3) :=
  C17_samples_per_pixel id (SceneProxy (some { BufferSRV := 7 }) none 0) { BufferSRV := 7 } rfl

/-! ## Render-target acquisition -/

theorem FindFreeElement_spec (Pool : FRenderTargetPool) (Extent : FIntPoint)
    (Out : Option IPooledRenderTarget) :
    (Pool.FindFreeElement Extent Out).1.CanAllocate = Pool.CanAllocate ∧
    Pool.NextId ≤ (Pool.FindFreeElement Extent Out).1.NextId ∧
    (Pool.FindFreeElement Extent Out).1.NextId ≤ Pool.NextId + 1 ∧
    (Out = none → (Pool.FindFreeElement Extent Out).1.NextId = Pool.NextId + 1) ∧
    (∀ rt, (Pool.FindFreeElement Extent Out).2 = some rt → rt.Extent = Extent) ∧
    (Pool.CanAllocate Pool.NextId = true → (Pool.FindFreeElement Extent Out).2 ≠ none) := by
  cases Out with
  | none =>
    cases hc : Pool.CanAllocate Pool.NextId <;>
      simp [FRenderTargetPool.FindFreeElement, hc]
  | some rt0 =>
    by_cases he : rt0.Extent = Extent
    · simp [FRenderTargetPool.FindFreeElement, he]
    · cases hc : Pool.CanAllocate Pool.NextId <;>
        simp [FRenderTargetPool.FindFreeElement, he, hc]

theorem FindFreeElement_keep (Pool : FRenderTargetPool) (Extent : FIntPoint)
    (rt : IPooledRenderTarget) (h : rt.Extent = Extent) :
    Pool.FindFreeElement Extent (some rt) = (Pool, some rt) := by
  unfold FRenderTargetPool.FindFreeElement
  simp only [h, if_true]

namespace FVdbPrincipledSceneProxy

/-- An acquisition on an unallocated slot makes at least one pool request. -/
theorem GetOrCreateRenderTarget_requests (P : FVdbPrincipledSceneProxy)
    (Pool : FRenderTargetPool) (RtSize : FIntPoint) (EvenFrame : Bool)
    (h : P.Slot EvenFrame = none) :
    Pool.NextId < (P.GetOrCreateRenderTarget Pool RtSize EvenFrame).Pool.NextId := by
  unfold GetOrCreateRenderTarget
  simp only [h, if_true]
  obtain ⟨_, a2, _, a4, _, _⟩ := FindFreeElement_spec Pool RtSize (P.Slot false)
  obtain ⟨_, b2, _, b4, _, _⟩ := FindFreeElement_spec
    (Pool.FindFreeElement RtSize (P.Slot false)).1 RtSize
    ((P.SetSlot false (Pool.FindFreeElement RtSize (P.Slot false)).2).Slot true)
  cases EvenFrame
  · have := a4 h
    omega
  · have hs : (P.SetSlot false (Pool.FindFreeElement RtSize (P.Slot false)).2).Slot true = none := by
      simp only [Slot, if_true] at h
      simp only [SetSlot, Slot, if_true, Bool.false_eq_true, if_false]
      exact h
    have := b4 hs
    omega

end FVdbPrincipledSceneProxy

/-- The passes of one loop iteration, spelled out.  `Curr` and `Prev` are the textures returned
by the two acquisitions. -/
theorem RenderProxy_shape (Inverse : FMatrix → FMatrix) (F : FFrame) (St : FRenderThreadState)
    (Proxy : ProxyPtr) :
    ((decide (F.NumAccumulations < F.MaxSPP) &&
        (St.Proxies Proxy).Params.VdbDensity.isSome) = false →
      (RenderProxy Inverse F St Proxy).2 =
        [FRDGPass.CompositeFullscreen Proxy
          ((St.Proxies Proxy).GetOrCreateRenderTarget St.Pool F.RtSize
            (IsEven F.NumAccumulations)).Texture F.Uid]) ∧
    ((decide (F.NumAccumulations < F.MaxSPP) &&
        (St.Proxies Proxy).Params.VdbDensity.isSome) = true →
      ∃ ParametersPS PermutationVector,
        ParametersPS.RenderTarget0 =
          ((St.Proxies Proxy).GetOrCreateRenderTarget St.Pool F.RtSize
            (IsEven F.NumAccumulations)).Texture ∧
        ParametersPS.PrevAccumTex =
          (((St.Proxies Proxy).GetOrCreateRenderTarget St.Pool F.RtSize
            (IsEven F.NumAccumulations)).Proxy.GetOrCreateRenderTarget
              ((St.Proxies Proxy).GetOrCreateRenderTarget St.Pool F.RtSize
                (IsEven F.NumAccumulations)).Pool F.RtSize
              (!IsEven F.NumAccumulations)).Texture ∧
        (RenderProxy Inverse F St Proxy).2 =
          FRDGPass.VdbPrincipledRendering Proxy ParametersPS PermutationVector ::
            (if F.UsePathTracing = true then
              [FRDGPass.CompositeFullscreen Proxy
                ((St.Proxies Proxy).GetOrCreateRenderTarget St.Pool F.RtSize
                  (IsEven F.NumAccumulations)).Texture F.Uid]
            else
              [FRDGPass.ApplyDenoising Proxy
                ((St.Proxies Proxy).GetOrCreateRenderTarget St.Pool F.RtSize
                  (IsEven F.NumAccumulations)).Texture F.DenoiserMethod,
               FRDGPass.CompositeFullscreen Proxy
                (VdbDenoiser.ApplyDenoising
                  ((St.Proxies Proxy).GetOrCreateRenderTarget St.Pool F.RtSize
                    (IsEven F.NumAccumulations)).Texture F.DenoiserMethod) F.Uid])) := by
  have hPar : ((((St.Proxies Proxy).GetOrCreateRenderTarget St.Pool F.RtSize
          (IsEven F.NumAccumulations)).Proxy.GetOrCreateRenderTarget
          ((St.Proxies Proxy).GetOrCreateRenderTarget St.Pool F.RtSize
            (IsEven F.NumAccumulations)).Pool F.RtSize
              (!IsEven F.NumAccumulations)).Proxy).Params = (St.Proxies Proxy).Params := by
    simp only [GetOrCreateRenderTarget_Params]
  constructor
  · intro hc
    unfold RenderProxy
    simp only [FVdbPrincipledSceneProxy.GetParams, hPar, hc, Bool.false_eq_true, if_false]
  · intro hc
    have hd : (St.Proxies Proxy).Params.VdbDensity.isSome = true := by
      simp only [Bool.and_eq_true] at hc; exact hc.2
    obtain ⟨ub, hub⟩ := CreateVdbUniformBuffer_isSome Inverse
      ((((St.Proxies Proxy).GetOrCreateRenderTarget St.Pool F.RtSize
          (IsEven F.NumAccumulations)).Proxy.GetOrCreateRenderTarget
          ((St.Proxies Proxy).GetOrCreateRenderTarget St.Pool F.RtSize
            (IsEven F.NumAccumulations)).Pool F.RtSize
              (!IsEven F.NumAccumulations)).Proxy) F.UsePathTracing (by rw [hPar]; exact hd)
    unfold RenderProxy
    simp only [FVdbPrincipledSceneProxy.GetParams, hPar, hc, if_true, hub]
    cases hpt : F.UsePathTracing
    · simp only [Bool.not_false, if_true, Bool.false_eq_true, if_false]
      refine ⟨_, _, ?_, ?_, rfl⟩ <;> rfl
    · simp only [Bool.not_true, if_true, Bool.false_eq_true, if_false]
      refine ⟨_, _, ?_, ?_, rfl⟩ <;> rfl

/-- C18: in a loop iteration the denoise step is issued exactly when the draw is issued and
path tracing is off; it then takes the current-parity texture as input and the composite
receives the denoiser's result; when no draw is issued or path tracing is on, the composite
receives the current-parity texture itself.  In path-tracing mode no iteration of the loop
issues a denoise step. -/
theorem C18_denoise_only_after_raster_draw (Inverse : FMatrix → FMatrix) (F : FFrame)
    (St : FRenderThreadState) (Proxy : ProxyPtr) :
    (RenderProxy Inverse F St Proxy).2.filter FRDGPass.IsDenoise =
      (if (RenderProxy Inverse F St Proxy).2.countP FRDGPass.IsDraw = 1 ∧
          F.UsePathTracing = false then
        [FRDGPass.ApplyDenoising Proxy
          ((St.Proxies Proxy).GetOrCreateRenderTarget St.Pool F.RtSize
            (IsEven F.NumAccumulations)).Texture F.DenoiserMethod]
      else []) ∧
    (RenderProxy Inverse F St Proxy).2.filterMap FRDGPass.Composited =
      [if (RenderProxy Inverse F St Proxy).2.countP FRDGPass.IsDraw = 1 ∧
          F.UsePathTracing = false then
        VdbDenoiser.ApplyDenoising
          ((St.Proxies Proxy).GetOrCreateRenderTarget St.Pool F.RtSize
            (IsEven F.NumAccumulations)).Texture F.DenoiserMethod
      else
        ((St.Proxies Proxy).GetOrCreateRenderTarget St.Pool F.RtSize
          (IsEven F.NumAccumulations)).Texture] ∧
    (F.UsePathTracing = true →
      ∀ (Candidates : List ProxyPtr) (St1 : FRenderThreadState),
        (RenderLoop Inverse F Candidates St1).2.countP FRDGPass.IsDenoise = 0) := by
  obtain ⟨s1, s2⟩ := RenderProxy_shape Inverse F St Proxy
  refine ⟨?_, ?_, ?_⟩
  · cases hc : (decide (F.NumAccumulations < F.MaxSPP) &&
        (St.Proxies Proxy).Params.VdbDensity.isSome)
    · rw [s1 hc]
      simp [FRDGPass.IsDenoise, FRDGPass.IsDraw]
    · obtain ⟨ps, pv, _, _, hs⟩ := s2 hc
      rw [hs]
      cases hpt : F.UsePathTracing <;> simp [FRDGPass.IsDenoise, FRDGPass.IsDraw]
  · cases hc : (decide (F.NumAccumulations < F.MaxSPP) &&
        (St.Proxies Proxy).Params.VdbDensity.isSome)
    · rw [s1 hc]
      simp [FRDGPass.Composited, FRDGPass.IsDraw]
    · obtain ⟨ps, pv, _, _, hs⟩ := s2 hc
      rw [hs]
      cases hpt : F.UsePathTracing <;> simp [FRDGPass.Composited, FRDGPass.IsDraw]
  · intro hpt Candidates St1
    obtain ⟨_, _, b3, _, _⟩ := RenderLoop_passes Inverse F Candidates St1
    rw [length_filter_map_eq, b3]
    simp [hpt]

/-- C18 on the raster scene: proxy 0 is drawn, and its composite receives the denoiser's result
for pool element 0. -/
theorem C18_denoise_witness :
    (RenderProxy id
      (FrameOf true 8 { VdbProxies := [0], DenoiserMethod := 2 } (SceneParameters false none))
      (SceneState [5]) 0).2.filterMap FRDGPass.Composited =
      [FRDGTexture.Denoised
        (FRDGTexture.External (some { Extent := { X := 64, Y := 64 }, Id := 0 })) 2] := by
  have h := (C18_denoise_only_after_raster_draw id
    (FrameOf true 8 { VdbProxies := [0], DenoiserMethod := 2 } (SceneParameters false none))
    (SceneState [5]) 0).2.1
  rw [h]
  decide

/-- C19: with the path-tracing flag off, for every value of the override and of the view's
target, the count is 0 and below the cap, so the draws of the frame are exactly those of the
sorted candidates with a non-null primary buffer; the current slot is slot 0 and the history
slot is slot 1: every draw writes the texture acquired for slot 0 and reads the texture
acquired for slot 1. -/
theorem C19_raster_never_freezes (Inverse : FMatrix → FMatrix) (RHI_RAYTRACING : Bool)
    (SamplesPerPixelCVar : Int) (R : FVdbPrincipledRendering)
    (Parameters : FPostOpaqueRenderParameters) (St : FRenderThreadState)
    (h : Parameters.View.PathTracing = false) :
    (FrameOf RHI_RAYTRACING SamplesPerPixelCVar R Parameters).NumAccumulations = 0 ∧
    0 < (FrameOf RHI_RAYTRACING SamplesPerPixelCVar R Parameters).MaxSPP ∧
    ((R.Render_RenderThread Inverse RHI_RAYTRACING SamplesPerPixelCVar Parameters St).2.filter
        FRDGPass.IsDraw).map FRDGPass.Proxy =
      (SortedVdbProxies R.VdbProxies St.Proxies Parameters).filter
        (fun p => (St.Proxies p).GetParams.VdbDensity.isSome) ∧
    IsEven (FrameOf RHI_RAYTRACING SamplesPerPixelCVar R Parameters).NumAccumulations = false ∧
    (∀ (St1 : FRenderThreadState) (Proxy : ProxyPtr),
      ∀ pass ∈ (RenderProxy Inverse (FrameOf RHI_RAYTRACING SamplesPerPixelCVar R Parameters)
          St1 Proxy).2, pass.IsDraw = true →
        pass.Writes =
          ((St1.Proxies Proxy).GetOrCreateRenderTarget St1.Pool Parameters.Extent false).Texture ∧
        pass.History = some
          (((St1.Proxies Proxy).GetOrCreateRenderTarget St1.Pool Parameters.Extent
            false).Proxy.GetOrCreateRenderTarget
              ((St1.Proxies Proxy).GetOrCreateRenderTarget St1.Pool Parameters.Extent false).Pool
              Parameters.Extent true).Texture) := by
  have hN : (FrameOf RHI_RAYTRACING SamplesPerPixelCVar R Parameters).NumAccumulations = 0 := by
    simp [FrameOf, NumAccumulations, h]
  have hM : 0 < (FrameOf RHI_RAYTRACING SamplesPerPixelCVar R Parameters).MaxSPP := by
    simp only [FrameOf, MaxSPP]
    omega
  have hE : IsEven (FrameOf RHI_RAYTRACING SamplesPerPixelCVar R Parameters).NumAccumulations
      = false := by
    rw [hN]; rfl
  have hR : (FrameOf RHI_RAYTRACING SamplesPerPixelCVar R Parameters).RtSize = Parameters.Extent :=
    rfl
  refine ⟨hN, hM, ?_, hE, ?_⟩
  · rw [Render_RenderThread_eq_RenderLoop]
    obtain ⟨_, b2, _, _, _⟩ := RenderLoop_passes Inverse
      (FrameOf RHI_RAYTRACING SamplesPerPixelCVar R Parameters)
      (SortedVdbProxies R.VdbProxies St.Proxies Parameters) St
    rw [b2]
    have hlt : (FrameOf RHI_RAYTRACING SamplesPerPixelCVar R Parameters).NumAccumulations <
        (FrameOf RHI_RAYTRACING SamplesPerPixelCVar R Parameters).MaxSPP := by omega
    simp only [hlt, decide_True, Bool.true_and, FVdbPrincipledSceneProxy.GetParams]
  · intro St1 Proxy pass hpass hdraw
    obtain ⟨s1, s2⟩ := RenderProxy_shape Inverse
      (FrameOf RHI_RAYTRACING SamplesPerPixelCVar R Parameters) St1 Proxy
    rw [hE, hR] at s1 s2
    cases hc : (decide ((FrameOf RHI_RAYTRACING SamplesPerPixelCVar R Parameters).NumAccumulations
        < (FrameOf RHI_RAYTRACING SamplesPerPixelCVar R Parameters).MaxSPP) &&
        (St1.Proxies Proxy).Params.VdbDensity.isSome)
    · rw [s1 hc, List.mem_singleton] at hpass
      subst hpass
      simp [FRDGPass.IsDraw] at hdraw
    · obtain ⟨ps, pv, t1, t2, hs⟩ := s2 hc
      rw [hs] at hpass
      rcases List.mem_cons.1 hpass with h1 | h1
      · subst h1
        simp only [FRDGPass.Writes, FRDGPass.History, t1, t2, Bool.not_false, and_self]
      · split_ifs at h1
        · rw [List.mem_singleton] at h1
          subst h1
          simp [FRDGPass.IsDraw] at hdraw
        · simp only [List.mem_cons, List.mem_singleton, List.not_mem_nil, or_false] at h1
          rcases h1 with h1 | h1 <;> subst h1 <;> simp [FRDGPass.IsDraw] at hdraw

/-- C19 on the raster scene with the override at 1: proxy 0 is drawn. -/
theorem C19_raster_witness :
    ((({ VdbProxies := [0], DenoiserMethod := 0 } : FVdbPrincipledRendering).Render_RenderThread
      id true 1 (SceneParameters false none) (SceneState [5])).2.filter
        FRDGPass.IsDraw).map FRDGPass.Proxy = [0] := by
  have h := (C19_raster_never_freezes id true 1 { VdbProxies := [0], DenoiserMethod := 0 }
    (SceneParameters false none) (SceneState [5]) rfl).2.2.1
  rw [h]
  decide

/-! ## Static geometry -/

/-- C16: the geometry built by `InitBuffers` from null buffers is a unit cube.  There are 8
vertices, their positions are pairwise distinct and are the 8 corners of `[0,1]^3`; there are
36 indices, each below 8, forming 12 triangles, none degenerate (non-zero cross-product
normal); each of the 6 faces carries exactly 2 triangles, which share a diagonal of the face
and together use its 4 corners; every triangle's normal points to the inner side of the cube,
so all 12 have the same winding; and the draw call's vertex count and primitive count are the
numbers of vertices and triangles built.  Buffers that are already valid are kept. -/
theorem C16_unit_cube_geometry :
    (InitBuffers { VertexBufferRHI := none, IndexBufferRHI := none }).VertexBufferRHI =
      some VolumeMeshVertices ∧
    (InitBuffers { VertexBufferRHI := none, IndexBufferRHI := none }).IndexBufferRHI =
      some VolumeMeshIndices ∧
    VolumeMeshVertices.length = 8 ∧
    (VolumeMeshVertices.map (fun v => v.Position)).Nodup ∧
    (∀ Corner ∈ UnitCubeCorners, some Corner ∈ VolumeMeshVertices.map (fun v => v.Position)) ∧
    (∀ v ∈ VolumeMeshVertices, ∃ Corner ∈ UnitCubeCorners, v.Position = some Corner) ∧
    VolumeMeshIndices.length = 36 ∧
    (∀ i ∈ VolumeMeshIndices, i < 8) ∧
    (TriangleList VolumeMeshIndices).length = 12 ∧
    (∀ T ∈ TriangleList VolumeMeshIndices,
      TriangleNormal VolumeMeshVertices T ≠ none ∧
      TriangleNormal VolumeMeshVertices T ≠ some { X := 0, Y := 0, Z := 0 }) ∧
    (∀ Face ∈ CubeFaces,
      ∃ T1 T2, FaceTriangles VolumeMeshVertices VolumeMeshIndices Face = [T1, T2] ∧
        ShareDiagonal VolumeMeshVertices T1 T2 = true) ∧
    (∀ T ∈ TriangleList VolumeMeshIndices,
      ∃ s, TriangleFacing VolumeMeshVertices T = some s ∧ s < 0) ∧
    VolumeDrawCall.NumVertices = VolumeMeshVertices.length ∧
    VolumeDrawCall.NumPrimitives = (TriangleList VolumeMeshIndices).length ∧
    (∀ (VB : List FFilterVertex) (IB : List Nat),
      InitBuffers { VertexBufferRHI := some VB, IndexBufferRHI := some IB } =
        { VertexBufferRHI := some VB, IndexBufferRHI := some IB }) := by
  refine ⟨rfl, rfl, by decide, by decide, by decide, by decide, by decide, by decide, by decide,
    by decide, ?_, ?_, by decide, by decide, fun _ _ => rfl⟩
  · intro Face hFace
    simp only [CubeFaces, List.mem_cons, List.mem_singleton, List.not_mem_nil, or_false] at hFace
    rcases hFace with h | h | h | h | h | h <;> subst h
    · exact ⟨(2, 4, 0), (2, 6, 4), by decide, by decide⟩
    · exact ⟨(1, 5, 3), (3, 5, 7), by decide, by decide⟩
    · exact ⟨(0, 4, 5), (1, 0, 5), by decide, by decide⟩
    · exact ⟨(3, 7, 6), (2, 3, 6), by decide, by decide⟩
    · exact ⟨(0, 1, 2), (1, 3, 2), by decide, by decide⟩
    · exact ⟨(5, 4, 6), (5, 6, 7), by decide, by decide⟩
  · intro T hT
    have hT2 : T ∈ [(0, 1, 2), (1, 3, 2), (1, 5, 3), (3, 5, 7), (3, 7, 6), (2, 3, 6), (2, 4, 0),
        (2, 6, 4), (0, 4, 5), (1, 0, 5), (5, 4, 6), (5, 6, 7)] := hT
    simp only [List.mem_cons, List.mem_singleton, List.not_mem_nil, or_false] at hT2
    rcases hT2 with h | h | h | h | h | h | h | h | h | h | h | h <;> subst h <;>
      exact ⟨_, rfl, by decide⟩

end Vdb
